import Mathlib

/-! # slsa-verifier: builder identity and ref policy

A shallow embedding of the builder-trust code of the verifier
(`verifiers/internal/gha/builder.go`, `verifiers/utils/builder.go`,
`errors/errors.go`), the extraction of the workflow identity from the
certificate extensions included, together with the parts of the Go standard
library (`strings`) and of `golang.org/x/mod/semver` that this code calls.
The decoder `asn1.Unmarshal` of the standard library is a parameter.

Go strings are byte sequences.  They are embedded as lists of characters:
every separator, cutset and literal the embedded code compares against is
ASCII, so on UTF-8 text splitting, trimming and prefix tests act on
characters exactly as they act on bytes.  Where the code takes the length of
a string, `len` counts the bytes of its characters in UTF-8.
-/

set_option autoImplicit false

/-- A Go `string`. -/
abbrev Str := List Char

/-- Go `len(s)` for a string: the number of bytes, each character counting
with the size of its UTF-8 encoding. -/
def len (s : Str) : Nat :=
  (s.map Char.utf8Size).sum

/-- How a call ends: it returns its results, or the runtime stops it with a
panic on the dereference of a nil pointer. -/
inductive Run (α : Type) where
  | returned (a : α)
  | nilDereference
  deriving DecidableEq, Repr

/-! ## `errors/errors.go` -/

/-- The sentinel errors of `errors/errors.go`, followed by the bundle errors
of `verifiers/internal/gha/bundle.go`.  A returned Go error is represented by
the sentinel it wraps with `%w`, which is what `errors.Is` observes. -/
inductive Err where
  | ErrorInvalidDssePayload
  | ErrorMismatchBranch
  | ErrorMismatchPackageVersion
  | ErrorMismatchPackageName
  | ErrorMismatchBuilderID
  | ErrorInvalidBuilderID
  | ErrorInvalidBuildType
  | ErrorMismatchSource
  | ErrorMismatchWorkflowInputs
  | ErrorMalformedURI
  | ErrorMismatchCertificate
  | ErrorInvalidCertificate
  | ErrorMismatchTag
  | ErrorInvalidRecipe
  | ErrorMismatchVersionedTag
  | ErrorInvalidSemver
  | ErrorRekorSearch
  | ErrorMismatchHash
  | ErrorNonVerifiableClaim
  | ErrorMismatchIntoto
  | ErrorInvalidRef
  | ErrorUntrustedReusableWorkflow
  | ErrorNoValidRekorEntries
  | ErrorVerifierNotSupported
  | ErrorInvalidOIDCIssuer
  | ErrorNotSupported
  | ErrorInvalidFormat
  | ErrorInvalidPEM
  | ErrorInvalidSignature
  | ErrorNoValidSignature
  | ErrorMutableImage
  | ErrorImageHash
  | ErrorInvalidEncoding
  | ErrorInternal
  | ErrorInvalidRekorEntry
  | ErrorRekorPubKey
  | ErrorInvalidPackageName
  | ErrorInvalidSubject
  | ErrorInvalidHash
  | ErrorNotPresent
  | ErrorInvalidPublicKey
  | ErrorInvalidHashAlgo
  | ErrorInvalidVerificationResult
  | ErrorMismatchVerifiedLevels
  | ErrorMissingSubjectDigest
  | ErrorEmptyRequiredField
  | ErrorMismatchResourceURI
  | ErrorMismatchVerifierID
  | ErrorMismatchSignature
  | ErrorUnequalSignatures
  | ErrorNoSignatures
  | ErrorUnexpectedEntryType
  | ErrorParsingEntryBody
  | ErrorMissingCertInBundle
  | ErrorUnexpectedBundleContent
  /-- An error that wraps none of the sentinels above: an error of
  `encoding/asn1`, or a bare `fmt.Errorf` message. -/
  | other
  deriving DecidableEq, Repr

/-- Equality of Go results is decidable, so that outcomes can be evaluated. -/
instance instDecidableEqExcept {ε α : Type} [DecidableEq ε] [DecidableEq α] :
    DecidableEq (Except ε α)
  | .ok a, .ok b =>
    if h : a = b then isTrue (by rw [h]) else isFalse (fun h2 => h (Except.ok.inj h2))
  | .error a, .error b =>
    if h : a = b then isTrue (by rw [h]) else isFalse (fun h2 => h (Except.error.inj h2))
  | .ok _, .error _ => isFalse (fun h => Except.noConfusion h)
  | .error _, .ok _ => isFalse (fun h => Except.noConfusion h)

/-! ## Go `strings` -/

namespace strings

/-- Go `strings.Split(s, sep)` for a one-byte separator, the only kind the
embedded code passes.  The result always has at least one element. -/
def Split : Str → Char → List Str
  | [], _ => [[]]
  | c :: cs, sep =>
    if c = sep then [] :: Split cs sep
    else
      match Split cs sep with
      | [] => [[c]]
      | h :: t => (c :: h) :: t

/-- Go `strings.IndexByte(s, c)`: position of the first `c`, if any. -/
def IndexByte : Str → Char → Option Nat
  | [], _ => none
  | c :: cs, sep =>
    if c = sep then some 0
    else
      match IndexByte cs sep with
      | none => none
      | some m => some (m + 1)

/-- Go `strings.SplitN(s, sep, n)` for a one-byte separator and `n ≥ 0`:
at most `n` parts, the last one holding the unsplit remainder. -/
def SplitN (s : Str) (sep : Char) : Nat → List Str
  | 0 => []
  | 1 => [s]
  | n + 2 =>
    match IndexByte s sep with
    | none => [s]
    | some m => s.take m :: SplitN (s.drop (m + 1)) sep (n + 1)

/-- Go `strings.TrimLeft(s, cutset)` for a one-byte cutset. -/
def TrimLeft (s : Str) (c : Char) : Str :=
  s.dropWhile (fun x => decide (x = c))

/-- Go `strings.TrimRight(s, cutset)` for a one-byte cutset. -/
def TrimRight (s : Str) (c : Char) : Str :=
  s.rdropWhile (fun x => decide (x = c))

/-- Go `strings.Trim(s, cutset)` for a one-byte cutset. -/
def Trim (s : Str) (c : Char) : Str :=
  TrimLeft (TrimRight s c) c

/-- Go `strings.HasPrefix`. -/
def HasPrefix (s pre : Str) : Bool :=
  pre.isPrefixOf s

/-- Go `strings.TrimPrefix`. -/
def TrimPrefix (s pre : Str) : Str :=
  if HasPrefix s pre then s.drop pre.length else s

/-- Go `strings.Contains(s, substr)`: `substr` occurs somewhere in `s`. -/
def Contains : Str → Str → Bool
  | [], substr => substr.isEmpty
  | c :: cs, substr => HasPrefix (c :: cs) substr || Contains cs substr

end strings

/-! ## `golang.org/x/mod/semver`

The verifier imports this library; its `parse` and the three accessors the
ref policy calls are embedded from the library's source. -/

namespace semver

/-- The record `parsed` of the library. -/
structure parsed where
  major : Str
  minor : Str
  patch : Str
  short : Str
  prerelease : Str
  build : Str
  deriving DecidableEq, Repr

/-- The test `'0' <= c && c <= '9'` used by the scanning loops. -/
def isDigit (c : Char) : Bool :=
  decide ('0' ≤ c) && decide (c ≤ '9')

/-- The loop `for i < len(v) && '0' <= v[i] && v[i] <= '9' { i++ }`:
the number of steps it takes on the remaining input. -/
def digitRun : Str → Nat
  | [] => 0
  | c :: cs => if isDigit c then digitRun cs + 1 else 0

/-- The function `parseInt` of the library: `(t, rest)` on success. -/
def parseInt (v : Str) : Option (Str × Str) :=
  match v with
  | [] => none
  | c :: cs =>
    if decide (c < '0') || decide ('9' < c) then none
    else
      let i := 1 + digitRun cs
      if c = '0' ∧ i ≠ 1 then none
      else some (v.take i, v.drop i)

/-- The function `isIdentChar` of the library. -/
def isIdentChar (c : Char) : Bool :=
  (decide ('A' ≤ c) && decide (c ≤ 'Z')) || (decide ('a' ≤ c) && decide (c ≤ 'z')) ||
    (decide ('0' ≤ c) && decide (c ≤ '9')) || decide (c = '-')

/-- The function `isBadNum` of the library. -/
def isBadNum (v : Str) : Bool :=
  let i := digitRun v
  decide (i = v.length) && decide (i > 1) && decide (v.head? = some '0')

/-- The slice `v[a:b]`. -/
def slice (v : Str) (a b : Nat) : Str :=
  (v.take b).drop a

/-- The scanning loop of `parsePrerelease`, at index `i` with `rest = v[i:]`:
the index at which the prerelease ends, or `none` for a syntax error. -/
def prereleaseLoop (v : Str) : Str → Nat → Nat → Option Nat
  | [], i, start =>
    if start = i ∨ isBadNum (slice v start i) = true then none else some i
  | c :: cs, i, start =>
    if c = '+' then
      if start = i ∨ isBadNum (slice v start i) = true then none else some i
    else if isIdentChar c = false ∧ c ≠ '.' then none
    else if c = '.' then
      if start = i ∨ isBadNum (slice v start i) = true then none
      else prereleaseLoop v cs (i + 1) (i + 1)
    else prereleaseLoop v cs (i + 1) start

/-- The function `parsePrerelease` of the library. -/
def parsePrerelease (v : Str) : Option (Str × Str) :=
  match v with
  | [] => none
  | c :: cs =>
    if c ≠ '-' then none
    else
      match prereleaseLoop v cs 1 1 with
      | none => none
      | some i => some (v.take i, v.drop i)

/-- The scanning loop of `parseBuild`, at index `i`. -/
def buildLoop : Str → Nat → Nat → Option Nat
  | [], i, start => if start = i then none else some i
  | c :: cs, i, start =>
    if isIdentChar c = false ∧ c ≠ '.' then none
    else if c = '.' then
      if start = i then none else buildLoop cs (i + 1) (i + 1)
    else buildLoop cs (i + 1) start

/-- The function `parseBuild` of the library. -/
def parseBuild (v : Str) : Option (Str × Str) :=
  match v with
  | [] => none
  | c :: cs =>
    if c ≠ '+' then none
    else
      match buildLoop cs 1 1 with
      | none => none
      | some i => some (v.take i, v.drop i)

/-- The tail of `parse` after the patch number: optional prerelease,
optional build, then end of input. -/
def parseTail (major minor patch : Str) (v : Str) : Option parsed :=
  let afterPre : Option (Str × Str) :=
    if v.head? = some '-' then parsePrerelease v else some ([], v)
  match afterPre with
  | none => none
  | some (pre, v1) =>
    let afterBuild : Option (Str × Str) :=
      if v1.head? = some '+' then parseBuild v1 else some ([], v1)
    match afterBuild with
    | none => none
    | some (bld, v2) =>
      if v2 ≠ [] then none
      else some ⟨major, minor, patch, [], pre, bld⟩

/-- The function `parse` of the library; `none` when `ok` is false. -/
def parse (v : Str) : Option parsed :=
  match v with
  | [] => none
  | c :: v0 =>
    if c ≠ 'v' then none
    else
      match parseInt v0 with
      | none => none
      | some (major, v1) =>
        match v1 with
        | [] => some ⟨major, ['0'], ['0'], ".0.0".toList, [], []⟩
        | c1 :: v1t =>
          if c1 ≠ '.' then none
          else
            match parseInt v1t with
            | none => none
            | some (minor, v2) =>
              match v2 with
              | [] => some ⟨major, minor, ['0'], ".0".toList, [], []⟩
              | c2 :: v2t =>
                if c2 ≠ '.' then none
                else
                  match parseInt v2t with
                  | none => none
                  | some (patch, v3) => parseTail major minor patch v3

/-- The function `semver.IsValid`. -/
def IsValid (v : Str) : Bool :=
  (parse v).isSome

/-- The function `semver.Prerelease`. -/
def Prerelease (v : Str) : Str :=
  match parse v with
  | none => []
  | some pv => pv.prerelease

/-- The function `semver.Build`. -/
def Build (v : Str) : Str :=
  match parse v with
  | none => []
  | some pv => pv.build

end semver

/-! ## `verifiers/utils/builder.go` -/

namespace utils

/-- The struct `TrustedBuilderID`. -/
structure TrustedBuilderID where
  name : Str
  version : Str
  deriving DecidableEq, Repr

/-- The function `ParseBuilderID`: `(name, version)` or an error. -/
def ParseBuilderID (id : Str) (needVersion : Bool) : Except Err (Str × Str) :=
  match strings.Split id '@' with
  | [p0, p1] =>
    if p1 = [] then .error Err.ErrorInvalidFormat
    else .ok (p0, p1)
  | [p0] =>
    if needVersion = false then .ok (p0, [])
    else .error Err.ErrorInvalidFormat
  | _ => .error Err.ErrorInvalidFormat

/-- The function `TrustedBuilderIDNew`; it asks `ParseBuilderID` for a
version, which is also what its callers in `gha/builder.go` request. -/
def TrustedBuilderIDNew (builderID : Str) : Except Err TrustedBuilderID :=
  match ParseBuilderID builderID true with
  | .error e => .error e
  | .ok (name, version) => .ok ⟨name, version⟩

/-- The method `TrustedBuilderID.Matches`. -/
def TrustedBuilderID.Matches (b : TrustedBuilderID) (builderID : Str) (allowRef : Bool) :
    Except Err Unit :=
  match ParseBuilderID builderID false with
  | .error e => .error e
  | .ok (name, version) =>
    if name ≠ b.name then .error Err.ErrorMismatchBuilderID
    else if version ≠ [] ∧ version ≠ b.version then
      if allowRef = true ∧ "refs/tags/".toList ++ version = b.version then .ok ()
      else .error Err.ErrorMismatchBuilderID
    else .ok ()

/-- Modelled from the spec: the method `MatchesLoose` that `gha/builder.go`
calls is not declared in the `utils/builder.go` at hand.  The loose match of
the spec (exact name; exact version, or with `allowRef` the stored version
equal to `refs/tags/` followed by the candidate version) is what the method
`Matches` declared there computes, with the same receiver and parameters. -/
def TrustedBuilderID.MatchesLoose (b : TrustedBuilderID) (builderID : Str) (allowRef : Bool) :
    Except Err Unit :=
  b.Matches builderID allowRef

/-- The method `TrustedBuilderID.Name`. -/
def TrustedBuilderID.Name (b : TrustedBuilderID) : Str :=
  b.name

/-- The method `TrustedBuilderID.Version`. -/
def TrustedBuilderID.Version (b : TrustedBuilderID) : Str :=
  b.version

/-- The method `TrustedBuilderID.String`: `fmt.Sprintf("%s@%s", name, version)`. -/
def TrustedBuilderID.String (b : TrustedBuilderID) : Str :=
  b.name ++ '@' :: b.version

/-- The function `ValidateGitHubTagRef`. -/
def ValidateGitHubTagRef (tag : Str) : Except Err Unit :=
  if strings.HasPrefix tag "refs/tags/".toList = false then .error Err.ErrorInvalidRef
  else .ok ()

/-- The function `TagFromGitHubRef`. -/
def TagFromGitHubRef (ref : Str) : Except Err Str :=
  match ValidateGitHubTagRef ref with
  | .error e => .error e
  | .ok _ => .ok (strings.TrimPrefix ref "refs/tags/".toList)

end utils

/-! ## `verifiers/internal/gha/builder.go` -/

namespace gha

open utils

def trustedBuilderRepository : Str := "slsa-framework/slsa-github-generator".toList
def e2eTestRepository : Str := "slsa-framework/example-package".toList
def certOidcIssuer : Str := "https://token.actions.githubusercontent.com".toList
def githubCom : Str := "github.com/".toList
def httpsGithubCom : Str := "https://".toList ++ githubCom

/-- The type `Hosted`. -/
inductive Hosted where
  | HostedSelf
  | HostedGitHub
  deriving DecidableEq, Repr

/-- The struct `WorkflowIdentity`; a pointer field is an `Option`. -/
structure WorkflowIdentity where
  SourceRepository : Str
  SourceSha1 : Str
  SourceRef : Option Str
  SourceID : Option Str
  SourceOwnerID : Option Str
  SubjectWorkflowRef : Str
  SubjectSha1 : Option Str
  SubjectHosted : Option Hosted
  BuildTrigger : Str
  BuildConfigPath : Option Str
  RunID : Option Str
  Issuer : Str
  deriving DecidableEq, Repr

/-- The struct `options.BuilderOpts`, of which the code reads `ExpectedID`
(a `*string`). -/
structure BuilderOpts where
  ExpectedID : Option Str
  deriving DecidableEq, Repr

/-- A Go `map[string]bool`, as its list of entries; `lookup` is the
two-value index expression `v, ok := m[k]`. -/
abbrev StrSet := List (Str × Bool)

/-- The function `verifyTrustedBuilderID`. -/
def verifyTrustedBuilderID (certPath certTag : Str) (expectedBuilderID : Option Str)
    (defaultBuilders : StrSet) : Except Err TrustedBuilderID :=
  let certBuilderName := httpsGithubCom ++ certPath
  if expectedBuilderID = none ∨ expectedBuilderID = some [] then
    match defaultBuilders.lookup certPath with
    | none => .error Err.ErrorUntrustedReusableWorkflow
    | some _ => TrustedBuilderIDNew (certBuilderName ++ '@' :: certTag)
  else
    match TrustedBuilderIDNew (certBuilderName ++ '@' :: certTag) with
    | .error e => .error e
    | .ok trustedBuilderID =>
      match trustedBuilderID.MatchesLoose (expectedBuilderID.getD []) true with
      | .error _ => .error Err.ErrorUntrustedReusableWorkflow
      | .ok _ => .ok trustedBuilderID

/-- The function `verifyTrustedBuilderRef`; `testingEnabled` is the value of
`options.TestingEnabled()`. -/
def verifyTrustedBuilderRef (testingEnabled : Bool) (id : WorkflowIdentity) (ref : Str) :
    Except Err Unit :=
  if (id.SourceRepository = trustedBuilderRepository ∨
      id.SourceRepository = e2eTestRepository) ∧ testingEnabled = true then
    if ref = "refs/heads/main".toList then .ok ()
    else
      match TagFromGitHubRef ref with
      | .error e => .error e
      | .ok pin =>
        let versionCore := (strings.Split pin '-').headD []
        if semver.IsValid pin = false ∨ (strings.Split versionCore '.').length ≠ 3 ∨
            semver.Build pin ≠ [] then .error Err.ErrorInvalidRef
        else .ok ()
  else
    match TagFromGitHubRef ref with
    | .error e => .error e
    | .ok pin =>
      if ¬ (semver.IsValid pin = true ∧ (strings.Split pin '.').length = 3 ∧
          semver.Prerelease pin = [] ∧ semver.Build pin = []) then .error Err.ErrorInvalidRef
      else .ok ()

/-- The function `VerifyBuilderIdentity`. -/
def VerifyBuilderIdentity (testingEnabled : Bool) (id : WorkflowIdentity)
    (builderOpts : BuilderOpts) (defaultBuilders : StrSet) : Except Err TrustedBuilderID :=
  if id.Issuer ≠ certOidcIssuer then .error Err.ErrorInvalidOIDCIssuer
  else
    match strings.SplitN id.SubjectWorkflowRef '@' 2 with
    | p0 :: p1 :: _ =>
      let reusableWorkflowPath := strings.Trim p0 '/'
      let reusableWorkflowTag := strings.Trim p1 '/'
      match verifyTrustedBuilderID reusableWorkflowPath reusableWorkflowTag
          builderOpts.ExpectedID defaultBuilders with
      | .error e => .error e
      | .ok builderID =>
        match verifyTrustedBuilderRef testingEnabled id reusableWorkflowTag with
        | .error e => .error e
        | .ok _ => .ok builderID
    | _ => .error Err.ErrorMalformedURI

end gha

/-! ## `verifiers/internal/gha/builder.go`: the certificate extensions -/

namespace gha

/-- A `pkix.Extension`: `Id` is the dotted form given by `ext.Id.String()`,
`Value` the raw bytes of the extension. -/
structure Extension where
  Id : Str
  Value : Str
  deriving DecidableEq, Repr

/-- A `url.URL`, of which the code reads `Path`. -/
structure URL where
  Path : Str
  deriving DecidableEq, Repr

/-- An `x509.Certificate`, of which the code reads `Extensions` and `URIs`. -/
structure Certificate where
  Extensions : List Extension
  URIs : List URL
  deriving DecidableEq, Repr

/-- The call `asn1.Unmarshal(ext.Value, &decoded)` with a `string` target:
the decoded string and the bytes left over, or `none` for an error.  The
decoder of `encoding/asn1` is a parameter of the embedding. -/
abbrev Asn1Unmarshal := Str → Option (Str × Str)

/-- The loop of `getExtension` over `cert.Extensions`. -/
def getExtensionLoop (unmarshal : Asn1Unmarshal) (oid : Str) (encoded : Bool) :
    List Extension → Except Err Str
  | [] => .ok []
  | ext :: exts =>
    if strings.Contains ext.Id oid = true then
      if encoded = false then .ok ext.Value
      else
        match unmarshal ext.Value with
        | none => .error Err.other
        | some (decoded, rest) =>
          if rest.length ≠ 0 then .error Err.other
          else .ok decoded
    else getExtensionLoop unmarshal oid encoded exts

/-- The function `getExtension`. -/
def getExtension (unmarshal : Asn1Unmarshal) (cert : Certificate) (oid : Str)
    (encoded : Bool) : Except Err Str :=
  getExtensionLoop unmarshal oid encoded cert.Extensions

/-- The function `getHosted`. -/
def getHosted (unmarshal : Asn1Unmarshal) (cert : Certificate) : Except Err Hosted :=
  match getExtension unmarshal cert "1.3.6.1.4.1.57264.1.11".toList true with
  | .error e => .error e
  | .ok runnerEnv =>
    if runnerEnv = "github-hosted".toList then .ok Hosted.HostedGitHub
    else .ok Hosted.HostedSelf

/-- The function `validateClaimsEqual`. -/
def validateClaimsEqual (deprecated new : Str) : Except Err Unit :=
  if deprecated ≠ [] ∧ new ≠ [] ∧ deprecated ≠ new then .error Err.ErrorInvalidFormat
  else .ok ()

/-- The function `GetWorkflowInfoFromCertificate`. -/
def GetWorkflowInfoFromCertificate (unmarshal : Asn1Unmarshal) (cert : Certificate) :
    Except Err WorkflowIdentity :=
  if cert.URIs.length = 0 then .error Err.ErrorInvalidFormat else
  match getExtension unmarshal cert "1.3.6.1.4.1.57264.1.2".toList false with
  | .error e => .error e
  | .ok deprecatedBuildTrigger =>
  match getExtension unmarshal cert "1.3.6.1.4.1.57264.1.20".toList true with
  | .error e => .error e
  | .ok buildTrigger0 =>
  match validateClaimsEqual deprecatedBuildTrigger buildTrigger0 with
  | .error e => .error e
  | .ok _ =>
  let buildTrigger := if buildTrigger0 = [] then deprecatedBuildTrigger else buildTrigger0
  match getExtension unmarshal cert "1.3.6.1.4.1.57264.1.3".toList false with
  | .error e => .error e
  | .ok deprecatedSourceSha1 =>
  match getExtension unmarshal cert "1.3.6.1.4.1.57264.1.5".toList false with
  | .error e => .error e
  | .ok deprecatedSourceRepository =>
  match getExtension unmarshal cert "1.3.6.1.4.1.57264.1.12".toList true with
  | .error e => .error e
  | .ok sourceURI =>
  if deprecatedSourceRepository ≠ [] ∧
      "https://github.com/".toList ++ deprecatedSourceRepository ≠ sourceURI then
    .error Err.ErrorInvalidFormat else
  let sourceRepository0 := strings.TrimPrefix sourceURI "https://github.com/".toList
  let sourceRepository :=
    if sourceRepository0 = [] then deprecatedSourceRepository else sourceRepository0
  match getExtension unmarshal cert "1.3.6.1.4.1.57264.1.1".toList false with
  | .error e => .error e
  | .ok issuerV1 =>
  match getExtension unmarshal cert "1.3.6.1.4.1.57264.1.8".toList true with
  | .error e => .error e
  | .ok issuerV2 =>
  if issuerV1 ≠ issuerV2 then .error Err.ErrorInvalidFormat else
  match getExtension unmarshal cert "1.3.6.1.4.1.57264.1.10".toList true with
  | .error e => .error e
  | .ok subjectSha1 =>
  match getHosted unmarshal cert with
  | .error e => .error e
  | .ok subjectHosted =>
  match getExtension unmarshal cert "1.3.6.1.4.1.57264.1.13".toList true with
  | .error e => .error e
  | .ok sourceSha1 =>
  match validateClaimsEqual deprecatedSourceSha1 sourceSha1 with
  | .error e => .error e
  | .ok _ =>
  match getExtension unmarshal cert "1.3.6.1.4.1.57264.1.14".toList true with
  | .error e => .error e
  | .ok sourceRef =>
  match getExtension unmarshal cert "1.3.6.1.4.1.57264.1.15".toList true with
  | .error e => .error e
  | .ok sourceID =>
  match getExtension unmarshal cert "1.3.6.1.4.1.57264.1.17".toList true with
  | .error e => .error e
  | .ok sourceOwnerID =>
  match getExtension unmarshal cert "1.3.6.1.4.1.57264.1.19".toList true with
  | .error e => .error e
  | .ok buildConfigSha1 =>
  if buildConfigSha1 ≠ sourceSha1 then .error Err.ErrorInvalidFormat else
  match getExtension unmarshal cert "1.3.6.1.4.1.57264.1.21".toList true with
  | .error e => .error e
  | .ok runURI =>
  let runID := strings.TrimPrefix runURI
    ("https://github.com/".toList ++ sourceRepository ++ "/actions/runs/".toList)
  match getExtension unmarshal cert "1.3.6.1.4.1.57264.1.18".toList true with
  | .error e => .error e
  | .ok buildConfigURI =>
  let parts := strings.Split buildConfigURI '@'
  if parts.length ≠ 2 then .error Err.ErrorInvalidFormat else
  let pre := "https://github.com/".toList ++ sourceRepository ++ "/".toList
  if strings.HasPrefix (parts.headD []) pre = false then .error Err.ErrorInvalidFormat else
  let buildConfigPath := strings.TrimPrefix (parts.headD []) pre
  let path := (cert.URIs.headD ⟨[]⟩).Path
  if strings.HasPrefix path "/".toList = false then .error Err.ErrorInvalidFormat else
  .ok {
    Issuer := issuerV2
    SubjectWorkflowRef := path.drop 1
    SubjectSha1 := some subjectSha1
    SubjectHosted := some subjectHosted
    SourceRepository := sourceRepository
    SourceSha1 := sourceSha1
    SourceRef := some sourceRef
    SourceID := some sourceID
    SourceOwnerID := some sourceOwnerID
    BuildTrigger := buildTrigger
    BuildConfigPath := some buildConfigPath
    RunID := some runID }

end gha

/-! ## `verifiers/internal/gha/bundle.go` -/

namespace gha

/-- A `dsselib.Signature`. -/
structure Signature where
  KeyID : Str
  Sig : Str
  deriving DecidableEq, Repr

/-- A `dsselib.Envelope`. -/
structure Envelope where
  PayloadType : Str
  Payload : Str
  Signatures : List Signature
  deriving DecidableEq, Repr

/-- The kind and version of a log entry (`v1.KindVersion`). -/
structure KindVersion where
  Kind : Str
  Version : Str
  deriving DecidableEq, Repr

/-- A `v1.TransparencyLogEntry`, with the fields the code reads.  The field
`KindVersion` is a pointer: `none` is the nil that `GetKindVersion()` returns
for an entry without kind and version. -/
structure TransparencyLogEntry where
  KindVersion : Option KindVersion
  CanonicalizedBody : Str
  LogIdKeyId : Str
  IntegratedTime : Int
  LogIndex : Int
  SignedEntryTimestamp : Str
  deriving DecidableEq, Repr

/-- A `models.LogEntryAnon`, as `verifyRekorEntryFromBundle` fills it. -/
structure LogEntryAnon where
  Body : Str
  IntegratedTime : Int
  LogIndex : Int
  LogID : Str
  SignedEntryTimestamp : Str
  deriving DecidableEq, Repr

/-- A signature of the envelope inside a bundle (protobuf). -/
structure BundleSignature where
  Keyid : Str
  Sig : Str
  deriving DecidableEq, Repr

/-- The DSSE envelope inside a bundle (protobuf). -/
structure BundleEnvelope where
  PayloadType : Str
  Payload : Str
  Signatures : List BundleSignature
  deriving DecidableEq, Repr

/-- The verification material of a bundle: log entries, the raw certificates
of the chain, the public key. -/
structure VerificationMaterial where
  TlogEntries : List TransparencyLogEntry
  Certificates : List Str
  PublicKey : Option Str
  deriving DecidableEq, Repr

/-- A `bundle_v1.Bundle`. -/
structure Bundle where
  VerificationMaterial : Option VerificationMaterial
  DsseEnvelope : Option BundleEnvelope
  deriving DecidableEq, Repr

/-- The struct `SignedAttestation`. -/
structure SignedAttestation where
  SigningCert : Option Certificate
  PublicKey : Option Str
  Envelope : Envelope
  RekorEntry : LogEntryAnon
  deriving DecidableEq, Repr

/-- The library functions that the bundle code calls, as parameters of the
embedding: `base64.StdEncoding.EncodeToString`, `hex.EncodeToString`,
`x509.ParseCertificate`, and the JSON decoding of a canonical body into the
signatures it records, for the two schemas; a decoder returns `none` where the
Go code gets an error.  The decoded items are pointers to structs whose
signature field is a pointer: `intotoV002Signatures` gives for each item the
string `canonicalSig.Sig.String()`, `dsseV001Signatures` the string
`*canonicalSig.Signature`, and `none` for an item of which one of the two
pointers is nil. -/
structure Codecs where
  base64Encode : Str → Str
  hexEncode : Str → Str
  parseCertificate : Str → Option Certificate
  intotoV002Signatures : Str → Option (List (Option Str))
  dsseV001Signatures : Str → Option (List (Option Str))

/-- The function `verifyRekorEntryFromBundle`; `verifyTlogEntry` is the check
of the entry against the trusted root. -/
def verifyRekorEntryFromBundle (c : Codecs) (verifyTlogEntry : LogEntryAnon → Except Err Unit)
    (tlogEntry : TransparencyLogEntry) : Except Err LogEntryAnon :=
  let rekorEntry : LogEntryAnon :=
    { Body := tlogEntry.CanonicalizedBody
      IntegratedTime := tlogEntry.IntegratedTime
      LogIndex := tlogEntry.LogIndex
      LogID := c.hexEncode tlogEntry.LogIdKeyId
      SignedEntryTimestamp := tlogEntry.SignedEntryTimestamp }
  match verifyTlogEntry rekorEntry with
  | .error e => .error e
  | .ok _ => .ok rekorEntry

/-- The function `getEnvelopeFromBundle`. -/
def getEnvelopeFromBundle (c : Codecs) (bundle : Bundle) : Except Err Envelope :=
  match bundle.DsseEnvelope with
  | none => .error Err.ErrorUnexpectedBundleContent
  | some dsseEnvelope =>
    .ok { PayloadType := dsseEnvelope.PayloadType
          Payload := c.base64Encode dsseEnvelope.Payload
          Signatures := dsseEnvelope.Signatures.map
            (fun sig => { KeyID := sig.Keyid, Sig := c.base64Encode sig.Sig }) }

/-- The function `getLeafCertFromBundle`. -/
def getLeafCertFromBundle (c : Codecs) (bundle : Bundle) : Except Err Certificate :=
  let certChain :=
    match bundle.VerificationMaterial with
    | none => []
    | some vm => vm.Certificates
  match certChain with
  | [] => .error Err.ErrorMissingCertInBundle
  | certBytes :: _ =>
    match c.parseCertificate certBytes with
    | none => .error Err.other
    | some cert => .ok cert

/-- The call `slices.ContainsFunc(signatures, f)` of both matching functions,
where `f` compares the signature of a recorded item with the encoded envelope
signature: the items are tried in order up to the first one for which `f`
holds, and `f` dereferences the item and its signature. -/
def containsSignature (encodedEnvSig : Str) : List (Option Str) → Run Bool
  | [] => .returned false
  | none :: _ => .nilDereference
  | some canonicalSig :: signatures =>
    if canonicalSig = encodedEnvSig then .returned true
    else containsSignature encodedEnvSig signatures

/-- The loop `for _, sig := range env.Signatures` of both matching functions:
every envelope signature, passed through `encode`, has to be among the
recorded signatures. -/
def matchSignatures (encode : Str → Str) (canonical : List (Option Str)) :
    List Signature → Run (Except Err Unit)
  | [] => .returned (.ok ())
  | sig :: sigs =>
    match containsSignature (encode sig.Sig) canonical with
    | .nilDereference => .nilDereference
    | .returned false => .returned (.error Err.ErrorMismatchSignature)
    | .returned true => matchSignatures encode canonical sigs

/-- The function `matchRekorEntryWithEnvelopeIntotov002`. -/
def matchRekorEntryWithEnvelopeIntotov002 (c : Codecs) (tlogEntry : TransparencyLogEntry)
    (env : Envelope) : Run (Except Err Unit) :=
  match c.intotoV002Signatures tlogEntry.CanonicalizedBody with
  | none => .returned (.error Err.ErrorParsingEntryBody)
  | some signatures =>
    if env.Signatures.length ≠ signatures.length then
      .returned (.error Err.ErrorUnequalSignatures)
    else matchSignatures c.base64Encode signatures env.Signatures

/-- The function `matchRekorEntryWithEnvelopeDSSEv001`. -/
def matchRekorEntryWithEnvelopeDSSEv001 (c : Codecs) (tlogEntry : TransparencyLogEntry)
    (env : Envelope) : Run (Except Err Unit) :=
  match c.dsseV001Signatures tlogEntry.CanonicalizedBody with
  | none => .returned (.error Err.ErrorParsingEntryBody)
  | some signatures =>
    if env.Signatures.length ≠ signatures.length then
      .returned (.error Err.ErrorUnequalSignatures)
    else matchSignatures (fun s => s) signatures env.Signatures

/-- The function `matchRekorEntryWithEnvelope`; reading `kindVersion.Kind`
dereferences the pointer that `GetKindVersion()` has returned. -/
def matchRekorEntryWithEnvelope (c : Codecs) (tlogEntry : TransparencyLogEntry)
    (env : Envelope) : Run (Except Err Unit) :=
  if env.Signatures.length = 0 then .returned (.error Err.ErrorNoSignatures)
  else
    match tlogEntry.KindVersion with
    | none => .nilDereference
    | some kindVersion =>
      if kindVersion.Kind = "intoto".toList ∧ kindVersion.Version = "0.0.2".toList then
        matchRekorEntryWithEnvelopeIntotov002 c tlogEntry env
      else if kindVersion.Kind = "dsse".toList ∧ kindVersion.Version = "0.0.1".toList then
        matchRekorEntryWithEnvelopeDSSEv001 c tlogEntry env
      else .returned (.error Err.ErrorUnexpectedEntryType)

/-- The function `verifyBundleAndEntry`. -/
def verifyBundleAndEntry (c : Codecs) (verifyTlogEntry : LogEntryAnon → Except Err Unit)
    (bundle : Bundle) (requireCert : Bool) : Run (Except Err SignedAttestation) :=
  let tlogEntries :=
    match bundle.VerificationMaterial with
    | none => []
    | some vm => vm.TlogEntries
  match tlogEntries with
  | [] => .returned (.error Err.other)
  | tlogEntry :: _ =>
    match verifyRekorEntryFromBundle c verifyTlogEntry tlogEntry with
    | .error e => .returned (.error e)
    | .ok rekorEntry =>
      let publicKey :=
        match bundle.VerificationMaterial with
        | none => none
        | some vm => vm.PublicKey
      match getEnvelopeFromBundle c bundle with
      | .error e => .returned (.error e)
      | .ok env =>
        match matchRekorEntryWithEnvelope c tlogEntry env with
        | .nilDereference => .nilDereference
        | .returned (.error e) => .returned (.error e)
        | .returned (.ok _) =>
          if requireCert = true then
            match getLeafCertFromBundle c bundle with
            | .error e => .returned (.error e)
            | .ok cert =>
              .returned (.ok { SigningCert := some cert, PublicKey := publicKey,
                               Envelope := env, RekorEntry := rekorEntry })
          else
            .returned (.ok { SigningCert := none, PublicKey := publicKey, Envelope := env,
                             RekorEntry := rekorEntry })

end gha

/-! ## `verifiers/internal/gha/builder.go`: trusted workflows and source -/

namespace gha

def defaultArtifactTrustedReusableWorkflows : StrSet :=
  [(trustedBuilderRepository ++ "/.github/workflows/generator_generic_slsa3.yml".toList, true),
   (trustedBuilderRepository ++ "/.github/workflows/builder_go_slsa3.yml".toList, true),
   (trustedBuilderRepository ++ "/.github/workflows/builder_docker-based_slsa3.yml".toList, true)]

def defaultContainerTrustedReusableWorkflows : StrSet :=
  [(trustedBuilderRepository ++ "/.github/workflows/generator_container_slsa3.yml".toList, true)]

def delegatorGenericReusableWorkflow : Str :=
  trustedBuilderRepository ++ "/.github/workflows/delegator_generic_slsa3.yml".toList

def delegatorLowPermsGenericReusableWorkflow : Str :=
  trustedBuilderRepository ++ "/.github/workflows/delegator_lowperms-generic_slsa3.yml".toList

def defaultBYOBReusableWorkflows : StrSet :=
  [(delegatorGenericReusableWorkflow, true), (delegatorLowPermsGenericReusableWorkflow, true)]

/-- The function `VerifyCertficateSourceRepository`. -/
def VerifyCertficateSourceRepository (id : WorkflowIdentity) (sourceRepo : Str) :
    Except Err Unit :=
  let expectedSource0 := strings.TrimPrefix sourceRepo "git+https://".toList
  let expectedSource := strings.TrimPrefix expectedSource0 githubCom
  if id.SourceRepository ≠ expectedSource then .error Err.ErrorMismatchSource
  else .ok ()

end gha

namespace utils

/-- Modelled from the spec: the two-argument `TrustedBuilderIDNew(builderID,
needVersion)` that `gha/verifier.go` calls; the `utils/builder.go` at hand
declares the one-argument form only.  A version is required or not as
`needVersion` says, and the ID is what `ParseBuilderID` returns. -/
def TrustedBuilderIDNew2 (builderID : Str) (needVersion : Bool) : Except Err TrustedBuilderID :=
  match ParseBuilderID builderID needVersion with
  | .error e => .error e
  | .ok (name, version) => .ok ⟨name, version⟩

end utils

/-! ## `verifiers/internal/gha/verifier.go` -/

namespace gha

open utils

/-- The struct `options.ProvenanceOpts`, with the fields the embedded code
reads or writes. -/
structure ProvenanceOpts where
  ExpectedSourceURI : Str
  ExpectedBuilderID : Str
  ExpectedPackageName : Option Str
  ExpectedPackageVersion : Option Str
  deriving DecidableEq, Repr

/-- The function `verifyNpmEnvAndCert`.  The constant `builderGitHubRunnerID`
and the function `VerifyNpmPackageProvenance`, declared in files that are not
at hand, are parameters; the assignments to `provenanceOpts.ExpectedBuilderID`
are seen by `VerifyNpmPackageProvenance` only, which gets the updated
options. -/
def verifyNpmEnvAndCert (unmarshal : Asn1Unmarshal) (testingEnabled : Bool)
    (builderGitHubRunnerID : Str)
    (VerifyNpmPackageProvenance : Envelope → ProvenanceOpts → Except Err Unit)
    (env : Envelope) (cert : Certificate) (provenanceOpts : ProvenanceOpts)
    (builderOpts : Option BuilderOpts) (defaultBuilders : StrSet) :
    Except Err TrustedBuilderID :=
  match GetWorkflowInfoFromCertificate unmarshal cert with
  | .error e => .error e
  | .ok workflowInfo =>
  let expectedDelegatorWorkflow := httpsGithubCom ++ delegatorLowPermsGenericReusableWorkflow
  let delegatorBuilderOpts : BuilderOpts := ⟨some expectedDelegatorWorkflow⟩
  let resolved : Except Err (Option TrustedBuilderID) :=
    match VerifyBuilderIdentity testingEnabled workflowInfo delegatorBuilderOpts
        defaultBuilders with
    | .error e =>
      if e ≠ Err.ErrorUntrustedReusableWorkflow then .error e else .ok none
    | .ok b => .ok (some b)
  match resolved with
  | .error e => .error e
  | .ok trustedBuilderID =>
  match VerifyCertficateSourceRepository workflowInfo provenanceOpts.ExpectedSourceURI with
  | .error e => .error e
  | .ok _ =>
  match builderOpts.bind (fun o => o.ExpectedID) with
  | none => .error Err.other
  | some expectedID =>
  match trustedBuilderID with
  | some b =>
    match VerifyNpmPackageProvenance env
        { provenanceOpts with ExpectedBuilderID := expectedID } with
    | .error e => .error e
    | .ok _ => .ok b
  | none =>
    match TrustedBuilderIDNew2 builderGitHubRunnerID false with
    | .error e => .error e
    | .ok b =>
      match b.MatchesLoose expectedID false with
      | .error e => .error e
      | .ok _ =>
        match VerifyNpmPackageProvenance env
            { provenanceOpts with ExpectedBuilderID := builderGitHubRunnerID } with
        | .error e => .error e
        | .ok _ => .ok b

/-- The loop of `VerifyImage` over the attestations, with the errors collected
so far.  The getters of an attestation (`att.Payload()`, `EnvelopeFromBytes`,
`att.Cert()`) return `none` where the Go code gets an error and continues;
`verifyEnvAndCert` is the check of one attestation. -/
def VerifyImageLoop {α : Type} (payload : α → Option Str)
    (EnvelopeFromBytes : Str → Option Envelope) (certOf : α → Option Certificate)
    (verifyEnvAndCert : Envelope → Certificate → Except Err (Str × TrustedBuilderID)) :
    List α → List Err → Except Err (Str × TrustedBuilderID)
  | [], errs =>
    match errs with
    | first :: _ => .error first
    | [] => .error Err.ErrorNoValidSignature
  | att :: atts, errs =>
    match payload att with
    | none => VerifyImageLoop payload EnvelopeFromBytes certOf verifyEnvAndCert atts errs
    | some pyld =>
      match EnvelopeFromBytes pyld with
      | none => VerifyImageLoop payload EnvelopeFromBytes certOf verifyEnvAndCert atts errs
      | some env =>
        match certOf att with
        | none => VerifyImageLoop payload EnvelopeFromBytes certOf verifyEnvAndCert atts errs
        | some cert =>
          match verifyEnvAndCert env cert with
          | .ok r => .ok r
          | .error e =>
            VerifyImageLoop payload EnvelopeFromBytes certOf verifyEnvAndCert atts
              (errs ++ [e])

/-- The method `GHAVerifier.VerifyImage`; `getTrustedRoot` is the outcome of
`GetTrustedRoot` and `RunCosignImageVerification` the registry query, which
returns the attestations. -/
def VerifyImage {α ρ : Type} (getTrustedRoot : Except Err ρ)
    (RunCosignImageVerification : ρ → Except Err (List α))
    (payload : α → Option Str) (EnvelopeFromBytes : Str → Option Envelope)
    (certOf : α → Option Certificate)
    (verifyEnvAndCert : Envelope → Certificate → Except Err (Str × TrustedBuilderID)) :
    Except Err (Str × TrustedBuilderID) :=
  match getTrustedRoot with
  | .error e => .error e
  | .ok trustedRoot =>
    match RunCosignImageVerification trustedRoot with
    | .error e => .error e
    | .ok atts => VerifyImageLoop payload EnvelopeFromBytes certOf verifyEnvAndCert atts []

end gha

/-! ## `verifiers/internal/gha/npm.go`: the publish attestation digest -/

namespace gha

/-- An `intoto.Subject`; the digest set is a `map[string]string`, read with
`lookup`. -/
structure Subject where
  Name : Str
  Digest : List (Str × Str)
  deriving DecidableEq, Repr

/-- The function `subjectsFromAttestation`; `decodeSubjects` is the base64
decoding of the payload followed by the JSON decoding of the statement
header, `none` where either fails. -/
def subjectsFromAttestation (decodeSubjects : Str → Option (List Subject))
    (att : SignedAttestation) : Except Err (List Subject) :=
  match decodeSubjects att.Envelope.Payload with
  | none => .error Err.ErrorInvalidDssePayload
  | some subjects =>
    if subjects.length = 0 then .error Err.ErrorInvalidDssePayload
    else .ok subjects

/-- The loop of `verifyPublishAttestationSubjectDigest` over the subjects:
`true` when it returns nil. -/
def digestLoop (expectedAlgo expectedHash : Str) : List Subject → Bool
  | [] => false
  | subject :: subjects =>
    match subject.Digest.lookup expectedAlgo with
    | none => digestLoop expectedAlgo expectedHash subjects
    | some hash =>
      if hash = expectedHash then true
      else digestLoop expectedAlgo expectedHash subjects

/-- The method `Npm.verifyPublishAttestationSubjectDigest`, on the verified
publish attestation of the receiver. -/
def verifyPublishAttestationSubjectDigest (decodeSubjects : Str → Option (List Subject))
    (verifiedPublishAtt : SignedAttestation) (expectedHash : Str) : Except Err Unit :=
  match subjectsFromAttestation decodeSubjects verifiedPublishAtt with
  | .error e => .error e
  | .ok publishSubjects =>
    let bitLength := len expectedHash * 4
    let expectedAlgo := "sha".toList ++ (Nat.repr bitLength).toList
    if bitLength < 256 then .error Err.ErrorInvalidHash
    else if digestLoop expectedAlgo expectedHash publishSubjects = true then .ok ()
    else .error Err.ErrorMismatchHash

end gha

/-! ## `verifiers/internal/gha/trusted_root.go` -/

namespace gha

/-- A `sync.Once`: the `done` flag and the state of its mutex. -/
structure Once where
  done : Bool
  locked : Bool
  deriving DecidableEq, Repr

/-- A `cosign.CheckOpts`, with the four fields that are filled. -/
structure CheckOpts where
  RootCerts : Str
  IntermediateCerts : Str
  RekorPubKeys : Str
  CTLogPubKeys : Str
  deriving DecidableEq, Repr

/-- The package variables `defaultCosignCheckOpts` and
`defaultCosignCheckOptsOnce`. -/
structure CosignState where
  defaultCosignCheckOpts : Option CheckOpts
  defaultCosignCheckOptsOnce : Once
  deriving DecidableEq, Repr

/-- The outcomes of the four fetches of an initialization, `none` for an
error: `fulcioroots.Get`, `fulcioroots.GetIntermediates`, `cosign.GetRekorPubs`,
`cosign.GetCTLogPubs`. -/
structure Fetches where
  rootCerts : Option Str
  intermediateCerts : Option Str
  rekorPubKeys : Option Str
  ctPubKeys : Option Str
  deriving DecidableEq, Repr

/-- How a call of `getDefaultCosignCheckOpts` ends: it returns its two
results, or the runtime stops the program with a fatal error, or the call
blocks on a mutex that is already held. -/
inductive CallEnd where
  | returned (opts : Option CheckOpts) (err : Option Err)
  | fatal
  | blocked
  deriving DecidableEq, Repr

/-- The function literal passed to `defaultCosignCheckOptsOnce.Do`, as a
change of the package variables.  Its `err` is declared inside the literal by
`rootCerts, err := ...`, so the `err` of the enclosing function is never
assigned.  On a failed fetch the literal overwrites the package variable
`defaultCosignCheckOptsOnce` with a zero `sync.Once`. -/
def initDefaultCosignCheckOpts (f : Fetches) (s : CosignState) : CosignState :=
  match f.rootCerts with
  | none => { s with defaultCosignCheckOptsOnce := ⟨false, false⟩ }
  | some rootCerts =>
    match f.intermediateCerts with
    | none => { s with defaultCosignCheckOptsOnce := ⟨false, false⟩ }
    | some intermediateCerts =>
      match f.rekorPubKeys with
      | none => { s with defaultCosignCheckOptsOnce := ⟨false, false⟩ }
      | some rekorPubKeys =>
        match f.ctPubKeys with
        | none => { s with defaultCosignCheckOptsOnce := ⟨false, false⟩ }
        | some ctPubKeys =>
          let opts : CheckOpts := ⟨rootCerts, intermediateCerts, rekorPubKeys, ctPubKeys⟩
          { s with defaultCosignCheckOpts := some opts }

/-- The function `getDefaultCosignCheckOpts`, as a change of the package
variables.  The call `defaultCosignCheckOptsOnce.Do(f)` is the `Do` of the Go
library: with `done` unset it locks the mutex, runs `f`, then runs its two
deferred calls, `done.Store(1)` and `m.Unlock()`, on the package variable as
`f` has left it; `Unlock` on a mutex that is not locked is a fatal error.  The
`err` of the function itself is nil at the final test. -/
def getDefaultCosignCheckOpts (f : Fetches) (s : CosignState) : CallEnd × CosignState :=
  if s.defaultCosignCheckOptsOnce.done = true then
    (CallEnd.returned s.defaultCosignCheckOpts none, s)
  else if s.defaultCosignCheckOptsOnce.locked = true then (CallEnd.blocked, s)
  else
    let s1 : CosignState :=
      { s with defaultCosignCheckOptsOnce := { s.defaultCosignCheckOptsOnce with locked := true } }
    let s2 := initDefaultCosignCheckOpts f s1
    let s3 : CosignState :=
      { s2 with defaultCosignCheckOptsOnce := { s2.defaultCosignCheckOptsOnce with done := true } }
    if s3.defaultCosignCheckOptsOnce.locked = true then
      let s4 : CosignState :=
        { s3 with
          defaultCosignCheckOptsOnce := { s3.defaultCosignCheckOptsOnce with locked := false } }
      (CallEnd.returned s4.defaultCosignCheckOpts none, s4)
    else (CallEnd.fatal, s3)

end gha

/-! ## `verifiers/internal/gha/npm.go`: the package name and version -/

namespace gha

open utils

/-- The function `getPackageNameAndVersion`. -/
def getPackageNameAndVersion (name : Str) : Except Err (Str × Str) :=
  let n := if strings.HasPrefix name "@".toList = true then name.drop 1 else name
  let parts := strings.Split n '@'
  if parts.length > 2 then .error Err.ErrorInvalidPackageName
  else
    let pkgname0 := parts.headD []
    let pkgname :=
      if strings.HasPrefix name "@".toList = true then "@".toList ++ pkgname0 else pkgname0
    let pkgtag := if parts.length = 2 then parts.getD 1 [] else []
    .ok (pkgname, pkgtag)

/-- The function `verifyName`. -/
def verifyName (actual expected : Str) : Except Err Unit :=
  match getPackageNameAndVersion actual with
  | .error e => .error e
  | .ok (subName, _) =>
    if subName ≠ expected then .error Err.ErrorMismatchPackageName
    else .ok ()

/-- The library functions and constants that the npm checks use, as
parameters of the embedding: `slsaprovenance.ProvenanceFromEnvelope`, the
method `Subjects` of the provenance it returns, `url.QueryUnescape`, the base64
and JSON decoding of a payload into the name and version of its predicate and
into its statement type and predicate type, the verification of the publish
envelope with the key of the npm registry, and the constants
`common.ProvenanceV02Type`, `intoto.PayloadType`, `intoto.StatementInTotoV01`.
A decoder returns `none` where the Go code gets an error. -/
structure NpmLib (ρ : Type) where
  ProvenanceFromEnvelope : Str → Envelope → Except Err ρ
  Subjects : ρ → Except Err (List Subject)
  QueryUnescape : Str → Option Str
  decodePredicate : Str → Option (Str × Str)
  decodeStatement : Str → Option (Str × Str)
  verifyPublishEnvelope : Envelope → Except Err Unit
  ProvenanceV02Type : Str
  PayloadType : Str
  StatementInTotoV01 : Str

/-- The constant `publishAttestationV01`. -/
def publishAttestationV01 : Str :=
  "https://github.com/npm/attestation/tree/main/specs/publish/".toList

/-- The struct `Npm`, with the three fields that the verification fills; the
context, the trusted root and the two raw attestations are read by the library
calls only. -/
structure Npm where
  verifiedBuilderID : Option TrustedBuilderID
  verifiedProvenanceAtt : Option SignedAttestation
  verifiedPublishAtt : Option SignedAttestation
  deriving DecidableEq, Repr

/-- The method `Npm.verifyProvenanceAttestationSignature`, with the outcome of
`VerifyProvenanceBundle` on the provenance attestation. -/
def Npm.verifyProvenanceAttestationSignature (n : Npm)
    (VerifyProvenanceBundle : Except Err SignedAttestation) : Except Err Unit × Npm :=
  match VerifyProvenanceBundle with
  | .error e => (.error e, n)
  | .ok signedProvenance => (.ok (), { n with verifiedProvenanceAtt := some signedProvenance })

/-- The method `Npm.verifyPublishAttesttationSignature`, with the outcome of
`verifyBundleAndEntryFromBytes` on the publish attestation. -/
def Npm.verifyPublishAttesttationSignature {ρ : Type} (lib : NpmLib ρ) (n : Npm)
    (verifyBundleAndEntryFromBytes : Except Err SignedAttestation) : Except Err Unit × Npm :=
  match verifyBundleAndEntryFromBytes with
  | .error e => (.error e, n)
  | .ok signedPublish =>
    match lib.verifyPublishEnvelope signedPublish.Envelope with
    | .error e => (.error e, n)
    | .ok _ => (.ok (), { n with verifiedPublishAtt := some signedPublish })

/-- The function `verifyIntotoTypes`. -/
def verifyIntotoTypes {ρ : Type} (lib : NpmLib ρ) (att : SignedAttestation)
    (predicateType payloadType : Str) ( pre : Bool) : Except Err Unit :=
  let env := att.Envelope
  match lib.decodeStatement env.Payload with
  | none => .error Err.ErrorInvalidDssePayload
  | some (statementType, statementPredicateType) =>
    if env.PayloadType ≠ payloadType then .error Err.ErrorInvalidDssePayload
    else if statementType ≠ lib.StatementInTotoV01 then .error Err.ErrorInvalidDssePayload
    else if pre = false ∧ statementPredicateType ≠ predicateType then
      .error Err.ErrorInvalidDssePayload
    else if pre = true ∧ strings.HasPrefix statementPredicateType predicateType = false then
      .error Err.ErrorInvalidDssePayload
    else .ok ()

/-- The method `Npm.verifyIntotoHeaders`; `verifyIntotoTypes` dereferences the
attestation it is given. -/
def Npm.verifyIntotoHeaders {ρ : Type} (lib : NpmLib ρ) (n : Npm) : Run (Except Err Unit) :=
  match n.verifiedProvenanceAtt with
  | none => .nilDereference
  | some provenanceAtt =>
    match verifyIntotoTypes lib provenanceAtt lib.ProvenanceV02Type lib.PayloadType false with
    | .error e => .returned (.error e)
    | .ok _ =>
      match n.verifiedPublishAtt with
      | none => .nilDereference
      | some publishAtt =>
        .returned (verifyIntotoTypes lib publishAtt publishAttestationV01 lib.PayloadType true)

/-- The function `publishPredicateData`. -/
def publishPredicateData {ρ : Type} (lib : NpmLib ρ) (att : SignedAttestation) :
    Except Err (Str × Str) :=
  match lib.decodePredicate att.Envelope.Payload with
  | none => .error Err.ErrorInvalidDssePayload
  | some (name, version) => .ok (name, version)

/-- The function `verifyPublishPredicateVersion`. -/
def verifyPublishPredicateVersion {ρ : Type} (lib : NpmLib ρ) (att : SignedAttestation)
    (expectedVersion : Str) : Except Err Unit :=
  match publishPredicateData lib att with
  | .error e => .error e
  | .ok (_, version) =>
    if version ≠ expectedVersion then .error Err.ErrorMismatchPackageVersion
    else .ok ()

/-- The function `verifyPublishPredicateName`. -/
def verifyPublishPredicateName {ρ : Type} (lib : NpmLib ρ) (att : SignedAttestation)
    (expectedName : Str) : Except Err Unit :=
  match publishPredicateData lib att with
  | .error e => .error e
  | .ok (name, _) =>
    if name ≠ expectedName then .error Err.ErrorMismatchPackageName
    else .ok ()

/-- The function `verifyPublishSubjectVersion`. -/
def verifyPublishSubjectVersion {ρ : Type} (lib : NpmLib ρ) (att : SignedAttestation)
    (expectedVersion : Str) : Except Err Unit :=
  match publishPredicateData lib att with
  | .error e => .error e
  | .ok (_, version) =>
    if version ≠ expectedVersion then .error Err.ErrorMismatchPackageVersion
    else .ok ()

/-- The function `verifyPublishSubjectName`. -/
def verifyPublishSubjectName {ρ : Type} (lib : NpmLib ρ) (att : SignedAttestation)
    (expectedName : Str) : Except Err Unit :=
  match publishPredicateData lib att with
  | .error e => .error e
  | .ok (name, _) => verifyName name expectedName

/-- The function `verifyProvenanceSubjectName`.  Its first statement evaluates
`b.Name()` and `att.Envelope`, in this order: the method `Name` reads the field
`name` of its receiver, so that a nil `b` is a nil pointer dereference, and so
is a nil `att`. -/
def verifyProvenanceSubjectName {ρ : Type} (lib : NpmLib ρ) (b : Option TrustedBuilderID)
    (att : Option SignedAttestation) (expectedName : Str) : Run (Except Err Unit) :=
  match b with
  | none => .nilDereference
  | some b =>
    match att with
    | none => .nilDereference
    | some att =>
      .returned
        (match lib.ProvenanceFromEnvelope b.Name att.Envelope with
        | .error e => .error e
        | .ok prov =>
          match lib.Subjects prov with
          | .error _ => .error Err.ErrorInvalidDssePayload
          | .ok subjects =>
            if subjects.length ≠ 1 then .error Err.ErrorInvalidDssePayload
            else
              let subjectName0 := (subjects.headD ⟨[], []⟩).Name
              if strings.HasPrefix subjectName0 "pkg:npm/".toList = false then
                .error Err.ErrorInvalidPackageName
              else
                match lib.QueryUnescape (subjectName0.drop "pkg:npm/".toList.length) with
                | none => .error Err.ErrorInvalidEncoding
                | some subjectName => verifyName subjectName expectedName)

/-- The function `getSubject`, which dereferences `b` and `att` as
`verifyProvenanceSubjectName` does. -/
def getSubject {ρ : Type} (lib : NpmLib ρ) (b : Option TrustedBuilderID)
    (att : Option SignedAttestation) : Run (Except Err Str) :=
  match b with
  | none => .nilDereference
  | some b =>
    match att with
    | none => .nilDereference
    | some att =>
      .returned
        (match lib.ProvenanceFromEnvelope b.Name att.Envelope with
        | .error e => .error e
        | .ok prov =>
          match lib.Subjects prov with
          | .error e => .error e
          | .ok subjects =>
            if subjects.length ≠ 1 then .error Err.ErrorInvalidSubject
            else
              let subjectName0 := (subjects.headD ⟨[], []⟩).Name
              if strings.HasPrefix subjectName0 "pkg:npm/".toList = false then
                .error Err.ErrorInvalidPackageName
              else
                match lib.QueryUnescape (subjectName0.drop "pkg:npm/".toList.length) with
                | none => .error Err.ErrorInvalidEncoding
                | some subject => .ok subject)

/-- The function `verifyProvenanceSubjectVersion`. -/
def verifyProvenanceSubjectVersion {ρ : Type} (lib : NpmLib ρ) (b : Option TrustedBuilderID)
    (att : Option SignedAttestation) (expectedVersion : Str) : Run (Except Err Unit) :=
  match getSubject lib b att with
  | .nilDereference => .nilDereference
  | .returned (.error e) => .returned (.error e)
  | .returned (.ok subject) =>
    .returned
      (match getPackageNameAndVersion subject with
      | .error e => .error e
      | .ok (_, subVersion) =>
        if subVersion ≠ expectedVersion then .error Err.ErrorMismatchPackageVersion
        else .ok ())

/-- The method `Npm.verifyPackageName`; the checks of the publish attestation
dereference `n.verifiedPublishAtt`. -/
def Npm.verifyPackageName {ρ : Type} (lib : NpmLib ρ) (n : Npm) (name : Option Str) :
    Run (Except Err Unit) :=
  match name with
  | none => .returned (.ok ())
  | some name =>
    match verifyProvenanceSubjectName lib n.verifiedBuilderID n.verifiedProvenanceAtt name with
    | .nilDereference => .nilDereference
    | .returned (.error e) => .returned (.error e)
    | .returned (.ok _) =>
      match n.verifiedPublishAtt with
      | none => .nilDereference
      | some publishAtt =>
        .returned
          (match verifyPublishSubjectName lib publishAtt name with
          | .error e => .error e
          | .ok _ => verifyPublishPredicateName lib publishAtt name)

/-- The method `Npm.verifyPackageVersion`. -/
def Npm.verifyPackageVersion {ρ : Type} (lib : NpmLib ρ) (n : Npm) (version : Option Str) :
    Run (Except Err Unit) :=
  match version with
  | none => .returned (.ok ())
  | some version =>
    match verifyProvenanceSubjectVersion lib n.verifiedBuilderID n.verifiedProvenanceAtt
        version with
    | .nilDereference => .nilDereference
    | .returned (.error e) => .returned (.error e)
    | .returned (.ok _) =>
      match n.verifiedPublishAtt with
      | none => .nilDereference
      | some publishAtt =>
        .returned
          (match verifyPublishSubjectVersion lib publishAtt version with
          | .error e => .error e
          | .ok _ => verifyPublishPredicateVersion lib publishAtt version)

/-- The method `Npm.ProvenanceEnvelope`, which dereferences
`n.verifiedProvenanceAtt`. -/
def Npm.ProvenanceEnvelope (n : Npm) : Run Envelope :=
  match n.verifiedProvenanceAtt with
  | none => .nilDereference
  | some provenanceAtt => .returned provenanceAtt.Envelope

/-- The method `Npm.ProvenanceLeafCertificate`, which dereferences
`n.verifiedProvenanceAtt`; the certificate it returns may be nil. -/
def Npm.ProvenanceLeafCertificate (n : Npm) : Run (Option Certificate) :=
  match n.verifiedProvenanceAtt with
  | none => .nilDereference
  | some provenanceAtt => .returned provenanceAtt.SigningCert

/-- The method `Npm.verifyBuilderID`, the one place where `verifiedBuilderID`
is assigned; `GetWorkflowInfoFromCertificate` dereferences the certificate. -/
def Npm.verifyBuilderID (unmarshal : Asn1Unmarshal) (testingEnabled : Bool)
    (builderGitHubRunnerID : Str)
    (VerifyNpmPackageProvenance : Envelope → ProvenanceOpts → Except Err Unit)
    (n : Npm) (provenanceOpts : ProvenanceOpts) (builderOpts : Option BuilderOpts)
    (defaultBuilders : StrSet) : Run (Except Err TrustedBuilderID × Npm) :=
  match n.ProvenanceEnvelope with
  | .nilDereference => .nilDereference
  | .returned env =>
    match n.ProvenanceLeafCertificate with
    | .nilDereference => .nilDereference
    | .returned none => .nilDereference
    | .returned (some cert) =>
      match verifyNpmEnvAndCert unmarshal testingEnabled builderGitHubRunnerID
          VerifyNpmPackageProvenance env cert provenanceOpts builderOpts defaultBuilders with
      | .error e => .returned (.error e, n)
      | .ok builder => .returned (.ok builder, { n with verifiedBuilderID := some builder })

end gha

/-! ## `verifiers/internal/gha/verifier.go`: `VerifyNpmPackage` -/

namespace gha

open utils

/-- The method `GHAVerifier.VerifyNpmPackage`, for a call with a non-nil
`provenanceOpts`.  The outcomes of `GetTrustedRoot`, of the parsing of the
attestations by `NpmNew` and of the two bundle verifications are parameters;
`NpmNew` returns a state with none of the three verified fields set, and
`GetWorkflowInfoFromCertificate` dereferences the certificate.  The provenance
returned, `verifiedProvenanceBytes`, is the empty byte string. -/
def VerifyNpmPackage {ρ : Type} (lib : NpmLib ρ) (unmarshal : Asn1Unmarshal)
    (testingEnabled : Bool) (builderGitHubRunnerID : Str)
    (VerifyNpmPackageProvenance : Envelope → ProvenanceOpts → Except Err Unit)
    (getTrustedRoot : Except Err Unit) (NpmNew : Except Err Unit)
    (VerifyProvenanceBundle : Except Err SignedAttestation)
    (verifyBundleAndEntryFromBytes : Except Err SignedAttestation)
    (provenanceOpts : ProvenanceOpts) (builderOpts : Option BuilderOpts) :
    Run (Except Err (Str × TrustedBuilderID)) :=
  match getTrustedRoot with
  | .error e => .returned (.error e)
  | .ok _ =>
  match NpmNew with
  | .error e => .returned (.error e)
  | .ok _ =>
  let npm0 : Npm := ⟨none, none, none⟩
  match npm0.verifyProvenanceAttestationSignature VerifyProvenanceBundle with
  | (.error e, _) => .returned (.error e)
  | (.ok _, npm1) =>
  match npm1.verifyPublishAttesttationSignature lib verifyBundleAndEntryFromBytes with
  | (.error e, _) => .returned (.error e)
  | (.ok _, npm2) =>
  match npm2.verifyIntotoHeaders lib with
  | .nilDereference => .nilDereference
  | .returned (.error e) => .returned (.error e)
  | .returned (.ok _) =>
  match npm2.verifyPackageName lib provenanceOpts.ExpectedPackageName with
  | .nilDereference => .nilDereference
  | .returned (.error e) => .returned (.error e)
  | .returned (.ok _) =>
  match npm2.verifyPackageVersion lib provenanceOpts.ExpectedPackageVersion with
  | .nilDereference => .nilDereference
  | .returned (.error e) => .returned (.error e)
  | .returned (.ok _) =>
  match npm2.ProvenanceEnvelope with
  | .nilDereference => .nilDereference
  | .returned env =>
  match npm2.ProvenanceLeafCertificate with
  | .nilDereference => .nilDereference
  | .returned none => .nilDereference
  | .returned (some cert) =>
  match verifyNpmEnvAndCert unmarshal testingEnabled builderGitHubRunnerID
      VerifyNpmPackageProvenance env cert provenanceOpts builderOpts
      defaultBYOBReusableWorkflows with
  | .error e => .returned (.error e)
  | .ok builder => .returned (.ok ([], builder))

end gha

/-! ## Vocabulary of the specification -/

/-- A decimal number without leading zeros: non-empty, digits only, and a
leading `0` only when it is the whole number. -/
def isNumber (s : Str) : Bool :=
  !s.isEmpty && s.all semver.isDigit && (decide (s.length = 1) || decide (s.head? ≠ some '0'))

/-- The tag `vX.Y.Z` built from three components. -/
def versionTag (x y z : Str) : Str :=
  'v' :: x ++ '.' :: y ++ '.' :: z

/-- A ref of the form `refs/tags/vX.Y.Z`: three decimal numbers without
leading zeros, nothing after them. -/
def isFullVersionRef (ref : Str) : Prop :=
  ∃ x y z : Str, isNumber x = true ∧ isNumber y = true ∧ isNumber z = true ∧
    ref = "refs/tags/".toList ++ versionTag x y z

/-- An identity with the given source repository, subject workflow ref and
issuer; the fields the builder checks never read are left empty. -/
def mkIdentity (sourceRepository subjectWorkflowRef issuer : Str) : gha.WorkflowIdentity :=
  ⟨sourceRepository, [], none, none, none, subjectWorkflowRef, none, none, [], none, none, issuer⟩

/-- The DER encoding of a short string as a UTF8String: the tag 12, one
length byte, the content. -/
def derUTF8String (s : Str) : Str :=
  Char.ofNat 12 :: Char.ofNat s.length :: s

/-- A decoder to evaluate examples with: on a DER UTF8String with a one-byte
length it returns the content and the bytes left over, as `asn1.Unmarshal`
does; every other input, the empty one included, is an error. -/
def sampleUnmarshal : gha.Asn1Unmarshal
  | tag :: len :: rest =>
    if tag.toNat = 12 ∧ len.toNat < 128 ∧ len.toNat ≤ rest.length then
      some (rest.take len.toNat, rest.drop len.toNat)
    else none
  | _ => none

/-- The values that the calls of `getExtension` in
`GetWorkflowInfoFromCertificate` return, named after the variables that
receive them. -/
structure ExtensionValues where
  deprecatedBuildTrigger : Str
  buildTrigger : Str
  deprecatedSourceSha1 : Str
  deprecatedSourceRepository : Str
  sourceURI : Str
  issuerV1 : Str
  issuerV2 : Str
  subjectSha1 : Str
  runnerEnv : Str
  sourceSha1 : Str
  sourceRef : Str
  sourceID : Str
  sourceOwnerID : Str
  buildConfigSha1 : Str
  runURI : Str
  buildConfigURI : Str
  deriving DecidableEq, Repr

/-- Every call of `getExtension` in `GetWorkflowInfoFromCertificate` succeeds
on the certificate, with the values `r`. -/
def readsAs (unmarshal : gha.Asn1Unmarshal) (cert : gha.Certificate) (r : ExtensionValues) :
    Prop :=
  gha.getExtension unmarshal cert "1.3.6.1.4.1.57264.1.2".toList false =
      .ok r.deprecatedBuildTrigger ∧
  gha.getExtension unmarshal cert "1.3.6.1.4.1.57264.1.20".toList true = .ok r.buildTrigger ∧
  gha.getExtension unmarshal cert "1.3.6.1.4.1.57264.1.3".toList false =
      .ok r.deprecatedSourceSha1 ∧
  gha.getExtension unmarshal cert "1.3.6.1.4.1.57264.1.5".toList false =
      .ok r.deprecatedSourceRepository ∧
  gha.getExtension unmarshal cert "1.3.6.1.4.1.57264.1.12".toList true = .ok r.sourceURI ∧
  gha.getExtension unmarshal cert "1.3.6.1.4.1.57264.1.1".toList false = .ok r.issuerV1 ∧
  gha.getExtension unmarshal cert "1.3.6.1.4.1.57264.1.8".toList true = .ok r.issuerV2 ∧
  gha.getExtension unmarshal cert "1.3.6.1.4.1.57264.1.10".toList true = .ok r.subjectSha1 ∧
  gha.getExtension unmarshal cert "1.3.6.1.4.1.57264.1.11".toList true = .ok r.runnerEnv ∧
  gha.getExtension unmarshal cert "1.3.6.1.4.1.57264.1.13".toList true = .ok r.sourceSha1 ∧
  gha.getExtension unmarshal cert "1.3.6.1.4.1.57264.1.14".toList true = .ok r.sourceRef ∧
  gha.getExtension unmarshal cert "1.3.6.1.4.1.57264.1.15".toList true = .ok r.sourceID ∧
  gha.getExtension unmarshal cert "1.3.6.1.4.1.57264.1.17".toList true = .ok r.sourceOwnerID ∧
  gha.getExtension unmarshal cert "1.3.6.1.4.1.57264.1.19".toList true =
      .ok r.buildConfigSha1 ∧
  gha.getExtension unmarshal cert "1.3.6.1.4.1.57264.1.21".toList true = .ok r.runURI ∧
  gha.getExtension unmarshal cert "1.3.6.1.4.1.57264.1.18".toList true = .ok r.buildConfigURI

/-- The source repository that `GetWorkflowInfoFromCertificate` derives from
the values read: the source URI without `https://github.com/`, or the legacy
value when that is empty. -/
def sourceRepositoryOf (r : ExtensionValues) : Str :=
  if strings.TrimPrefix r.sourceURI "https://github.com/".toList = [] then
    r.deprecatedSourceRepository
  else strings.TrimPrefix r.sourceURI "https://github.com/".toList

/-- The legacy and the current build trigger agree: one is empty or they are
equal. -/
def buildTriggerOk (r : ExtensionValues) : Prop :=
  r.deprecatedBuildTrigger = [] ∨ r.buildTrigger = [] ∨ r.deprecatedBuildTrigger = r.buildTrigger

/-- The source-repository check of the code passes: the legacy value is empty
or the source URI is `https://github.com/` followed by it. -/
def sourceRepositoryOk (r : ExtensionValues) : Prop :=
  r.deprecatedSourceRepository = [] ∨
    "https://github.com/".toList ++ r.deprecatedSourceRepository = r.sourceURI

/-- The issuer check of the code passes: the two values read are equal. -/
def issuerOk (r : ExtensionValues) : Prop :=
  r.issuerV1 = r.issuerV2

/-- The legacy and the current source commit agree: one is empty or they are
equal. -/
def sourceShaOk (r : ExtensionValues) : Prop :=
  r.deprecatedSourceSha1 = [] ∨ r.sourceSha1 = [] ∨ r.deprecatedSourceSha1 = r.sourceSha1

/-- The build-config digest equals the source digest. -/
def buildConfigShaOk (r : ExtensionValues) : Prop :=
  r.buildConfigSha1 = r.sourceSha1

/-- The build-config URI splits on `@` into exactly two parts, and the first
one starts with `https://github.com/`, the source repository and `/`. -/
def buildConfigURIOk (r : ExtensionValues) : Prop :=
  (strings.Split r.buildConfigURI '@').length = 2 ∧
    strings.HasPrefix ((strings.Split r.buildConfigURI '@').headD [])
      ("https://github.com/".toList ++ sourceRepositoryOf r ++ "/".toList) = true

/-- The certificate has a URI and the path of the first one starts with `/`. -/
def subjectPathOk (uris : List gha.URL) : Prop :=
  uris.length ≠ 0 ∧ strings.HasPrefix (uris.headD ⟨[]⟩).Path "/".toList = true

/-- The identity that `GetWorkflowInfoFromCertificate` builds from the values
read and the path of the first URI. -/
def identityOf (r : ExtensionValues) (path : Str) : gha.WorkflowIdentity where
  Issuer := r.issuerV2
  SubjectWorkflowRef := path.drop 1
  SubjectSha1 := some r.subjectSha1
  SubjectHosted := some
    (if r.runnerEnv = "github-hosted".toList then gha.Hosted.HostedGitHub
      else gha.Hosted.HostedSelf)
  SourceRepository := sourceRepositoryOf r
  SourceSha1 := r.sourceSha1
  SourceRef := some r.sourceRef
  SourceID := some r.sourceID
  SourceOwnerID := some r.sourceOwnerID
  BuildTrigger := if r.buildTrigger = [] then r.deprecatedBuildTrigger else r.buildTrigger
  BuildConfigPath := some
    (strings.TrimPrefix ((strings.Split r.buildConfigURI '@').headD [])
      ("https://github.com/".toList ++ sourceRepositoryOf r ++ "/".toList))
  RunID := some
    (strings.TrimPrefix r.runURI
      ("https://github.com/".toList ++ sourceRepositoryOf r ++ "/actions/runs/".toList))

/-- The extensions of an example certificate of the current kind, in the
order of their identifiers: legacy and current issuer, build trigger, source
commit and source repository, the build-config URI and its digest. -/
def sampleExtensions : List gha.Extension :=
  [⟨"1.3.6.1.4.1.57264.1.1".toList, "https://token.actions.githubusercontent.com".toList⟩,
   ⟨"1.3.6.1.4.1.57264.1.2".toList, "push".toList⟩,
   ⟨"1.3.6.1.4.1.57264.1.3".toList, "0dfcd248".toList⟩,
   ⟨"1.3.6.1.4.1.57264.1.5".toList, "octo/repo".toList⟩,
   ⟨"1.3.6.1.4.1.57264.1.8".toList,
     derUTF8String "https://token.actions.githubusercontent.com".toList⟩,
   ⟨"1.3.6.1.4.1.57264.1.12".toList, derUTF8String "https://github.com/octo/repo".toList⟩,
   ⟨"1.3.6.1.4.1.57264.1.13".toList, derUTF8String "0dfcd248".toList⟩,
   ⟨"1.3.6.1.4.1.57264.1.18".toList,
     derUTF8String "https://github.com/octo/repo/.github/workflows/w.yml@refs/heads/main".toList⟩,
   ⟨"1.3.6.1.4.1.57264.1.19".toList, derUTF8String "0dfcd248".toList⟩,
   ⟨"1.3.6.1.4.1.57264.1.20".toList, derUTF8String "push".toList⟩]

/-- The subject URI of the example certificates. -/
def sampleURIs : List gha.URL :=
  [⟨"/org/builder/.github/workflows/b.yml@refs/tags/v1.2.3".toList⟩]

/-- The example certificate with all of `sampleExtensions`. -/
def sampleCertificate : gha.Certificate :=
  ⟨sampleExtensions, sampleURIs⟩

/-- The example certificate without the extensions whose identifier is in
`oids`. -/
def sampleCertificateWithout (oids : List Str) : gha.Certificate :=
  ⟨sampleExtensions.filter (fun ext => !oids.contains ext.Id), sampleURIs⟩

/-- The example certificate with the value of the extension `oid` replaced. -/
def sampleCertificateWith (oid value : Str) : gha.Certificate :=
  ⟨sampleExtensions.map (fun ext => if ext.Id = oid then ⟨oid, value⟩ else ext), sampleURIs⟩

/-- The values that `GetWorkflowInfoFromCertificate` reads from
`sampleCertificate`. -/
def sampleValues : ExtensionValues where
  deprecatedBuildTrigger := "push".toList
  buildTrigger := "push".toList
  deprecatedSourceSha1 := "0dfcd248".toList
  deprecatedSourceRepository := "octo/repo".toList
  sourceURI := "https://github.com/octo/repo".toList
  issuerV1 := "https://token.actions.githubusercontent.com".toList
  issuerV2 := "https://token.actions.githubusercontent.com".toList
  subjectSha1 := []
  runnerEnv := []
  sourceSha1 := "0dfcd248".toList
  sourceRef := []
  sourceID := []
  sourceOwnerID := []
  buildConfigSha1 := "0dfcd248".toList
  runURI := []
  buildConfigURI :=
    "https://github.com/octo/repo/.github/workflows/w.yml@refs/heads/main".toList

/-- A certificate whose only extension is the build trigger
`1.3.6.1.4.1.57264.1.20` with an empty value, which no DER decoder accepts;
it has no build-config URI. -/
def undecodableTriggerCertificate : gha.Certificate :=
  ⟨[⟨"1.3.6.1.4.1.57264.1.20".toList, []⟩], sampleURIs⟩

/-- The 64 digits of the standard base64 alphabet. -/
def base64Digit (n : Nat) : Char :=
  "ABCDEFGHIJKLMNOPQRSTUVWXYZabcdefghijklmnopqrstuvwxyz0123456789+/".toList.getD n '='

/-- Standard base64 with padding, on a text of one-byte characters, to
evaluate examples with. -/
def sampleBase64 : Str → Str
  | a :: b :: c :: rest =>
    let n := a.toNat * 65536 + b.toNat * 256 + c.toNat
    base64Digit (n / 262144) :: base64Digit (n / 4096 % 64) :: base64Digit (n / 64 % 64) ::
      base64Digit (n % 64) :: sampleBase64 rest
  | [a, b] =>
    let n := a.toNat * 65536 + b.toNat * 256
    [base64Digit (n / 262144), base64Digit (n / 4096 % 64), base64Digit (n / 64 % 64), '=']
  | [a] =>
    let n := a.toNat * 65536
    [base64Digit (n / 262144), base64Digit (n / 4096 % 64), '=', '=']
  | [] => []

/-- A stand-in for the JSON decoding of a canonical body, to evaluate examples
with: the body lists the recorded signatures separated by commas, and the item
`null` stands for a recorded item without signature. -/
def sampleSignatures (body : Str) : Option (List (Option Str)) :=
  some (((strings.Split body ',').filter (fun s => !s.isEmpty)).map
    (fun s => if s = "null".toList then none else some s))

/-- The library functions used in the examples. -/
def sampleCodecs : gha.Codecs where
  base64Encode := sampleBase64
  hexEncode := fun s => s
  parseCertificate := fun _ => none
  intotoV002Signatures := sampleSignatures
  dsseV001Signatures := sampleSignatures

/-- A log entry of the given kind and version with the given canonical body. -/
def mkEntry (kind version body : Str) : gha.TransparencyLogEntry :=
  ⟨some ⟨kind, version⟩, body, [], 0, 0, []⟩

/-- A log entry without kind and version, with the given canonical body. -/
def mkEntryWithoutKind (body : Str) : gha.TransparencyLogEntry :=
  ⟨none, body, [], 0, 0, []⟩

/-- An envelope that carries the given signature values, with empty key IDs. -/
def mkEnvelope (sigs : List Str) : gha.Envelope :=
  ⟨[], [], sigs.map (fun s => ⟨[], s⟩)⟩

/-- A bundle with the given log entries, whose envelope carries the given raw
signatures. -/
def mkBundle (entries : List gha.TransparencyLogEntry) (sigs : List Str) : gha.Bundle :=
  ⟨some ⟨entries, [], none⟩, some ⟨[], [], sigs.map (fun s => ⟨[], s⟩)⟩⟩

/-- The signatures that the canonical body of a log entry records, as the
schema of the entry decodes them, an item without signature being `none`;
`none` for another schema or a body that does not decode. -/
def recordedSignatures (c : gha.Codecs) (e : gha.TransparencyLogEntry) :
    Option (List (Option Str)) :=
  if e.KindVersion = some ⟨"intoto".toList, "0.0.2".toList⟩ then
    c.intotoV002Signatures e.CanonicalizedBody
  else if e.KindVersion = some ⟨"dsse".toList, "0.0.1".toList⟩ then
    c.dsseV001Signatures e.CanonicalizedBody
  else none

/-- The signatures that an envelope carries, in the encoding of the schema of
the log entry: base64 once more for `intoto` 0.0.2, as they are otherwise. -/
def carriedSignatures (c : gha.Codecs) (e : gha.TransparencyLogEntry) (env : gha.Envelope) :
    List Str :=
  if e.KindVersion = some ⟨"intoto".toList, "0.0.2".toList⟩ then
    env.Signatures.map (fun s => c.base64Encode s.Sig)
  else env.Signatures.map (fun s => s.Sig)

/-- The check that `VerifyImage` runs on one attestation: `none` when a getter
of the attestation fails and the check is not run, the outcome of
`verifyEnvAndCert` otherwise. -/
def attestationCheck {α : Type} (payload : α → Option Str)
    (EnvelopeFromBytes : Str → Option gha.Envelope) (certOf : α → Option gha.Certificate)
    (verifyEnvAndCert : gha.Envelope → gha.Certificate →
      Except Err (Str × utils.TrustedBuilderID))
    (att : α) : Option (Except Err (Str × utils.TrustedBuilderID)) :=
  match payload att with
  | none => none
  | some pyld =>
    match EnvelopeFromBytes pyld with
    | none => none
    | some env =>
      match certOf att with
      | none => none
      | some cert => some (verifyEnvAndCert env cert)

/-- The errors of the checks that were run and failed, in the order of the
attestations. -/
def failedChecks {α : Type} (check : α → Option (Except Err (Str × utils.TrustedBuilderID))) :
    List α → List Err
  | [] => []
  | att :: atts =>
    match check att with
    | some (.error e) => e :: failedChecks check atts
    | _ => failedChecks check atts

/-- The certificate `cert` with the value of the extension `oid` replaced. -/
def replaceExtension (oid value : Str) (cert : gha.Certificate) : gha.Certificate :=
  ⟨cert.Extensions.map (fun ext => if ext.Id = oid then ⟨oid, value⟩ else ext), cert.URIs⟩

/-- The example certificate with both issuer extensions set to
`https://bad.issuer.com`. -/
def badIssuerCertificate : gha.Certificate :=
  replaceExtension "1.3.6.1.4.1.57264.1.8".toList
    (derUTF8String "https://bad.issuer.com".toList)
    (replaceExtension "1.3.6.1.4.1.57264.1.1".toList "https://bad.issuer.com".toList
      sampleCertificate)

/-- The example certificate with the given subject URI path. -/
def sampleCertificateAt (path : Str) : gha.Certificate :=
  ⟨sampleExtensions, [⟨path⟩]⟩

/-- The options of the npm examples: the source `github.com/octo/repo`. -/
def sampleProvenanceOpts : gha.ProvenanceOpts :=
  ⟨"github.com/octo/repo".toList, [], none, none⟩

/-- The builder ID of the GitHub runner used in the npm examples, in the
place of the constant `builderGitHubRunnerID`. -/
def sampleRunnerID : Str :=
  "https://github.com/actions/runner".toList

/-- A signed attestation with the given payload and nothing else. -/
def mkAttestation (payload : Str) : gha.SignedAttestation :=
  ⟨none, none, ⟨[], payload, []⟩, ⟨[], 0, 0, [], []⟩⟩

/-- A digest of 64 hexadecimal characters for the examples. -/
def sampleHash : Str :=
  "2c26b46b68ffc68ff99b453c1d30413413422d706483bfa0f98a5e886266e7ae".toList

/-- The name of a GitHub owner (a user or an organisation): not empty,
letters, digits and hyphens only. -/
def isOwnerName (o : Str) : Bool :=
  !o.isEmpty && o.all (fun c => c.isAlphanum || c == '-')

/-- The string `t` is `s` with a leading `pre` removed if `s` starts with
`pre`, and `s` itself otherwise. -/
def removesLeading (pre s t : Str) : Prop :=
  (∃ rest, s = pre ++ rest ∧ t = rest) ∨ ((∀ rest, s ≠ pre ++ rest) ∧ t = s)

/-- The extension `1.3.6.1.4.1.57264.1.10`, the commit of the signing
workflow, for the examples. -/
def subjectShaExtension : gha.Extension :=
  ⟨"1.3.6.1.4.1.57264.1.10".toList, derUTF8String "0dfcd248".toList⟩

/-- The library functions of the npm examples: the provenance of every
envelope has the one subject `pkg:npm/pkg@1.0.0`, the predicate of every
payload names `pkg` at `1.0.0`, a payload is read as a statement of type
`https://in-toto.io/Statement/v0.1` whose predicate type is the payload
itself, and every publish envelope verifies. -/
def sampleNpmLib : gha.NpmLib (List gha.Subject) where
  ProvenanceFromEnvelope := fun _ _ => .ok [⟨"pkg:npm/pkg@1.0.0".toList, []⟩]
  Subjects := fun prov => .ok prov
  QueryUnescape := fun s => some s
  decodePredicate := fun _ => some ("pkg".toList, "1.0.0".toList)
  decodeStatement := fun payload => some ("https://in-toto.io/Statement/v0.1".toList, payload)
  verifyPublishEnvelope := fun _ => .ok ()
  ProvenanceV02Type := "https://slsa.dev/provenance/v0.2".toList
  PayloadType := "application/vnd.in-toto+json".toList
  StatementInTotoV01 := "https://in-toto.io/Statement/v0.1".toList

/-- A verified provenance attestation for the examples, signed with the
example certificate of the workflow `delegator_lowperms-generic_slsa3.yml`. -/
def sampleProvenanceAtt : gha.SignedAttestation :=
  ⟨some (sampleCertificateAt ("/".toList ++ gha.delegatorLowPermsGenericReusableWorkflow ++
      "@refs/tags/v1.2.3".toList)),
    none,
    ⟨"application/vnd.in-toto+json".toList, "https://slsa.dev/provenance/v0.2".toList, []⟩,
    ⟨[], 0, 0, [], []⟩⟩

/-- A verified publish attestation for the examples. -/
def samplePublishAtt : gha.SignedAttestation :=
  ⟨none, none,
    ⟨"application/vnd.in-toto+json".toList,
      "https://github.com/npm/attestation/tree/main/specs/publish/v0.1".toList, []⟩,
    ⟨[], 0, 0, [], []⟩⟩

/-! ## Lemmas on the `strings` functions -/

namespace strings

theorem Split_ne_nil (s : Str) (c : Char) : Split s c ≠ [] := by
  induction s with
  | nil => simp [Split]
  | cons a s ih =>
    unfold Split
    split
    · simp
    · split
      · simp
      · simp

theorem Split_length (s : Str) (c : Char) : (Split s c).length = s.count c + 1 := by
  induction s with
  | nil => simp [Split]
  | cons a s ih =>
    unfold Split
    by_cases h : a = c
    · subst h
      simp [ih]
    · have hc : (a == c) = false := by simpa using h
      simp only [h, if_false]
      rw [List.count_cons, hc]
      split
      · rename_i h2
        exact absurd h2 (Split_ne_nil s c)
      · rename_i x t h2
        rw [h2] at ih
        simpa using ih

theorem Split_of_not_mem (s : Str) (c : Char) (h : c ∉ s) : Split s c = [s] := by
  induction s with
  | nil => simp [Split]
  | cons a s ih =>
    have h1 : a ≠ c := fun e => h (by simp [e])
    have h2 : c ∉ s := fun e => h (by simp [e])
    unfold Split
    simp [h1, ih h2]

theorem Split_append_sep (a b : Str) (c : Char) (h : c ∉ a) :
    Split (a ++ c :: b) c = a :: Split b c := by
  induction a with
  | nil => simp [Split]
  | cons x a ih =>
    have h1 : x ≠ c := fun e => h (by simp [e])
    have h2 : c ∉ a := fun e => h (by simp [e])
    show Split (x :: (a ++ c :: b)) c = _
    rw [Split.eq_2]
    simp [h1, ih h2]

theorem IndexByte_of_not_mem (s : Str) (c : Char) (h : c ∉ s) : IndexByte s c = none := by
  induction s with
  | nil => simp [IndexByte]
  | cons a s ih =>
    have h1 : a ≠ c := fun e => h (by simp [e])
    have h2 : c ∉ s := fun e => h (by simp [e])
    unfold IndexByte
    simp [h1, ih h2]

theorem IndexByte_append_sep (a b : Str) (c : Char) (h : c ∉ a) :
    IndexByte (a ++ c :: b) c = some a.length := by
  induction a with
  | nil => simp [IndexByte]
  | cons x a ih =>
    have h1 : x ≠ c := fun e => h (by simp [e])
    have h2 : c ∉ a := fun e => h (by simp [e])
    show IndexByte (x :: (a ++ c :: b)) c = _
    unfold IndexByte
    simp [h1, ih h2]

theorem exists_split_of_mem (s : Str) (c : Char) (h : c ∈ s) :
    ∃ a b : Str, s = a ++ c :: b ∧ c ∉ a := by
  induction s with
  | nil => simp at h
  | cons x s ih =>
    by_cases hx : x = c
    · exact ⟨[], s, by simp [hx], by simp⟩
    · have hs : c ∈ s := by
        rcases List.mem_cons.mp h with e | e
        · exact absurd e.symm hx
        · exact e
      obtain ⟨a, b, hab, hna⟩ := ih hs
      refine ⟨x :: a, b, by simp [hab], ?_⟩
      intro e
      rcases List.mem_cons.mp e with e | e
      · exact hx e.symm
      · exact hna e

theorem SplitN_two_of_not_mem (s : Str) (c : Char) (h : c ∉ s) : SplitN s c 2 = [s] := by
  simp [SplitN, IndexByte_of_not_mem s c h]

theorem SplitN_two_append_sep (a b : Str) (c : Char) (h : c ∉ a) :
    SplitN (a ++ c :: b) c 2 = [a, b] := by
  simp [SplitN, IndexByte_append_sep a b c h]

theorem mem_of_mem_Trim (s : Str) (c x : Char) (h : x ∈ Trim s c) : x ∈ s := by
  unfold Trim TrimLeft TrimRight at h
  have h1 := (List.dropWhile_sublist (fun x => decide (x = c))).subset h
  have h2 : List.rdropWhile (fun x => decide (x = c)) s <+: s := List.rdropWhile_prefix _ _
  exact h2.subset h1

theorem TrimRight_append_of_ne (s : Str) (c x : Char) (h : x ≠ c) :
    TrimRight (s ++ [x]) c = s ++ [x] := by
  unfold TrimRight
  rw [List.rdropWhile_concat_neg]
  simpa using h

theorem TrimLeft_cons_of_ne (s : Str) (c x : Char) (h : x ≠ c) :
    TrimLeft (x :: s) c = x :: s := by
  unfold TrimLeft
  rw [List.dropWhile_cons_of_neg]
  simpa using h

theorem Trim_nil (c : Char) : Trim [] c = [] := by
  simp [Trim, TrimLeft, TrimRight]

theorem HasPrefix_iff (s pre : Str) : HasPrefix s pre = true ↔ ∃ t, s = pre ++ t := by
  unfold HasPrefix
  rw [List.isPrefixOf_iff_prefix]
  constructor
  · rintro ⟨t, ht⟩
    exact ⟨t, ht.symm⟩
  · rintro ⟨t, ht⟩
    exact ⟨t, ht.symm⟩

theorem TrimPrefix_append (pre t : Str) : TrimPrefix (pre ++ t) pre = t := by
  have h : HasPrefix (pre ++ t) pre = true := (HasPrefix_iff _ _).mpr ⟨t, rfl⟩
  simp [TrimPrefix, h]

end strings

/-! ## Lemmas on the semver parser -/

namespace semver

theorem take_digitRun (v : Str) : v.take (digitRun v) = v.takeWhile isDigit := by
  induction v with
  | nil => simp [digitRun]
  | cons c cs ih =>
    by_cases h : isDigit c = true
    · simp [digitRun, h, List.takeWhile_cons, ih]
    · simp [digitRun, h, List.takeWhile_cons]

theorem drop_digitRun (v : Str) : v.drop (digitRun v) = v.dropWhile isDigit := by
  induction v with
  | nil => simp [digitRun]
  | cons c cs ih =>
    by_cases h : isDigit c = true
    · simp [digitRun, h, List.dropWhile_cons, ih]
    · simp [digitRun, h, List.dropWhile_cons]

theorem digitRun_eq_zero_iff (v : Str) :
    digitRun v = 0 ↔ ∀ c, v.head? = some c → isDigit c = false := by
  cases v with
  | nil => simp [digitRun]
  | cons c cs =>
    by_cases h : isDigit c = true
    · simp [digitRun, h]
    · simp [digitRun, h]

theorem digitRun_append (t rest : Str) (ht : ∀ c ∈ t, isDigit c = true)
    (hr : ∀ c, rest.head? = some c → isDigit c = false) :
    digitRun (t ++ rest) = t.length := by
  induction t with
  | nil => simpa using (digitRun_eq_zero_iff rest).mpr hr
  | cons a t ih =>
    have ha : isDigit a = true := ht a (by simp)
    have ih2 := ih (fun c hc => ht c (by simp [hc]))
    simp [digitRun, ha, ih2]

theorem isDigit_iff (c : Char) : isDigit c = true ↔ ¬ (c < '0') ∧ ¬ ('9' < c) := by
  simp [isDigit, not_lt]

theorem isNumber_iff (s : Str) :
    isNumber s = true ↔
      s ≠ [] ∧ (∀ c ∈ s, isDigit c = true) ∧ (s.length = 1 ∨ s.head? ≠ some '0') := by
  cases s with
  | nil => simp [isNumber]
  | cons a s => simp [isNumber, and_assoc]

/-- What a successful `parseInt` returns: a number, the unread rest, and the
rest does not start with a digit. -/
theorem parseInt_some (v t rest : Str) (h : parseInt v = some (t, rest)) :
    v = t ++ rest ∧ isNumber t = true ∧ (∀ c, rest.head? = some c → isDigit c = false) := by
  cases v with
  | nil => simp [parseInt] at h
  | cons c cs =>
    simp only [parseInt] at h
    split at h
    · simp at h
    · rename_i hd
      split at h
      · simp at h
      · rename_i hz
        simp only [Option.some.injEq, Prod.mk.injEq] at h
        obtain ⟨h1, h2⟩ := h
        have hdig : isDigit c = true := by
          rw [isDigit_iff]
          simpa using hd
        have e1 : (c :: cs).take (1 + digitRun cs) = c :: cs.takeWhile isDigit := by
          rw [Nat.add_comm, List.take_succ_cons, take_digitRun]
        have e2 : (c :: cs).drop (1 + digitRun cs) = cs.dropWhile isDigit := by
          rw [Nat.add_comm, List.drop_succ_cons, drop_digitRun]
        rw [e1] at h1
        rw [e2] at h2
        subst h1 h2
        refine ⟨by simp, ?_, ?_⟩
        · rw [isNumber_iff]
          refine ⟨by simp, ?_, ?_⟩
          · intro x hx
            rcases List.mem_cons.mp hx with e | e
            · rw [e]; exact hdig
            · exact (List.mem_takeWhile_imp e)
          · by_cases hc : c = '0'
            · left
              have : digitRun cs = 0 := by
                by_contra hne
                exact hz ⟨hc, by omega⟩
              have h3 : cs.takeWhile isDigit = [] := by
                rw [← take_digitRun, this]; rfl
              simp [h3]
            · right
              simpa using hc
        · intro x hx
          have := List.head?_dropWhile_not isDigit cs
          rw [hx] at this
          simpa using this

/-- The function `parseInt` reads a number that is followed by a non-digit. -/
theorem parseInt_append (t rest : Str) (ht : isNumber t = true)
    (hr : ∀ c, rest.head? = some c → isDigit c = false) :
    parseInt (t ++ rest) = some (t, rest) := by
  rw [isNumber_iff] at ht
  obtain ⟨hne, hall, hz⟩ := ht
  cases t with
  | nil => exact absurd rfl hne
  | cons c cs =>
    have hc : isDigit c = true := hall c (by simp)
    have hrun : digitRun (cs ++ rest) = cs.length :=
      digitRun_append cs rest (fun x hx => hall x (by simp [hx])) hr
    have hc2 := (isDigit_iff c).mp hc
    show parseInt (c :: (cs ++ rest)) = _
    simp only [parseInt, hrun]
    have hd : (decide (c < '0') || decide ('9' < c)) = false := by
      simp [hc2.1, hc2.2]
    rw [if_neg (by simp [hd])]
    have hz2 : ¬ (c = '0' ∧ 1 + cs.length ≠ 1) := by
      rintro ⟨e1, e2⟩
      rcases hz with h | h
      · simp at h
        exact e2 (by simp [h])
      · simp [e1] at h
    rw [if_neg hz2]
    have e1 : (c :: (cs ++ rest)).take (1 + cs.length) = c :: cs := by
      rw [Nat.add_comm, List.take_succ_cons]
      simp
    have e2 : (c :: (cs ++ rest)).drop (1 + cs.length) = rest := by
      rw [Nat.add_comm, List.drop_succ_cons]
      simp
    rw [e1, e2]

end semver

namespace semver

theorem buildLoop_some (rest : Str) (i start j : Nat) (h : buildLoop rest i start = some j) :
    j = i + rest.length ∧ ∀ c ∈ rest, isIdentChar c = true ∨ c = '.' := by
  induction rest generalizing i start with
  | nil =>
    simp only [buildLoop] at h
    split at h
    · simp at h
    · simp at h
      simp [h]
  | cons a rest ih =>
    simp only [buildLoop] at h
    split at h
    · simp at h
    · rename_i hok
      have ha : isIdentChar a = true ∨ a = '.' := by
        by_cases h1 : isIdentChar a = true
        · exact Or.inl h1
        · right
          by_contra h2
          exact hok ⟨by simpa using h1, h2⟩
      split at h
      · split at h
        · simp at h
        · obtain ⟨e, hall⟩ := ih _ _ h
          refine ⟨by simp [e]; omega, ?_⟩
          intro c hc
          rcases List.mem_cons.mp hc with e2 | e2
          · rw [e2]; exact ha
          · exact hall c e2
      · obtain ⟨e, hall⟩ := ih _ _ h
        refine ⟨by simp [e]; omega, ?_⟩
        intro c hc
        rcases List.mem_cons.mp hc with e2 | e2
        · rw [e2]; exact ha
        · exact hall c e2

theorem prereleaseLoop_some (v rest : Str) (i start j : Nat)
    (h : prereleaseLoop v rest i start = some j) :
    ∃ k, j = i + k ∧ k ≤ rest.length ∧ (∀ c ∈ rest.take k, isIdentChar c = true ∨ c = '.') ∧
      (∀ c, (rest.drop k).head? = some c → c = '+') := by
  induction rest generalizing i start with
  | nil =>
    simp only [prereleaseLoop] at h
    split at h
    · simp at h
    · simp at h
      exact ⟨0, by simp [h]⟩
  | cons a rest ih =>
    simp only [prereleaseLoop] at h
    split at h
    · rename_i hplus
      split at h
      · simp at h
      · simp at h
        exact ⟨0, by simp [h, hplus]⟩
    · split at h
      · simp at h
      · rename_i hok
        have ha : isIdentChar a = true ∨ a = '.' := by
          by_cases h1 : isIdentChar a = true
          · exact Or.inl h1
          · right
            by_contra h2
            exact hok ⟨by simpa using h1, h2⟩
        have step : ∀ s', prereleaseLoop v rest (i + 1) s' = some j →
            ∃ k, j = i + k ∧ k ≤ (a :: rest).length ∧
              (∀ c ∈ (a :: rest).take k, isIdentChar c = true ∨ c = '.') ∧
              (∀ c, ((a :: rest).drop k).head? = some c → c = '+') := by
          intro s' hs
          obtain ⟨k, e, hk, hall, hd⟩ := ih _ _ hs
          refine ⟨k + 1, by omega, by simp [hk], ?_, ?_⟩
          · intro c hc
            rw [List.take_succ_cons] at hc
            rcases List.mem_cons.mp hc with e2 | e2
            · rw [e2]; exact ha
            · exact hall c e2
          · intro c hc
            rw [List.drop_succ_cons] at hc
            exact hd c hc
        split at h
        · split at h
          · simp at h
          · exact step _ h
        · exact step _ h

theorem parsePrerelease_some (v t rest : Str) (h : parsePrerelease v = some (t, rest)) :
    v = t ++ rest ∧ (∃ u, t = '-' :: u ∧ ∀ c ∈ u, isIdentChar c = true ∨ c = '.') ∧
      (∀ c, rest.head? = some c → c = '+') := by
  cases v with
  | nil => simp [parsePrerelease] at h
  | cons a cs =>
    simp only [parsePrerelease] at h
    split at h
    · simp at h
    · rename_i ha
      have ha2 : a = '-' := by simpa using ha
      split at h
      · simp at h
      · rename_i j hj
        obtain ⟨k, e, hk, hall, hd⟩ := prereleaseLoop_some _ _ _ _ _ hj
        simp only [Option.some.injEq, Prod.mk.injEq] at h
        obtain ⟨h1, h2⟩ := h
        subst e
        rw [Nat.add_comm, List.take_succ_cons] at h1
        rw [Nat.add_comm 1 k, List.drop_succ_cons] at h2
        subst h1 h2
        refine ⟨by simp, ⟨cs.take k, by rw [ha2], hall⟩, hd⟩

theorem parseBuild_some (v t rest : Str) (h : parseBuild v = some (t, rest)) :
    v = t ∧ rest = [] ∧ ∃ u, t = '+' :: u ∧ ∀ c ∈ u, isIdentChar c = true ∨ c = '.' := by
  cases v with
  | nil => simp [parseBuild] at h
  | cons a cs =>
    simp only [parseBuild] at h
    split at h
    · simp at h
    · rename_i ha
      have ha2 : a = '+' := by simpa using ha
      split at h
      · simp at h
      · rename_i j hj
        obtain ⟨e, hall⟩ := buildLoop_some _ _ _ _ hj
        simp only [Option.some.injEq, Prod.mk.injEq] at h
        obtain ⟨h1, h2⟩ := h
        subst e
        rw [Nat.add_comm, List.take_succ_cons] at h1
        rw [Nat.add_comm 1, List.drop_succ_cons] at h2
        simp at h1 h2
        subst h1 h2
        exact ⟨rfl, rfl, cs, by rw [ha2], hall⟩

/-- The shape of what `parseTail` accepts: an optional prerelease starting
with `-`, then an optional build starting with `+`, nothing else. -/
theorem parseTail_some (ma mi pa v : Str) (pv : parsed) (h : parseTail ma mi pa v = some pv) :
    v = pv.prerelease ++ pv.build ∧
      (pv.prerelease = [] ∨
        ∃ u, pv.prerelease = '-' :: u ∧ ∀ c ∈ u, isIdentChar c = true ∨ c = '.') ∧
      (pv.build = [] ∨ ∃ u, pv.build = '+' :: u ∧ ∀ c ∈ u, isIdentChar c = true ∨ c = '.') := by
  unfold parseTail at h
  simp only at h
  split at h
  · simp at h
  · rename_i pre v1 hpre
    split at h
    · simp at h
    · rename_i bld v2 hbld
      split at h
      · simp at h
      · rename_i hv2
        have hv2e : v2 = [] := by simpa using hv2
        simp only [Option.some.injEq] at h
        subst h
        simp only
        have A : v = pre ++ v1 ∧
            (pre = [] ∨ ∃ u, pre = '-' :: u ∧ ∀ c ∈ u, isIdentChar c = true ∨ c = '.') := by
          split at hpre
          · obtain ⟨e, hu, _⟩ := parsePrerelease_some _ _ _ hpre
            exact ⟨e, Or.inr hu⟩
          · simp only [Option.some.injEq, Prod.mk.injEq] at hpre
            obtain ⟨e1, e2⟩ := hpre
            subst e1 e2
            exact ⟨by simp, Or.inl rfl⟩
        have B : v1 = bld ∧
            (bld = [] ∨ ∃ u, bld = '+' :: u ∧ ∀ c ∈ u, isIdentChar c = true ∨ c = '.') := by
          split at hbld
          · obtain ⟨e, e2, hu⟩ := parseBuild_some _ _ _ hbld
            exact ⟨e, Or.inr hu⟩
          · simp only [Option.some.injEq, Prod.mk.injEq] at hbld
            obtain ⟨e1, e2⟩ := hbld
            subst e1 e2
            exact ⟨hv2e, Or.inl rfl⟩
        rw [A.1, B.1]
        exact ⟨rfl, A.2, B.2⟩

end semver

namespace semver

/-- The three shapes of a tag accepted by `parse`: `vX`, `vX.Y`, and
`vX.Y.Z` followed by an optional prerelease and an optional build. -/
theorem parse_some (pin : Str) (pv : parsed) (h : parse pin = some pv) :
    (∃ x, isNumber x = true ∧ pin = 'v' :: x ∧ pv.prerelease = [] ∧ pv.build = []) ∨
    (∃ x y, isNumber x = true ∧ isNumber y = true ∧ pin = 'v' :: x ++ '.' :: y ∧
      pv.prerelease = [] ∧ pv.build = []) ∨
    (∃ x y z, isNumber x = true ∧ isNumber y = true ∧ isNumber z = true ∧
      pin = versionTag x y z ++ (pv.prerelease ++ pv.build) ∧
      (pv.prerelease = [] ∨
        ∃ u, pv.prerelease = '-' :: u ∧ ∀ c ∈ u, isIdentChar c = true ∨ c = '.') ∧
      (pv.build = [] ∨
        ∃ u, pv.build = '+' :: u ∧ ∀ c ∈ u, isIdentChar c = true ∨ c = '.')) := by
  cases pin with
  | nil => simp [parse] at h
  | cons c v0 =>
    simp only [parse] at h
    split at h
    · simp at h
    · rename_i hc
      have hc2 : c = 'v' := by simpa using hc
      subst hc2
      split at h
      · simp at h
      · rename_i x v1 hx
        obtain ⟨e0, nx, -⟩ := parseInt_some _ _ _ hx
        split at h
        · simp only [Option.some.injEq] at h
          subst h
          left
          exact ⟨x, nx, by simp [e0], rfl, rfl⟩
        · rename_i c1 v1t
          split at h
          · simp at h
          · rename_i hc1
            have hc1e : c1 = '.' := by simpa using hc1
            subst hc1e
            split at h
            · simp at h
            · rename_i y v2 hy
              obtain ⟨e1, ny, -⟩ := parseInt_some _ _ _ hy
              split at h
              · simp only [Option.some.injEq] at h
                subst h
                right; left
                exact ⟨x, y, nx, ny, by simp [e0, e1], rfl, rfl⟩
              · rename_i c2 v2t
                split at h
                · simp at h
                · rename_i hc2
                  have hc2e : c2 = '.' := by simpa using hc2
                  subst hc2e
                  split at h
                  · simp at h
                  · rename_i z v3 hz
                    obtain ⟨e2, nz, -⟩ := parseInt_some _ _ _ hz
                    obtain ⟨e3, hp, hb⟩ := parseTail_some _ _ _ _ _ h
                    right; right
                    refine ⟨x, y, z, nx, ny, nz, ?_, hp, hb⟩
                    rw [e0, e1, e2, e3]
                    simp [versionTag]

theorem isDigit_dot : isDigit '.' = false := by decide

/-- A tag `vX.Y.Z` of three numbers parses, with no prerelease and no build. -/
theorem parse_versionTag (x y z : Str) (hx : isNumber x = true) (hy : isNumber y = true)
    (hz : isNumber z = true) :
    parse (versionTag x y z) = some ⟨x, y, z, [], [], []⟩ := by
  have h1 : parseInt (x ++ '.' :: (y ++ '.' :: z)) = some (x, '.' :: (y ++ '.' :: z)) :=
    parseInt_append x _ hx (by
      intro c hc
      simp at hc
      rw [← hc]; exact isDigit_dot)
  have h2 : parseInt (y ++ '.' :: z) = some (y, '.' :: z) :=
    parseInt_append y _ hy (by
      intro c hc
      simp at hc
      rw [← hc]; exact isDigit_dot)
  have h3 : parseInt z = some (z, []) := by
    have := parseInt_append z [] hz (by simp)
    simpa using this
  simp only [versionTag, parse, List.append_assoc, List.cons_append]
  simp [h1, h2, h3, parseTail]

end semver

/-! ## The ref policy -/

namespace semver

theorem not_mem_of_isNumber (x : Str) (c : Char) (hx : isNumber x = true)
    (hc : isDigit c = false) : c ∉ x := by
  intro hm
  have := ((isNumber_iff x).mp hx).2.1 c hm
  rw [hc] at this
  exact Bool.noConfusion this

theorem count_dot_versionTag (x y z : Str) (hx : isNumber x = true) (hy : isNumber y = true)
    (hz : isNumber z = true) : (versionTag x y z).count '.' = 2 := by
  have cx := List.count_eq_zero.mpr (not_mem_of_isNumber x '.' hx isDigit_dot)
  have cy := List.count_eq_zero.mpr (not_mem_of_isNumber y '.' hy isDigit_dot)
  have cz := List.count_eq_zero.mpr (not_mem_of_isNumber z '.' hz isDigit_dot)
  simp [versionTag, List.count_cons, List.count_append, cx, cy, cz]

/-- The test of the general branch of the ref policy holds exactly for the
tags `vX.Y.Z` of three numbers. -/
theorem fullTag_iff (pin : Str) :
    (IsValid pin = true ∧ (strings.Split pin '.').length = 3 ∧ Prerelease pin = [] ∧
        Build pin = []) ↔
      ∃ x y z, isNumber x = true ∧ isNumber y = true ∧ isNumber z = true ∧
        pin = versionTag x y z := by
  constructor
  · rintro ⟨hv, hl, hp, hb⟩
    rw [strings.Split_length] at hl
    unfold IsValid at hv
    obtain ⟨pv, hpv⟩ := Option.isSome_iff_exists.mp hv
    simp only [Prerelease, hpv] at hp
    simp only [Build, hpv] at hb
    rcases parse_some pin pv hpv with ⟨x, nx, e, -, -⟩ | ⟨x, y, nx, ny, e, -, -⟩ |
      ⟨x, y, z, nx, ny, nz, e, -, -⟩
    · exfalso
      have cx := List.count_eq_zero.mpr (not_mem_of_isNumber x '.' nx isDigit_dot)
      rw [e] at hl
      simp [List.count_cons, cx] at hl
    · exfalso
      have cx := List.count_eq_zero.mpr (not_mem_of_isNumber x '.' nx isDigit_dot)
      have cy := List.count_eq_zero.mpr (not_mem_of_isNumber y '.' ny isDigit_dot)
      rw [e] at hl
      simp [List.count_cons, List.count_append, cx, cy] at hl
    · refine ⟨x, y, z, nx, ny, nz, ?_⟩
      rw [e, hp, hb]
      simp
  · rintro ⟨x, y, z, nx, ny, nz, e⟩
    have hp := parse_versionTag x y z nx ny nz
    subst e
    refine ⟨by simp [IsValid, hp], ?_, by simp [Prerelease, hp], by simp [Build, hp]⟩
    rw [strings.Split_length, count_dot_versionTag x y z nx ny nz]

end semver

namespace utils

theorem TagFromGitHubRef_append (pin : Str) :
    TagFromGitHubRef ("refs/tags/".toList ++ pin) = .ok pin := by
  have h : strings.HasPrefix ("refs/tags/".toList ++ pin) "refs/tags/".toList = true :=
    (strings.HasPrefix_iff _ _).mpr ⟨pin, rfl⟩
  unfold TagFromGitHubRef ValidateGitHubTagRef
  rw [h, strings.TrimPrefix_append]
  rfl

theorem TagFromGitHubRef_error (ref : Str) (h : ∀ pin, ref ≠ "refs/tags/".toList ++ pin) :
    TagFromGitHubRef ref = .error Err.ErrorInvalidRef := by
  have h2 : strings.HasPrefix ref "refs/tags/".toList = false := by
    cases hp : strings.HasPrefix ref "refs/tags/".toList with
    | false => rfl
    | true =>
      obtain ⟨t, ht⟩ := (strings.HasPrefix_iff _ _).mp hp
      exact absurd ht (h t)
  unfold TagFromGitHubRef ValidateGitHubTagRef
  rw [h2]
  rfl

theorem TagFromGitHubRef_cases (ref : Str) :
    (∃ pin, ref = "refs/tags/".toList ++ pin ∧ TagFromGitHubRef ref = .ok pin) ∨
      ((∀ pin, ref ≠ "refs/tags/".toList ++ pin) ∧
        TagFromGitHubRef ref = .error Err.ErrorInvalidRef) := by
  by_cases h : ∃ pin, ref = "refs/tags/".toList ++ pin
  · obtain ⟨pin, e⟩ := h
    left
    exact ⟨pin, e, by rw [e]; exact TagFromGitHubRef_append pin⟩
  · right
    have h2 : ∀ pin, ref ≠ "refs/tags/".toList ++ pin := fun pin e => h ⟨pin, e⟩
    exact ⟨h2, TagFromGitHubRef_error ref h2⟩

end utils

namespace gha

open utils

/-- The general branch of the ref policy: it is taken unless the source
repository is privileged and test mode is on, and it accepts exactly the refs
`refs/tags/vX.Y.Z`, answering `ErrorInvalidRef` to every other ref. -/
theorem verifyTrustedBuilderRef_general (testingEnabled : Bool) (id : WorkflowIdentity)
    (h : ¬ ((id.SourceRepository = trustedBuilderRepository ∨
      id.SourceRepository = e2eTestRepository) ∧ testingEnabled = true)) (ref : Str) :
    (verifyTrustedBuilderRef testingEnabled id ref = .ok () ↔ isFullVersionRef ref) ∧
      (¬ isFullVersionRef ref →
        verifyTrustedBuilderRef testingEnabled id ref = .error Err.ErrorInvalidRef) := by
  unfold verifyTrustedBuilderRef
  rw [if_neg h]
  rcases TagFromGitHubRef_cases ref with ⟨pin, e, ht⟩ | ⟨hn, ht⟩
  · rw [ht]
    simp only
    have key : isFullVersionRef ref ↔
        (semver.IsValid pin = true ∧ (strings.Split pin '.').length = 3 ∧
          semver.Prerelease pin = [] ∧ semver.Build pin = []) := by
      rw [semver.fullTag_iff]
      unfold isFullVersionRef
      constructor
      · rintro ⟨x, y, z, nx, ny, nz, e2⟩
        rw [e] at e2
        exact ⟨x, y, z, nx, ny, nz, List.append_cancel_left e2⟩
      · rintro ⟨x, y, z, nx, ny, nz, e2⟩
        exact ⟨x, y, z, nx, ny, nz, by rw [e, e2]⟩
    rw [key]
    split
    · rename_i hc
      exact ⟨by simp [hc], fun _ => rfl⟩
    · rename_i hc
      have hc2 := not_not.mp hc
      exact ⟨by simp [hc2], fun hn => absurd hc2 hn⟩
  · rw [ht]
    simp only
    have hnot : ¬ isFullVersionRef ref := by
      rintro ⟨x, y, z, -, -, -, e⟩
      exact hn _ e
    exact ⟨by simp [hnot], fun _ => trivial⟩

end gha

namespace gha

open utils

theorem not_isFullVersionRef_of_eval (ref : Str)
    (h : verifyTrustedBuilderRef false (mkIdentity [] [] []) ref ≠ .ok ()) :
    ¬ isFullVersionRef ref := by
  intro hf
  exact h ((verifyTrustedBuilderRef_general false (mkIdentity [] [] []) (by decide) ref).1.mpr hf)

/-- The privileged branch of the ref policy (privileged source repository,
test mode on): a ref other than `refs/heads/main` is accepted only if it is
`refs/tags/vX.Y.Z` followed by nothing or by a prerelease that starts with
`-`; a rejected ref is answered with `ErrorInvalidRef`. -/
theorem verifyTrustedBuilderRef_privileged (id : WorkflowIdentity)
    (h : id.SourceRepository = trustedBuilderRepository ∨
      id.SourceRepository = e2eTestRepository) (ref : Str) :
    (verifyTrustedBuilderRef true id ref = .ok () → ref ≠ "refs/heads/main".toList →
      ∃ x y z pre, isNumber x = true ∧ isNumber y = true ∧ isNumber z = true ∧
        ref = "refs/tags/".toList ++ versionTag x y z ++ pre ∧
        (pre = [] ∨ ∃ u, pre = '-' :: u ∧ ∀ c ∈ u, semver.isIdentChar c = true ∨ c = '.')) ∧
      (verifyTrustedBuilderRef true id ref = .ok () ∨
        verifyTrustedBuilderRef true id ref = .error Err.ErrorInvalidRef) := by
  unfold verifyTrustedBuilderRef
  rw [if_pos ⟨h, rfl⟩]
  by_cases hm : ref = "refs/heads/main".toList
  · rw [if_pos hm]
    exact ⟨fun _ hne => absurd hm hne, Or.inl rfl⟩
  · rw [if_neg hm]
    rcases TagFromGitHubRef_cases ref with ⟨pin, e, ht⟩ | ⟨hn, ht⟩
    · rw [ht]
      simp only
      split
      · exact ⟨fun hc => Except.noConfusion hc, Or.inr rfl⟩
      · rename_i hc
        refine ⟨fun _ _ => ?_, Or.inl rfl⟩
        simp only [not_or, not_not] at hc
        obtain ⟨hv, hl, hb⟩ := hc
        have hv2 : semver.IsValid pin = true := by simpa using hv
        unfold semver.IsValid at hv2
        obtain ⟨pv, hpv⟩ := Option.isSome_iff_exists.mp hv2
        simp only [semver.Build, hpv] at hb
        have dash : semver.isDigit '-' = false := by decide
        rcases semver.parse_some pin pv hpv with ⟨x, nx, e1, -, -⟩ | ⟨x, y, nx, ny, e1, -, -⟩ |
          ⟨x, y, z, nx, ny, nz, e1, hp, -⟩
        · exfalso
          have hd : '-' ∉ pin := by
            rw [e1]
            intro hmem
            rcases List.mem_cons.mp hmem with e2 | e2
            · exact absurd e2 (by decide)
            · exact semver.not_mem_of_isNumber x '-' nx dash e2
          rw [strings.Split_of_not_mem pin '-' hd] at hl
          simp only [List.headD_cons] at hl
          rw [strings.Split_length, e1] at hl
          have cx := List.count_eq_zero.mpr
            (semver.not_mem_of_isNumber x '.' nx semver.isDigit_dot)
          simp [List.count_cons, cx] at hl
        · exfalso
          have hd : '-' ∉ pin := by
            rw [e1]
            intro hmem
            rcases List.mem_cons.mp hmem with e2 | e2
            · exact absurd e2 (by decide)
            · rcases List.mem_append.mp e2 with e3 | e3
              · exact semver.not_mem_of_isNumber x '-' nx dash e3
              · rcases List.mem_cons.mp e3 with e4 | e4
                · exact absurd e4 (by decide)
                · exact semver.not_mem_of_isNumber y '-' ny dash e4
          rw [strings.Split_of_not_mem pin '-' hd] at hl
          simp only [List.headD_cons] at hl
          rw [strings.Split_length, e1] at hl
          have cx := List.count_eq_zero.mpr
            (semver.not_mem_of_isNumber x '.' nx semver.isDigit_dot)
          have cy := List.count_eq_zero.mpr
            (semver.not_mem_of_isNumber y '.' ny semver.isDigit_dot)
          simp [List.count_cons, List.count_append, cx, cy] at hl
        · refine ⟨x, y, z, pv.prerelease, nx, ny, nz, ?_, hp⟩
          rw [e, e1, hb]
          simp
    · rw [ht]
      exact ⟨fun hc => Except.noConfusion hc, Or.inr rfl⟩

end gha

/-! ## Trust resolution -/

namespace strings

theorem Split_eq_singleton (s x : Str) (c : Char) (h : Split s c = [x]) : s = x ∧ c ∉ s := by
  have hl := Split_length s c
  rw [h] at hl
  have hc : c ∉ s := List.count_eq_zero.mp (by simpa using hl.symm)
  rw [Split_of_not_mem s c hc] at h
  exact ⟨by simpa using h, hc⟩

theorem Split_two_le_of_mem (s : Str) (c : Char) (h : c ∈ s) :
    ∃ a b t, Split s c = a :: b :: t := by
  obtain ⟨a, b, e, hna⟩ := exists_split_of_mem s c h
  rw [e, Split_append_sep a b c hna]
  cases hb : Split b c with
  | nil => exact absurd hb (Split_ne_nil b c)
  | cons y t => exact ⟨a, y, t, rfl⟩

theorem SplitN_two_cases (s : Str) (c : Char) :
    (c ∉ s ∧ SplitN s c 2 = [s]) ∨
      ∃ a b, s = a ++ c :: b ∧ c ∉ a ∧ SplitN s c 2 = [a, b] := by
  by_cases h : c ∈ s
  · obtain ⟨a, b, e, hna⟩ := exists_split_of_mem s c h
    right
    exact ⟨a, b, e, hna, by rw [e]; exact SplitN_two_append_sep a b c hna⟩
  · left
    exact ⟨h, SplitN_two_of_not_mem s c h⟩

theorem append_sep_inj (a b a2 b2 : Str) (c : Char) (h : a ++ c :: b = a2 ++ c :: b2)
    (h1 : c ∉ a) (h2 : c ∉ a2) : a = a2 ∧ b = b2 := by
  induction a generalizing a2 with
  | nil =>
    cases a2 with
    | nil => simpa using h
    | cons y a2 =>
      simp at h
      exact absurd h.1 (fun e => h2 (by simp [e]))
  | cons x a ih =>
    cases a2 with
    | nil =>
      simp at h
      exact absurd h.1.symm (fun e => h1 (by simp [e]))
    | cons y a2 =>
      simp at h
      obtain ⟨e1, e2⟩ := h
      have := ih a2 e2 (fun e => h1 (by simp [e])) (fun e => h2 (by simp [e]))
      exact ⟨by rw [e1, this.1], this.2⟩

theorem Trim_eq_self (s : Str) (c : Char) (h1 : s.head? ≠ some c) (h2 : s.getLast? ≠ some c) :
    Trim s c = s := by
  rcases List.eq_nil_or_concat s with e | ⟨t, x, e⟩
  · rw [e]; exact Trim_nil c
  · have hx : x ≠ c := by
      intro hc
      apply h2
      rw [e, hc]
      simp
    unfold Trim
    rw [e, List.concat_eq_append, TrimRight_append_of_ne t c x hx]
    rw [e, List.concat_eq_append] at h1
    cases t with
    | nil =>
      exact TrimLeft_cons_of_ne [] c x hx
    | cons y t =>
      have hy : y ≠ c := by
        intro hc
        apply h1
        rw [hc]
        rfl
      exact TrimLeft_cons_of_ne _ c y hy

end strings

namespace utils

/-- When `name` holds no `@`, building an ID from `name@tag` succeeds exactly
for a non-empty `tag` without `@`, and gives `ErrorInvalidFormat` otherwise. -/
theorem TrustedBuilderIDNew_candidate (name tag : Str) (hn : '@' ∉ name) :
    (('@' ∉ tag ∧ tag ≠ []) ∧ TrustedBuilderIDNew (name ++ '@' :: tag) = .ok ⟨name, tag⟩) ∨
      ((tag = [] ∨ '@' ∈ tag) ∧
        TrustedBuilderIDNew (name ++ '@' :: tag) = .error Err.ErrorInvalidFormat) := by
  unfold TrustedBuilderIDNew ParseBuilderID
  rw [strings.Split_append_sep name tag '@' hn]
  by_cases ht : '@' ∈ tag
  · right
    obtain ⟨a, b, t, e⟩ := strings.Split_two_le_of_mem tag '@' ht
    rw [e]
    exact ⟨Or.inr ht, rfl⟩
  · rw [strings.Split_of_not_mem tag '@' ht]
    by_cases he : tag = []
    · right
      subst he
      exact ⟨Or.inl rfl, rfl⟩
    · left
      refine ⟨⟨ht, he⟩, ?_⟩
      simp only [he, if_false]

end utils

namespace gha

open utils

theorem not_mem_httpsGithubCom : '@' ∉ httpsGithubCom := by decide

theorem not_mem_candidate_name (path : Str) (hp : '@' ∉ path) :
    '@' ∉ httpsGithubCom ++ path := by
  intro h
  rcases List.mem_append.mp h with e | e
  · exact not_mem_httpsGithubCom e
  · exact hp e

/-- Outcomes of `verifyTrustedBuilderID` with no expected ID, for a path
without `@`. -/
theorem verifyTrustedBuilderID_default (path tag : Str) (e : Option Str) (d : StrSet)
    (he : e = none ∨ e = some []) (hp : '@' ∉ path) :
    (d.lookup path = none ∧
      verifyTrustedBuilderID path tag e d = .error Err.ErrorUntrustedReusableWorkflow) ∨
    ((d.lookup path).isSome = true ∧ '@' ∉ tag ∧ tag ≠ [] ∧
      verifyTrustedBuilderID path tag e d = .ok ⟨httpsGithubCom ++ path, tag⟩) ∨
    ((d.lookup path).isSome = true ∧ (tag = [] ∨ '@' ∈ tag) ∧
      verifyTrustedBuilderID path tag e d = .error Err.ErrorInvalidFormat) := by
  unfold verifyTrustedBuilderID
  simp only
  rw [if_pos he]
  cases hl : d.lookup path with
  | none => exact Or.inl ⟨rfl, rfl⟩
  | some v =>
    right
    simp only
    rcases TrustedBuilderIDNew_candidate (httpsGithubCom ++ path) tag
      (not_mem_candidate_name path hp) with ⟨⟨h1, h2⟩, h3⟩ | ⟨h1, h3⟩
    · left
      rw [List.append_assoc] at h3 ⊢
      exact ⟨rfl, h1, h2, h3⟩
    · right
      rw [List.append_assoc] at h3 ⊢
      exact ⟨rfl, h1, h3⟩

/-- Outcomes of `verifyTrustedBuilderID` with a non-empty expected ID, for a
path without `@`: the trusted-path set is not consulted. -/
theorem verifyTrustedBuilderID_expected (path tag e : Str) (d : StrSet)
    (he : e ≠ []) (hp : '@' ∉ path) :
    ('@' ∉ tag ∧ tag ≠ [] ∧
      (⟨httpsGithubCom ++ path, tag⟩ : TrustedBuilderID).MatchesLoose e true = .ok () ∧
      verifyTrustedBuilderID path tag (some e) d = .ok ⟨httpsGithubCom ++ path, tag⟩) ∨
    ('@' ∉ tag ∧ tag ≠ [] ∧
      (⟨httpsGithubCom ++ path, tag⟩ : TrustedBuilderID).MatchesLoose e true ≠ .ok () ∧
      verifyTrustedBuilderID path tag (some e) d = .error Err.ErrorUntrustedReusableWorkflow) ∨
    ((tag = [] ∨ '@' ∈ tag) ∧
      verifyTrustedBuilderID path tag (some e) d = .error Err.ErrorInvalidFormat) := by
  unfold verifyTrustedBuilderID
  simp only
  have hne : ¬ (some e = none ∨ some e = some []) := by
    rintro (h | h)
    · exact Option.noConfusion h
    · exact he (Option.some.inj h)
  rw [if_neg hne]
  rcases TrustedBuilderIDNew_candidate (httpsGithubCom ++ path) tag
    (not_mem_candidate_name path hp) with ⟨⟨h1, h2⟩, h3⟩ | ⟨h1, h3⟩
  · rw [h3]
    simp only [Option.getD_some]
    cases hm : (⟨httpsGithubCom ++ path, tag⟩ : TrustedBuilderID).MatchesLoose e true with
    | ok u => exact Or.inl ⟨h1, h2, rfl, rfl⟩
    | error x => exact Or.inr (Or.inl ⟨h1, h2, fun hc => Except.noConfusion hc, rfl⟩)
  · rw [h3]
    exact Or.inr (Or.inr ⟨h1, rfl⟩)

end gha

namespace gha

open utils

theorem verifyTrustedBuilderRef_error (testingEnabled : Bool) (id : WorkflowIdentity)
    (ref : Str) (e : Err) (h : verifyTrustedBuilderRef testingEnabled id ref = .error e) :
    e = Err.ErrorInvalidRef := by
  by_cases hp : (id.SourceRepository = trustedBuilderRepository ∨
      id.SourceRepository = e2eTestRepository) ∧ testingEnabled = true
  · obtain ⟨hrepo, ht⟩ := hp
    subst ht
    rcases (verifyTrustedBuilderRef_privileged id hrepo ref).2 with h2 | h2
    · rw [h2] at h
      exact Except.noConfusion h
    · rw [h2] at h
      exact (Except.error.inj h).symm
  · have hg := verifyTrustedBuilderRef_general testingEnabled id hp ref
    by_cases hf : isFullVersionRef ref
    · rw [hg.1.mpr hf] at h
      exact Except.noConfusion h
    · rw [hg.2 hf] at h
      exact (Except.error.inj h).symm

/-- Every accepted ref is `refs/heads/main` or `refs/tags/vX.Y.Z` followed by
nothing or by a prerelease. -/
theorem verifyTrustedBuilderRef_ok_shape (testingEnabled : Bool) (id : WorkflowIdentity)
    (ref : Str) (h : verifyTrustedBuilderRef testingEnabled id ref = .ok ()) :
    ref = "refs/heads/main".toList ∨
      ∃ x y z pre, isNumber x = true ∧ isNumber y = true ∧ isNumber z = true ∧
        ref = "refs/tags/".toList ++ versionTag x y z ++ pre ∧
        (pre = [] ∨ ∃ u, pre = '-' :: u ∧ ∀ c ∈ u, semver.isIdentChar c = true ∨ c = '.') := by
  by_cases hp : (id.SourceRepository = trustedBuilderRepository ∨
      id.SourceRepository = e2eTestRepository) ∧ testingEnabled = true
  · obtain ⟨hrepo, ht⟩ := hp
    subst ht
    by_cases hm : ref = "refs/heads/main".toList
    · exact Or.inl hm
    · exact Or.inr ((verifyTrustedBuilderRef_privileged id hrepo ref).1 h hm)
  · obtain ⟨x, y, z, nx, ny, nz, e⟩ :=
      (verifyTrustedBuilderRef_general testingEnabled id hp ref).1.mp h
    exact Or.inr ⟨x, y, z, [], nx, ny, nz, by rw [e]; simp, Or.inl rfl⟩

theorem not_mem_versionTag_pre (x y z pre : Str) (c : Char)
    (hx : isNumber x = true) (hy : isNumber y = true) (hz : isNumber z = true)
    (hpre : pre = [] ∨ ∃ u, pre = '-' :: u ∧ ∀ c ∈ u, semver.isIdentChar c = true ∨ c = '.')
    (hd : semver.isDigit c = false) (hi : semver.isIdentChar c = false)
    (hv : c ≠ 'v') (hdot : c ≠ '.') :
    c ∉ versionTag x y z ++ pre := by
  have hdash : c ≠ '-' := by
    intro e
    rw [e] at hi
    exact absurd hi (by decide)
  intro hm
  rcases List.mem_append.mp hm with h | h
  · have h1 := semver.not_mem_of_isNumber x c hx hd
    have h2 := semver.not_mem_of_isNumber y c hy hd
    have h3 := semver.not_mem_of_isNumber z c hz hd
    simp [versionTag, h1, h2, h3, hv, hdot] at h
  · rcases hpre with e | ⟨u, e, hu⟩
    · rw [e] at h
      simp at h
    · rw [e] at h
      rcases List.mem_cons.mp h with h | h
      · exact hdash h
      · rcases hu c h with h2 | h2
        · rw [hi] at h2
          exact Bool.noConfusion h2
        · exact hdot h2

/-- An accepted ref is not empty, holds no `@`, and neither starts nor ends
with `/`: trimming leaves it as it is. -/
theorem verifyTrustedBuilderRef_ok_clean (testingEnabled : Bool) (id : WorkflowIdentity)
    (ref : Str) (h : verifyTrustedBuilderRef testingEnabled id ref = .ok ()) :
    '@' ∉ ref ∧ ref ≠ [] ∧ strings.Trim ref '/' = ref := by
  rcases verifyTrustedBuilderRef_ok_shape testingEnabled id ref h with e |
    ⟨x, y, z, pre, nx, ny, nz, e, hpre⟩
  · rw [e]
    exact ⟨by decide, by decide, by decide⟩
  · have hat : '@' ∉ versionTag x y z ++ pre :=
      not_mem_versionTag_pre x y z pre '@' nx ny nz hpre (by decide) (by decide)
        (by decide) (by decide)
    have hsl : '/' ∉ versionTag x y z ++ pre :=
      not_mem_versionTag_pre x y z pre '/' nx ny nz hpre (by decide) (by decide)
        (by decide) (by decide)
    have hne : versionTag x y z ++ pre ≠ [] := by simp [versionTag]
    rw [List.append_assoc] at e
    refine ⟨?_, ?_, ?_⟩
    · rw [e]
      intro hm
      rcases List.mem_append.mp hm with h2 | h2
      · exact absurd h2 (by decide)
      · exact hat h2
    · rw [e]
      intro h2
      have := List.append_eq_nil.mp h2
      exact hne this.2
    · apply strings.Trim_eq_self
      · rw [e]
        have hh : ("refs/tags/".toList ++ (versionTag x y z ++ pre)).head? = some 'r' := rfl
        rw [hh]
        decide
      · rw [e, List.getLast?_append_of_ne_nil _ hne]
        intro h2
        exact hsl (List.mem_of_getLast?_eq_some h2)

/-- After the issuer check and the split at the first `@`, the function
`VerifyBuilderIdentity` is trust resolution followed by the ref policy, both
on the trimmed parts. -/
theorem VerifyBuilderIdentity_split (testingEnabled : Bool) (id : WorkflowIdentity)
    (opts : BuilderOpts) (d : StrSet) (p r : Str)
    (hi : id.Issuer = certOidcIssuer) (hs : id.SubjectWorkflowRef = p ++ '@' :: r)
    (hp : '@' ∉ p) :
    VerifyBuilderIdentity testingEnabled id opts d =
      match verifyTrustedBuilderID (strings.Trim p '/') (strings.Trim r '/')
          opts.ExpectedID d with
      | .error e => .error e
      | .ok builderID =>
        match verifyTrustedBuilderRef testingEnabled id (strings.Trim r '/') with
        | .error e => .error e
        | .ok _ => .ok builderID := by
  unfold VerifyBuilderIdentity
  rw [if_neg (not_not.mpr hi), hs, strings.SplitN_two_append_sep p r '@' hp]

theorem not_mem_Trim (p : Str) (hp : '@' ∉ p) : '@' ∉ strings.Trim p '/' :=
  fun h => hp (strings.mem_of_mem_Trim p '/' '@' h)

/-- Outcomes of `verifyTrustedBuilderID` for a path without `@`: the resolved
ID has the given tag as its version, and an error is
`ErrorUntrustedReusableWorkflow` or, for an empty tag or a tag with `@`,
`ErrorInvalidFormat`. -/
theorem verifyTrustedBuilderID_cases (path tag : Str) (e : Option Str) (d : StrSet)
    (hp : '@' ∉ path) :
    ('@' ∉ tag ∧ tag ≠ [] ∧
      verifyTrustedBuilderID path tag e d = .ok ⟨httpsGithubCom ++ path, tag⟩) ∨
    verifyTrustedBuilderID path tag e d = .error Err.ErrorUntrustedReusableWorkflow ∨
    ((tag = [] ∨ '@' ∈ tag) ∧
      verifyTrustedBuilderID path tag e d = .error Err.ErrorInvalidFormat) := by
  by_cases he : e = none ∨ e = some []
  · rcases verifyTrustedBuilderID_default path tag e d he hp with ⟨-, h⟩ | ⟨-, h1, h2, h⟩ |
      ⟨-, h1, h⟩
    · exact Or.inr (Or.inl h)
    · exact Or.inl ⟨h1, h2, h⟩
    · exact Or.inr (Or.inr ⟨h1, h⟩)
  · cases e with
    | none => exact absurd (Or.inl rfl) he
    | some s =>
      have hs : s ≠ [] := fun h => he (Or.inr (by rw [h]))
      rcases verifyTrustedBuilderID_expected path tag s d hs hp with ⟨h1, h2, -, h⟩ |
        ⟨-, -, -, h⟩ | ⟨h1, h⟩
      · exact Or.inl ⟨h1, h2, h⟩
      · exact Or.inr (Or.inl h)
      · exact Or.inr (Or.inr ⟨h1, h⟩)

end gha

/-! ## The claims on the ref policy -/

namespace gha

open utils

/-- C1: for an identity whose source repository is neither of the two
privileged repositories, whatever the test-mode flag, `verifyTrustedBuilderRef`
succeeds exactly on the refs `refs/tags/vX.Y.Z` (three decimal numbers without
leading zeros, nothing else), and fails with `ErrorInvalidRef` on every other
ref, among them `refs/heads/main`, `refs/tags/v1.2`, `refs/tags/v1`,
`refs/tags/v1.2.3-alpha`, `refs/tags/v1.2.3+123` and
`refs/tags/v1.2.3-alpha+123`. -/
theorem verifyTrustedBuilderRef_other_repository (testingEnabled : Bool)
    (id : WorkflowIdentity)
    (h1 : id.SourceRepository ≠ trustedBuilderRepository)
    (h2 : id.SourceRepository ≠ e2eTestRepository) :
    (∀ ref, verifyTrustedBuilderRef testingEnabled id ref = .ok () ↔ isFullVersionRef ref) ∧
    (∀ ref, ¬ isFullVersionRef ref →
      verifyTrustedBuilderRef testingEnabled id ref = .error Err.ErrorInvalidRef) ∧
    (∀ ref ∈ ["refs/heads/main".toList, "refs/tags/v1.2".toList, "refs/tags/v1".toList,
        "refs/tags/v1.2.3-alpha".toList, "refs/tags/v1.2.3+123".toList,
        "refs/tags/v1.2.3-alpha+123".toList],
      verifyTrustedBuilderRef testingEnabled id ref = .error Err.ErrorInvalidRef) := by
  have hg : ¬ ((id.SourceRepository = trustedBuilderRepository ∨
      id.SourceRepository = e2eTestRepository) ∧ testingEnabled = true) := by
    rintro ⟨h | h, -⟩
    · exact h1 h
    · exact h2 h
  refine ⟨fun ref => (verifyTrustedBuilderRef_general testingEnabled id hg ref).1,
    fun ref => (verifyTrustedBuilderRef_general testingEnabled id hg ref).2, ?_⟩
  intro ref hmem
  apply (verifyTrustedBuilderRef_general testingEnabled id hg ref).2
  apply not_isFullVersionRef_of_eval
  simp only [List.mem_cons, List.mem_singleton, List.not_mem_nil, or_false] at hmem
  rcases hmem with e | e | e | e | e | e <;> (rw [e]; decide)

/-- C1, at the repository `some/repo` with test mode on. -/
theorem verifyTrustedBuilderRef_other_repository_witness :
    (mkIdentity "some/repo".toList [] []).SourceRepository ≠ trustedBuilderRepository ∧
    (mkIdentity "some/repo".toList [] []).SourceRepository ≠ e2eTestRepository ∧
    verifyTrustedBuilderRef true (mkIdentity "some/repo".toList [] [])
      "refs/tags/v1.2.3-alpha".toList = .error Err.ErrorInvalidRef :=
  ⟨by decide, by decide,
    (verifyTrustedBuilderRef_other_repository true (mkIdentity "some/repo".toList [] [])
      (by decide) (by decide)).2.2 _ (by simp)⟩

/-- C2 fails on the code: with test mode on, the privileged repository
`slsa-framework/slsa-github-generator` has the prerelease tag
`refs/tags/v1.2.3-alpha` accepted, where the claim, and the test case
`full semver with prerelease for builder` of the repository, expect
`ErrorInvalidRef`. -/
theorem verifyTrustedBuilderRef_privileged_prerelease_accepted :
    verifyTrustedBuilderRef true (mkIdentity trustedBuilderRepository [] [])
        "refs/tags/v1.2.3-alpha".toList = .ok () ∧
      verifyTrustedBuilderRef true (mkIdentity trustedBuilderRepository [] [])
        "refs/tags/v1.2.3-alpha".toList ≠ .error Err.ErrorInvalidRef ∧
      "refs/tags/v1.2.3-alpha".toList ≠ "refs/heads/main".toList ∧
      ¬ isFullVersionRef "refs/tags/v1.2.3-alpha".toList :=
  ⟨by decide, by decide, by decide, not_isFullVersionRef_of_eval _ (by decide)⟩

/-- The privileged branch as the code has it: for a privileged source
repository with test mode on, a ref other than `refs/heads/main` is accepted
only if it is `refs/tags/vX.Y.Z` (three decimal numbers without leading zeros)
followed by nothing or by a prerelease starting with `-`, with no build
metadata; `refs/tags/v1.2`, `refs/tags/v1`, `refs/tags/v1.2.3+123` and
`refs/tags/v1.2.3-alpha+123` fail with `ErrorInvalidRef`. -/
theorem verifyTrustedBuilderRef_privileged_testing (id : WorkflowIdentity)
    (h : id.SourceRepository = trustedBuilderRepository ∨
      id.SourceRepository = e2eTestRepository) :
    (∀ ref, verifyTrustedBuilderRef true id ref = .ok () → ref ≠ "refs/heads/main".toList →
      ∃ x y z pre, isNumber x = true ∧ isNumber y = true ∧ isNumber z = true ∧
        ref = "refs/tags/".toList ++ versionTag x y z ++ pre ∧
        (pre = [] ∨ ∃ u, pre = '-' :: u ∧ ∀ c ∈ u, semver.isIdentChar c = true ∨ c = '.')) ∧
    (∀ ref ∈ ["refs/tags/v1.2".toList, "refs/tags/v1".toList, "refs/tags/v1.2.3+123".toList,
        "refs/tags/v1.2.3-alpha+123".toList],
      verifyTrustedBuilderRef true id ref = .error Err.ErrorInvalidRef) := by
  refine ⟨fun ref => (verifyTrustedBuilderRef_privileged id h ref).1, ?_⟩
  intro ref hmem
  simp only [List.mem_cons, List.mem_singleton, List.not_mem_nil, or_false] at hmem
  unfold verifyTrustedBuilderRef
  rw [if_pos ⟨h, rfl⟩]
  rcases hmem with e | e | e | e <;> (rw [e]; decide)

/-- The privileged branch at the repository `slsa-framework/example-package`. -/
theorem verifyTrustedBuilderRef_privileged_testing_witness :
    ((mkIdentity e2eTestRepository [] []).SourceRepository = trustedBuilderRepository ∨
      (mkIdentity e2eTestRepository [] []).SourceRepository = e2eTestRepository) ∧
    verifyTrustedBuilderRef true (mkIdentity e2eTestRepository [] [])
      "refs/tags/v1.2.3+123".toList = .error Err.ErrorInvalidRef :=
  ⟨Or.inr rfl,
    (verifyTrustedBuilderRef_privileged_testing (mkIdentity e2eTestRepository [] [])
      (Or.inr rfl)).2 _ (by simp)⟩

/-- C3: `verifyTrustedBuilderRef` accepts `refs/heads/main` exactly when the
source repository is one of the two privileged repositories and test mode is
on; in every other case `refs/heads/main` fails with `ErrorInvalidRef`. -/
theorem verifyTrustedBuilderRef_main_iff (testingEnabled : Bool) (id : WorkflowIdentity) :
    (verifyTrustedBuilderRef testingEnabled id "refs/heads/main".toList = .ok () ↔
      ((id.SourceRepository = trustedBuilderRepository ∨
        id.SourceRepository = e2eTestRepository) ∧ testingEnabled = true)) ∧
    (¬ ((id.SourceRepository = trustedBuilderRepository ∨
        id.SourceRepository = e2eTestRepository) ∧ testingEnabled = true) →
      verifyTrustedBuilderRef testingEnabled id "refs/heads/main".toList =
        .error Err.ErrorInvalidRef) := by
  have hmain : ¬ isFullVersionRef "refs/heads/main".toList :=
    not_isFullVersionRef_of_eval _ (by decide)
  by_cases hp : (id.SourceRepository = trustedBuilderRepository ∨
      id.SourceRepository = e2eTestRepository) ∧ testingEnabled = true
  · have hok : verifyTrustedBuilderRef testingEnabled id "refs/heads/main".toList = .ok () := by
      unfold verifyTrustedBuilderRef
      rw [if_pos hp, if_pos rfl]
    exact ⟨⟨fun _ => hp, fun _ => hok⟩, fun hn => absurd hp hn⟩
  · have hg := verifyTrustedBuilderRef_general testingEnabled id hp "refs/heads/main".toList
    have herr := hg.2 hmain
    refine ⟨⟨fun hok => ?_, fun h => absurd h hp⟩, fun _ => herr⟩
    rw [herr] at hok
    exact Except.noConfusion hok

/-- C3, at a privileged repository with test mode off. -/
theorem verifyTrustedBuilderRef_main_iff_witness :
    ¬ (((mkIdentity trustedBuilderRepository [] []).SourceRepository = trustedBuilderRepository ∨
      (mkIdentity trustedBuilderRepository [] []).SourceRepository = e2eTestRepository) ∧
        false = true) ∧
    verifyTrustedBuilderRef false (mkIdentity trustedBuilderRepository [] [])
      "refs/heads/main".toList = .error Err.ErrorInvalidRef :=
  ⟨by simp,
    (verifyTrustedBuilderRef_main_iff false (mkIdentity trustedBuilderRepository [] [])).2
      (by simp)⟩

end gha

/-! ## The claims on `VerifyBuilderIdentity` and trust resolution -/

namespace gha

open utils

/-- C4: whenever `VerifyBuilderIdentity` succeeds for an identity whose source
repository is not privileged, or with test mode off, the version of the
returned ID is `refs/tags/vX.Y.Z` (three numbers, no prerelease, no build) and
not a branch ref, whatever the expected builder ID and the trusted-path set. -/
theorem VerifyBuilderIdentity_version (testingEnabled : Bool) (id : WorkflowIdentity)
    (opts : BuilderOpts) (d : StrSet) (b : TrustedBuilderID)
    (hp : (id.SourceRepository ≠ trustedBuilderRepository ∧
      id.SourceRepository ≠ e2eTestRepository) ∨ testingEnabled = false)
    (h : VerifyBuilderIdentity testingEnabled id opts d = .ok b) :
    isFullVersionRef b.Version ∧ b.Version ≠ "refs/heads/main".toList ∧
      strings.HasPrefix b.Version "refs/heads/".toList = false := by
  have hg : ¬ ((id.SourceRepository = trustedBuilderRepository ∨
      id.SourceRepository = e2eTestRepository) ∧ testingEnabled = true) := by
    rintro ⟨h1, h2⟩
    rcases hp with ⟨n1, n2⟩ | ht
    · rcases h1 with e | e
      · exact n1 e
      · exact n2 e
    · rw [ht] at h2
      exact Bool.noConfusion h2
  have hi : id.Issuer = certOidcIssuer := by
    by_contra hne
    unfold VerifyBuilderIdentity at h
    rw [if_pos hne] at h
    exact Except.noConfusion h
  have key : isFullVersionRef b.Version := by
    rcases strings.SplitN_two_cases id.SubjectWorkflowRef '@' with ⟨-, hs⟩ | ⟨p, r, hs, hnp, -⟩
    · unfold VerifyBuilderIdentity at h
      rw [if_neg (not_not.mpr hi), hs] at h
      exact Except.noConfusion h
    · rw [VerifyBuilderIdentity_split testingEnabled id opts d p r hi hs hnp] at h
      rcases verifyTrustedBuilderID_cases (strings.Trim p '/') (strings.Trim r '/')
        opts.ExpectedID d (not_mem_Trim p hnp) with ⟨-, -, hv⟩ | hv | ⟨-, hv⟩
      · rw [hv] at h
        simp only at h
        cases hr : verifyTrustedBuilderRef testingEnabled id (strings.Trim r '/') with
        | error x =>
          rw [hr] at h
          exact Except.noConfusion h
        | ok u =>
          rw [hr] at h
          have hb := Except.ok.inj h
          rw [← hb]
          exact (verifyTrustedBuilderRef_general testingEnabled id hg _).1.mp hr
      · rw [hv] at h
        exact Except.noConfusion h
      · rw [hv] at h
        exact Except.noConfusion h
  refine ⟨key, ?_, ?_⟩ <;> obtain ⟨x, y, z, -, -, -, e⟩ := key
  · rw [e]
    intro hc
    exact absurd (congrArg (fun l => l.get? 5) hc) (by simp [versionTag])
  · rw [e]
    rfl

end gha

namespace gha

open utils

/-- C4, at the repository `some/repo` and the workflow
`org/builder-repo/.github/workflows/build.yml@refs/tags/v1.2.3`. -/
theorem VerifyBuilderIdentity_version_witness :
    VerifyBuilderIdentity true
        (mkIdentity "some/repo".toList
          "org/builder-repo/.github/workflows/build.yml@refs/tags/v1.2.3".toList certOidcIssuer)
        ⟨none⟩ [("org/builder-repo/.github/workflows/build.yml".toList, true)] =
      .ok ⟨"https://github.com/org/builder-repo/.github/workflows/build.yml".toList,
        "refs/tags/v1.2.3".toList⟩ ∧
    isFullVersionRef "refs/tags/v1.2.3".toList :=
  ⟨by decide,
    (VerifyBuilderIdentity_version true
      (mkIdentity "some/repo".toList
        "org/builder-repo/.github/workflows/build.yml@refs/tags/v1.2.3".toList certOidcIssuer)
      ⟨none⟩ [("org/builder-repo/.github/workflows/build.yml".toList, true)]
      ⟨"https://github.com/org/builder-repo/.github/workflows/build.yml".toList,
        "refs/tags/v1.2.3".toList⟩
      (Or.inl ⟨by decide, by decide⟩) (by decide)).1⟩

/-- C5: for every identity whose issuer differs from
`https://token.actions.githubusercontent.com`, `VerifyBuilderIdentity` fails
with `ErrorInvalidOIDCIssuer`, whatever the subject workflow ref, the source
repository, the expected builder ID, the trusted-path set and the test mode. -/
theorem VerifyBuilderIdentity_issuer (testingEnabled : Bool) (id : WorkflowIdentity)
    (opts : BuilderOpts) (d : StrSet)
    (h : id.Issuer ≠ "https://token.actions.githubusercontent.com".toList) :
    VerifyBuilderIdentity testingEnabled id opts d = .error Err.ErrorInvalidOIDCIssuer := by
  have h2 : id.Issuer ≠ certOidcIssuer := h
  unfold VerifyBuilderIdentity
  rw [if_pos h2]

/-- C5, at the issuer `https://bad.issuer.com` with an otherwise acceptable
identity. -/
theorem VerifyBuilderIdentity_issuer_witness :
    "https://bad.issuer.com".toList ≠ "https://token.actions.githubusercontent.com".toList ∧
    VerifyBuilderIdentity false
        (mkIdentity "some/repo".toList
          "org/builder-repo/.github/workflows/build.yml@refs/tags/v1.2.3".toList
          "https://bad.issuer.com".toList)
        ⟨none⟩ [("org/builder-repo/.github/workflows/build.yml".toList, true)] =
      .error Err.ErrorInvalidOIDCIssuer :=
  ⟨by decide, VerifyBuilderIdentity_issuer false _ _ _ (by decide)⟩

end gha

namespace gha

open utils

/-- C6: for an identity with the trusted issuer whose subject workflow ref is
`p@r`, where `p` holds no `@`, neither starts nor ends with `/` and is in the
trusted-path set, and `r` is accepted by the ref policy, with no expected
builder ID (absent or empty), `VerifyBuilderIdentity` succeeds and the string
form of the returned ID is `https://github.com/` followed by `p@r`. -/
theorem VerifyBuilderIdentity_trusted_path (testingEnabled : Bool) (id : WorkflowIdentity)
    (opts : BuilderOpts) (d : StrSet) (p r : Str)
    (hi : id.Issuer = "https://token.actions.githubusercontent.com".toList)
    (hs : id.SubjectWorkflowRef = p ++ '@' :: r)
    (hp : '@' ∉ p) (hp1 : p.head? ≠ some '/') (hp2 : p.getLast? ≠ some '/')
    (hmem : (d.lookup p).isSome = true)
    (hr : verifyTrustedBuilderRef testingEnabled id r = .ok ())
    (he : opts.ExpectedID = none ∨ opts.ExpectedID = some []) :
    ∃ b, VerifyBuilderIdentity testingEnabled id opts d = .ok b ∧
      b.String = "https://github.com/".toList ++ p ++ '@' :: r := by
  obtain ⟨hr1, hr2, hr3⟩ := verifyTrustedBuilderRef_ok_clean testingEnabled id r hr
  have hp3 : strings.Trim p '/' = p := strings.Trim_eq_self p '/' hp1 hp2
  rw [VerifyBuilderIdentity_split testingEnabled id opts d p r hi hs hp, hp3, hr3]
  rcases verifyTrustedBuilderID_default p r opts.ExpectedID d he hp with ⟨hn, -⟩ |
    ⟨-, -, -, hv⟩ | ⟨-, hbad, -⟩
  · rw [hn] at hmem
    exact Bool.noConfusion hmem
  · rw [hv, hr]
    exact ⟨_, rfl, rfl⟩
  · rcases hbad with e | e
    · exact absurd e hr2
    · exact absurd e hr1

/-- C6, at the path `org/builder-repo/.github/workflows/build.yml` and the
ref `refs/tags/v1.2.3`. -/
theorem VerifyBuilderIdentity_trusted_path_witness :
    ∃ b, VerifyBuilderIdentity false
        (mkIdentity "some/repo".toList
          ("org/builder-repo/.github/workflows/build.yml".toList ++ '@' ::
            "refs/tags/v1.2.3".toList) certOidcIssuer)
        ⟨none⟩ [("org/builder-repo/.github/workflows/build.yml".toList, true)] = .ok b ∧
      b.String = "https://github.com/".toList ++
        "org/builder-repo/.github/workflows/build.yml".toList ++ '@' ::
          "refs/tags/v1.2.3".toList :=
  VerifyBuilderIdentity_trusted_path false
    (mkIdentity "some/repo".toList
      ("org/builder-repo/.github/workflows/build.yml".toList ++ '@' ::
        "refs/tags/v1.2.3".toList) certOidcIssuer)
    ⟨none⟩ [("org/builder-repo/.github/workflows/build.yml".toList, true)]
    "org/builder-repo/.github/workflows/build.yml".toList "refs/tags/v1.2.3".toList
    (by decide) rfl (by decide) (by decide) (by decide) (by decide) (by decide) (Or.inl rfl)

/-- C7: for an identity with the trusted issuer whose subject workflow ref
holds an `@`, with no expected builder ID (absent or empty) and a workflow
path (the text before the first `@`, trimmed of `/`) that is not in the
trusted-path set, `VerifyBuilderIdentity` fails with
`ErrorUntrustedReusableWorkflow`, whatever the ref after the `@` is. -/
theorem VerifyBuilderIdentity_untrusted_path (testingEnabled : Bool) (id : WorkflowIdentity)
    (opts : BuilderOpts) (d : StrSet) (p r : Str)
    (hi : id.Issuer = "https://token.actions.githubusercontent.com".toList)
    (hs : id.SubjectWorkflowRef = p ++ '@' :: r) (hp : '@' ∉ p)
    (he : opts.ExpectedID = none ∨ opts.ExpectedID = some [])
    (hmem : d.lookup (strings.Trim p '/') = none) :
    VerifyBuilderIdentity testingEnabled id opts d =
      .error Err.ErrorUntrustedReusableWorkflow := by
  rw [VerifyBuilderIdentity_split testingEnabled id opts d p r hi hs hp]
  rcases verifyTrustedBuilderID_default (strings.Trim p '/') (strings.Trim r '/')
    opts.ExpectedID d he (not_mem_Trim p hp) with ⟨-, hv⟩ | ⟨hn, -⟩ | ⟨hn, -⟩
  · rw [hv]
  · rw [hmem] at hn
    exact Bool.noConfusion hn
  · rw [hmem] at hn
    exact Bool.noConfusion hn

/-- C7, at the untrusted path `malicious/slsa-go/.github/workflows/builder.yml`
with the ref `refs/heads/main`, which the ref policy would reject. -/
theorem VerifyBuilderIdentity_untrusted_path_witness :
    verifyTrustedBuilderRef false
        (mkIdentity "some/repo".toList
          ("/malicious/slsa-go/.github/workflows/builder.yml".toList ++ '@' ::
            "refs/heads/main".toList) certOidcIssuer)
        "refs/heads/main".toList = .error Err.ErrorInvalidRef ∧
    VerifyBuilderIdentity false
        (mkIdentity "some/repo".toList
          ("/malicious/slsa-go/.github/workflows/builder.yml".toList ++ '@' ::
            "refs/heads/main".toList) certOidcIssuer)
        ⟨some []⟩ [("org/builder-repo/.github/workflows/build.yml".toList, true)] =
      .error Err.ErrorUntrustedReusableWorkflow :=
  ⟨by decide,
    VerifyBuilderIdentity_untrusted_path false
      (mkIdentity "some/repo".toList
        ("/malicious/slsa-go/.github/workflows/builder.yml".toList ++ '@' ::
          "refs/heads/main".toList) certOidcIssuer)
      ⟨some []⟩ [("org/builder-repo/.github/workflows/build.yml".toList, true)]
      "/malicious/slsa-go/.github/workflows/builder.yml".toList "refs/heads/main".toList
      (by decide) rfl (by decide) (Or.inr rfl) (by decide)⟩

end gha

namespace gha

open utils

/-- Outside the paths that `VerifyBuilderIdentity`, the only caller, passes
(the text before the first `@` of the subject workflow ref): for the path
`a@b`, the tag `v1` and the expected builder ID `x`, `verifyTrustedBuilderID`
fails with `ErrorInvalidFormat`. -/
theorem verifyTrustedBuilderID_path_with_at :
    "v1".toList ≠ [] ∧ '@' ∉ "v1".toList ∧ "x".toList ≠ [] ∧
    verifyTrustedBuilderID "a@b".toList "v1".toList (some "x".toList) [] =
      .error Err.ErrorInvalidFormat ∧
    verifyTrustedBuilderID "a@b".toList "v1".toList (some "x".toList) [] ≠
      .error Err.ErrorUntrustedReusableWorkflow := by
  decide

/-- C8: for every workflow path `p` (the text before the first `@` of the
subject workflow ref, as the only caller of the function passes it, so that it
holds no `@`) and every non-empty tag `t` without `@`, with a non-empty
expected builder ID `e`, `verifyTrustedBuilderID` succeeds exactly when the
candidate built from `https://github.com/` followed by `p@t` loosely matches
`e` with `allowRef` set; the returned ID is that candidate, the outcome is the
same for every trusted-path set, and every failure, a malformed `e` included,
is `ErrorUntrustedReusableWorkflow`. -/
theorem verifyTrustedBuilderID_expected_iff (p t e : Str) (d : StrSet)
    (hp : '@' ∉ p) (ht : t ≠ []) (ht2 : '@' ∉ t) (he : e ≠ []) :
    ((∃ b, verifyTrustedBuilderID p t (some e) d = .ok b) ↔
      ∃ c, TrustedBuilderIDNew ("https://github.com/".toList ++ p ++ '@' :: t) = .ok c ∧
        c.MatchesLoose e true = .ok ()) ∧
    (∀ b, verifyTrustedBuilderID p t (some e) d = .ok b →
      b.String = "https://github.com/".toList ++ p ++ '@' :: t) ∧
    (∀ d2, verifyTrustedBuilderID p t (some e) d2 = verifyTrustedBuilderID p t (some e) d) ∧
    (∀ x, verifyTrustedBuilderID p t (some e) d = .error x →
      x = Err.ErrorUntrustedReusableWorkflow) := by
  have hnew : TrustedBuilderIDNew ("https://github.com/".toList ++ p ++ '@' :: t) =
      .ok ⟨httpsGithubCom ++ p, t⟩ := by
    rcases TrustedBuilderIDNew_candidate (httpsGithubCom ++ p) t
      (not_mem_candidate_name p hp) with ⟨-, h⟩ | ⟨hbad, -⟩
    · exact h
    · rcases hbad with h | h
      · exact absurd h ht
      · exact absurd h ht2
  have indep : ∀ d2, verifyTrustedBuilderID p t (some e) d2 =
      verifyTrustedBuilderID p t (some e) d := by
    intro d2
    unfold verifyTrustedBuilderID
    have hne : ¬ (some e = none ∨ some e = some []) := by
      rintro (h | h)
      · exact Option.noConfusion h
      · exact he (Option.some.inj h)
    simp only [if_neg hne]
  refine ⟨?_, ?_, indep, ?_⟩
  · rw [hnew]
    rcases verifyTrustedBuilderID_expected p t e d he hp with ⟨-, -, hm, hv⟩ |
      ⟨-, -, hm, hv⟩ | ⟨hbad, -⟩
    · exact ⟨fun _ => ⟨_, rfl, hm⟩, fun _ => ⟨_, hv⟩⟩
    · constructor
      · rintro ⟨b, hb⟩
        rw [hv] at hb
        exact Except.noConfusion hb
      · rintro ⟨c, hc, hmc⟩
        rw [← Except.ok.inj hc] at hmc
        exact absurd hmc hm
    · rcases hbad with h | h
      · exact absurd h ht
      · exact absurd h ht2
  · intro b hb
    rcases verifyTrustedBuilderID_expected p t e d he hp with ⟨-, -, -, hv⟩ |
      ⟨-, -, -, hv⟩ | ⟨-, hv⟩
    · rw [hv] at hb
      rw [← Except.ok.inj hb]
      rfl
    · rw [hv] at hb
      exact Except.noConfusion hb
    · rw [hv] at hb
      exact Except.noConfusion hb
  · intro x hx
    rcases verifyTrustedBuilderID_expected p t e d he hp with ⟨-, -, -, hv⟩ |
      ⟨-, -, -, hv⟩ | ⟨hbad, -⟩
    · rw [hv] at hx
      exact Except.noConfusion hx
    · rw [hv] at hx
      exact (Except.error.inj hx).symm
    · rcases hbad with h | h
      · exact absurd h ht
      · exact absurd h ht2

/-- C8, at the path `some/repo/someBuilderID`, which is in no
trusted-path set, the tag `refs/tags/v1.2.3` and the malformed expected ID
`https://github.com/some/repo/someBuilderID@`. -/
theorem verifyTrustedBuilderID_expected_iff_witness :
    verifyTrustedBuilderID "some/repo/someBuilderID".toList "refs/tags/v1.2.3".toList
        (some "https://github.com/some/repo/someBuilderID@".toList) [] =
      .error Err.ErrorUntrustedReusableWorkflow ∧
    ∀ x, verifyTrustedBuilderID "some/repo/someBuilderID".toList "refs/tags/v1.2.3".toList
        (some "https://github.com/some/repo/someBuilderID@".toList) [] = .error x →
      x = Err.ErrorUntrustedReusableWorkflow :=
  ⟨by decide,
    (verifyTrustedBuilderID_expected_iff "some/repo/someBuilderID".toList
      "refs/tags/v1.2.3".toList "https://github.com/some/repo/someBuilderID@".toList []
      (by decide) (by decide) (by decide) (by decide)).2.2.2⟩

/-- C9, as stated, fails: an identity with the trusted issuer, a trusted
workflow path and nothing after the `@` makes `VerifyBuilderIdentity` fail with
`ErrorInvalidFormat`, which is none of the four kinds. -/
theorem VerifyBuilderIdentity_empty_ref :
    VerifyBuilderIdentity false
        (mkIdentity "some/repo".toList
          "org/builder-repo/.github/workflows/build.yml@".toList certOidcIssuer)
        ⟨none⟩ [("org/builder-repo/.github/workflows/build.yml".toList, true)] =
      .error Err.ErrorInvalidFormat ∧
    Err.ErrorInvalidFormat ∉ [Err.ErrorInvalidOIDCIssuer, Err.ErrorMalformedURI,
      Err.ErrorUntrustedReusableWorkflow, Err.ErrorInvalidRef] := by
  decide

/-- C9, amended: when `VerifyBuilderIdentity` fails its error is one of exactly
five kinds: `ErrorInvalidOIDCIssuer`, `ErrorMalformedURI`,
`ErrorUntrustedReusableWorkflow`, `ErrorInvalidRef`, or `ErrorInvalidFormat`,
the last only when the text after the first `@`, trimmed of `/`, is empty or
holds another `@`. -/
theorem VerifyBuilderIdentity_error_kinds (testingEnabled : Bool) (id : WorkflowIdentity)
    (opts : BuilderOpts) (d : StrSet) (e : Err)
    (h : VerifyBuilderIdentity testingEnabled id opts d = .error e) :
    e = Err.ErrorInvalidOIDCIssuer ∨ e = Err.ErrorMalformedURI ∨
      e = Err.ErrorUntrustedReusableWorkflow ∨ e = Err.ErrorInvalidRef ∨
      (e = Err.ErrorInvalidFormat ∧
        ∃ p r, id.SubjectWorkflowRef = p ++ '@' :: r ∧ '@' ∉ p ∧
          (strings.Trim r '/' = [] ∨ '@' ∈ strings.Trim r '/')) := by
  by_cases hi : id.Issuer = certOidcIssuer
  · rcases strings.SplitN_two_cases id.SubjectWorkflowRef '@' with ⟨-, hs⟩ | ⟨p, r, hs, hnp, -⟩
    · unfold VerifyBuilderIdentity at h
      rw [if_neg (not_not.mpr hi), hs] at h
      exact Or.inr (Or.inl (Except.error.inj h).symm)
    · rw [VerifyBuilderIdentity_split testingEnabled id opts d p r hi hs hnp] at h
      rcases verifyTrustedBuilderID_cases (strings.Trim p '/') (strings.Trim r '/')
        opts.ExpectedID d (not_mem_Trim p hnp) with ⟨-, -, hv⟩ | hv | ⟨hbad, hv⟩
      · rw [hv] at h
        simp only at h
        cases hr : verifyTrustedBuilderRef testingEnabled id (strings.Trim r '/') with
        | error x =>
          rw [hr] at h
          have hx := verifyTrustedBuilderRef_error testingEnabled id _ x hr
          rw [← Except.error.inj h, hx]
          exact Or.inr (Or.inr (Or.inr (Or.inl rfl)))
        | ok u =>
          rw [hr] at h
          exact Except.noConfusion h
      · rw [hv] at h
        exact Or.inr (Or.inr (Or.inl (Except.error.inj h).symm))
      · rw [hv] at h
        exact Or.inr (Or.inr (Or.inr (Or.inr
          ⟨(Except.error.inj h).symm, p, r, hs, hnp, hbad⟩)))
  · unfold VerifyBuilderIdentity at h
    rw [if_pos hi] at h
    exact Or.inl (Except.error.inj h).symm

/-- C9 amended, at an identity whose ref `refs/heads/main` the ref policy
rejects. -/
theorem VerifyBuilderIdentity_error_kinds_witness :
    VerifyBuilderIdentity false
        (mkIdentity "some/repo".toList
          "org/builder-repo/.github/workflows/build.yml@refs/heads/main".toList certOidcIssuer)
        ⟨none⟩ [("org/builder-repo/.github/workflows/build.yml".toList, true)] =
      .error Err.ErrorInvalidRef ∧
    (Err.ErrorInvalidRef = Err.ErrorInvalidOIDCIssuer ∨
      Err.ErrorInvalidRef = Err.ErrorMalformedURI ∨
      Err.ErrorInvalidRef = Err.ErrorUntrustedReusableWorkflow ∨
      Err.ErrorInvalidRef = Err.ErrorInvalidRef ∨
      (Err.ErrorInvalidRef = Err.ErrorInvalidFormat ∧
        ∃ p r, (mkIdentity "some/repo".toList
            "org/builder-repo/.github/workflows/build.yml@refs/heads/main".toList
            certOidcIssuer).SubjectWorkflowRef = p ++ '@' :: r ∧ '@' ∉ p ∧
          (strings.Trim r '/' = [] ∨ '@' ∈ strings.Trim r '/'))) :=
  ⟨by decide,
    VerifyBuilderIdentity_error_kinds false
      (mkIdentity "some/repo".toList
        "org/builder-repo/.github/workflows/build.yml@refs/heads/main".toList certOidcIssuer)
      ⟨none⟩ [("org/builder-repo/.github/workflows/build.yml".toList, true)]
      Err.ErrorInvalidRef (by decide)⟩

/-- C10: for every identity with the trusted issuer whose subject workflow ref
holds no `@`, `VerifyBuilderIdentity` fails with `ErrorMalformedURI`, whatever
the expected builder ID, the trusted-path set and the test mode. -/
theorem VerifyBuilderIdentity_no_at (testingEnabled : Bool) (id : WorkflowIdentity)
    (opts : BuilderOpts) (d : StrSet)
    (hi : id.Issuer = "https://token.actions.githubusercontent.com".toList)
    (hs : '@' ∉ id.SubjectWorkflowRef) :
    VerifyBuilderIdentity testingEnabled id opts d = .error Err.ErrorMalformedURI := by
  have hi2 : id.Issuer = certOidcIssuer := hi
  unfold VerifyBuilderIdentity
  rw [if_neg (not_not.mpr hi2), strings.SplitN_two_of_not_mem _ '@' hs]

/-- C10, at the subject workflow ref `random/workflow/ref`. -/
theorem VerifyBuilderIdentity_no_at_witness :
    '@' ∉ "random/workflow/ref".toList ∧
    VerifyBuilderIdentity true
        (mkIdentity "asraa/slsa-on-github-test".toList "random/workflow/ref".toList
          certOidcIssuer)
        ⟨some "https://github.com/random/workflow/ref".toList⟩ [] =
      .error Err.ErrorMalformedURI :=
  ⟨by decide,
    VerifyBuilderIdentity_no_at true
      (mkIdentity "asraa/slsa-on-github-test".toList "random/workflow/ref".toList
        certOidcIssuer)
      ⟨some "https://github.com/random/workflow/ref".toList⟩ [] (by decide) (by decide)⟩

end gha

/-! ## The claims on `TrustedBuilderID` -/

namespace strings

theorem Split_pair (a b : Str) (c : Char) (ha : c ∉ a) (hb : c ∉ b) :
    Split (a ++ c :: b) c = [a, b] := by
  rw [Split_append_sep a b c ha, Split_of_not_mem b c hb]

theorem Split_three_of_count (s : Str) (c : Char) (h : 2 ≤ s.count c) :
    ∃ x y z t, Split s c = x :: y :: z :: t := by
  have hl := Split_length s c
  match hs : Split s c with
  | [] => exact absurd hs (Split_ne_nil s c)
  | [_] => rw [hs] at hl; simp at hl; omega
  | [_, _] => rw [hs] at hl; simp at hl; omega
  | x :: y :: z :: t => exact ⟨x, y, z, t, rfl⟩

/-- A string holds no separator, or exactly one, or at least two. -/
theorem sep_cases (s : Str) (c : Char) :
    c ∉ s ∨ (∃ a b, s = a ++ c :: b ∧ c ∉ a ∧ c ∉ b) ∨ 2 ≤ s.count c := by
  by_cases h : c ∈ s
  · obtain ⟨a, b, e, ha⟩ := exists_split_of_mem s c h
    by_cases hb : c ∈ b
    · right; right
      rw [e, List.count_append, List.count_cons_self]
      have := List.count_pos_iff.mpr hb
      omega
    · exact Or.inr (Or.inl ⟨a, b, e, ha, hb⟩)
  · exact Or.inl h

theorem count_pair (a b : Str) (c : Char) (ha : c ∉ a) (hb : c ∉ b) :
    (a ++ c :: b).count c = 1 := by
  rw [List.count_append, List.count_cons_self, List.count_eq_zero.mpr ha,
    List.count_eq_zero.mpr hb]

end strings

namespace utils

theorem ParseBuilderID_no_at (id : Str) (needVersion : Bool) (h : '@' ∉ id) :
    ParseBuilderID id needVersion =
      if needVersion = false then .ok (id, []) else .error Err.ErrorInvalidFormat := by
  unfold ParseBuilderID
  rw [strings.Split_of_not_mem id '@' h]

theorem ParseBuilderID_one_at (a b : Str) (needVersion : Bool) (ha : '@' ∉ a) (hb : '@' ∉ b) :
    ParseBuilderID (a ++ '@' :: b) needVersion =
      if b = [] then .error Err.ErrorInvalidFormat else .ok (a, b) := by
  unfold ParseBuilderID
  rw [strings.Split_pair a b '@' ha hb]

theorem ParseBuilderID_many_at (id : Str) (needVersion : Bool) (h : 2 ≤ id.count '@') :
    ParseBuilderID id needVersion = .error Err.ErrorInvalidFormat := by
  obtain ⟨x, y, z, t, e⟩ := strings.Split_three_of_count id '@' h
  unfold ParseBuilderID
  rw [e]

/-- What a successful `TrustedBuilderIDNew` has read: the input is the name,
an `@` and the non-empty version, neither part holding an `@`. -/
theorem TrustedBuilderIDNew_ok (s : Str) (b : TrustedBuilderID)
    (h : TrustedBuilderIDNew s = .ok b) :
    s = b.name ++ '@' :: b.version ∧ '@' ∉ b.name ∧ '@' ∉ b.version ∧ b.version ≠ [] := by
  unfold TrustedBuilderIDNew at h
  rcases strings.sep_cases s '@' with h0 | ⟨x, y, e, hx, hy⟩ | h2
  · rw [ParseBuilderID_no_at s true h0] at h
    exact Except.noConfusion h
  · rw [e, ParseBuilderID_one_at x y true hx hy] at h
    by_cases hy0 : y = []
    · rw [if_pos hy0] at h
      exact Except.noConfusion h
    · rw [if_neg hy0] at h
      have hb := Except.ok.inj h
      rw [← hb]
      exact ⟨e, hx, hy, hy0⟩
  · rw [ParseBuilderID_many_at s true h2] at h
    exact Except.noConfusion h

end utils

namespace utils

/-- C11: for a `TrustedBuilderID` with name `n` and version `v`: on a candidate
`n2@w` with `w` non-empty and no other `@`, `Matches` succeeds exactly when
`n2 = n` and (`w = v`, or `allowRef` is set and `refs/tags/` followed by `w`
is `v`); on a candidate without `@` it succeeds exactly when the candidate is
`n`, whatever `v` and `allowRef`; every mismatch is `ErrorMismatchBuilderID`. -/
theorem Matches_spec (b : TrustedBuilderID) (allowRef : Bool) :
    (∀ n2 w : Str, w ≠ [] → '@' ∉ n2 → '@' ∉ w →
      (b.Matches (n2 ++ '@' :: w) allowRef = .ok () ↔
        n2 = b.name ∧ (w = b.version ∨
          (allowRef = true ∧ "refs/tags/".toList ++ w = b.version))) ∧
      (b.Matches (n2 ++ '@' :: w) allowRef = .ok () ∨
        b.Matches (n2 ++ '@' :: w) allowRef = .error Err.ErrorMismatchBuilderID)) ∧
    (∀ c : Str, '@' ∉ c →
      (b.Matches c allowRef = .ok () ↔ c = b.name) ∧
      (b.Matches c allowRef = .ok () ∨
        b.Matches c allowRef = .error Err.ErrorMismatchBuilderID)) := by
  constructor
  · intro n2 w hw hn hw2
    unfold TrustedBuilderID.Matches
    rw [ParseBuilderID_one_at n2 w false hn hw2, if_neg hw]
    simp only
    by_cases h1 : n2 = b.name
    · rw [if_neg (not_not.mpr h1)]
      by_cases h2 : w = b.version
      · rw [if_neg (fun h => h.2 h2)]
        exact ⟨⟨fun _ => ⟨h1, Or.inl h2⟩, fun _ => rfl⟩, Or.inl rfl⟩
      · rw [if_pos ⟨hw, h2⟩]
        by_cases h3 : allowRef = true ∧ "refs/tags/".toList ++ w = b.version
        · rw [if_pos h3]
          exact ⟨⟨fun _ => ⟨h1, Or.inr h3⟩, fun _ => rfl⟩, Or.inl rfl⟩
        · rw [if_neg h3]
          refine ⟨⟨fun h => Except.noConfusion h, ?_⟩, Or.inr rfl⟩
          rintro ⟨-, h | h⟩
          · exact absurd h h2
          · exact absurd h h3
    · rw [if_pos h1]
      exact ⟨⟨fun h => Except.noConfusion h, fun h => absurd h.1 h1⟩, Or.inr rfl⟩
  · intro c hc
    unfold TrustedBuilderID.Matches
    rw [ParseBuilderID_no_at c false hc, if_pos rfl]
    simp only
    by_cases h1 : c = b.name
    · rw [if_neg (not_not.mpr h1), if_neg (fun h => h.1 rfl)]
      exact ⟨⟨fun _ => h1, fun _ => rfl⟩, Or.inl rfl⟩
    · rw [if_pos h1]
      exact ⟨⟨fun h => Except.noConfusion h, fun h => absurd h h1⟩, Or.inr rfl⟩

/-- C11, at the stored version `refs/tags/v1.2.3` and the candidate
`https://github.com/org/repo@v1.2.3` with `allowRef` set. -/
theorem Matches_spec_witness :
    (⟨"https://github.com/org/repo".toList, "refs/tags/v1.2.3".toList⟩ :
        TrustedBuilderID).Matches
      ("https://github.com/org/repo".toList ++ '@' :: "v1.2.3".toList) true = .ok () :=
  ((Matches_spec ⟨"https://github.com/org/repo".toList, "refs/tags/v1.2.3".toList⟩ true).1
    "https://github.com/org/repo".toList "v1.2.3".toList
    (by decide) (by decide) (by decide)).1.mpr ⟨rfl, Or.inr ⟨rfl, by decide⟩⟩

/-- C12, as stated, fails: the non-empty name `a@b` and the non-empty version
`c` give the string `a@b@c`, which `ParseBuilderID` rejects. -/
theorem ParseBuilderID_name_with_at :
    "a@b".toList ≠ [] ∧ "c".toList ≠ [] ∧
    ParseBuilderID ("a@b".toList ++ '@' :: "c".toList) true = .error Err.ErrorInvalidFormat ∧
    ParseBuilderID ("a@b".toList ++ '@' :: "c".toList) false = .error Err.ErrorInvalidFormat := by
  decide

/-- C12, amended: for every non-empty name `n` and every non-empty version `v`,
neither holding an `@`, `ParseBuilderID` applied to `n@v` returns `(n, v)`
without error, with and without `needVersion`. -/
theorem ParseBuilderID_roundtrip (n v : Str) (needVersion : Bool)
    (_hn : n ≠ []) (hv : v ≠ []) (hn2 : '@' ∉ n) (hv2 : '@' ∉ v) :
    ParseBuilderID (n ++ '@' :: v) needVersion = .ok (n, v) := by
  rw [ParseBuilderID_one_at n v needVersion hn2 hv2, if_neg hv]

/-- C12 amended, at the name `https://github.com/org/repo` and the version
`refs/tags/v1.2.3`. -/
theorem ParseBuilderID_roundtrip_witness :
    ParseBuilderID ("https://github.com/org/repo".toList ++ '@' :: "refs/tags/v1.2.3".toList)
        true = .ok ("https://github.com/org/repo".toList, "refs/tags/v1.2.3".toList) :=
  ParseBuilderID_roundtrip "https://github.com/org/repo".toList "refs/tags/v1.2.3".toList true
    (by decide) (by decide) (by decide) (by decide)

/-- C13, as stated, fails: the string `@v1` holds exactly one `@` with an empty
name before it, and `ParseBuilderID` accepts it. -/
theorem ParseBuilderID_empty_name :
    "@v1".toList = ([] : Str) ++ '@' :: "v1".toList ∧
    ParseBuilderID "@v1".toList true = .ok ([], "v1".toList) ∧
    ParseBuilderID "@v1".toList false = .ok ([], "v1".toList) := by
  decide

/-- C13, amended: `ParseBuilderID` fails, always with `ErrorInvalidFormat`,
exactly when the input holds no `@` and `needVersion` is set, or holds exactly
one `@` with nothing after it, or holds more than one `@`.  In every other
case it returns the text before the `@` as name (possibly empty) and the text
after it as version, and the whole input with an empty version when there is
no `@`. -/
theorem ParseBuilderID_spec (id : Str) (needVersion : Bool) :
    (ParseBuilderID id needVersion = .error Err.ErrorInvalidFormat ↔
      ('@' ∉ id ∧ needVersion = true) ∨ (∃ a, '@' ∉ a ∧ id = a ++ ['@']) ∨
        2 ≤ id.count '@') ∧
    (∀ e, ParseBuilderID id needVersion = .error e → e = Err.ErrorInvalidFormat) ∧
    ('@' ∉ id → needVersion = false → ParseBuilderID id needVersion = .ok (id, [])) ∧
    (∀ a b, id = a ++ '@' :: b → '@' ∉ a → '@' ∉ b → b ≠ [] →
      ParseBuilderID id needVersion = .ok (a, b)) := by
  rcases strings.sep_cases id '@' with h0 | ⟨x, y, e, hx, hy⟩ | h2
  · have hp := ParseBuilderID_no_at id needVersion h0
    have hc : id.count '@' = 0 := List.count_eq_zero.mpr h0
    refine ⟨?_, ?_, ?_, ?_⟩
    · cases needVersion with
      | true =>
        rw [hp]
        exact ⟨fun _ => Or.inl ⟨h0, rfl⟩, fun _ => rfl⟩
      | false =>
        rw [hp]
        refine ⟨fun h => Except.noConfusion h, ?_⟩
        rintro (⟨-, h⟩ | ⟨a, -, h⟩ | h)
        · exact Bool.noConfusion h
        · exact absurd (by rw [h]; simp) h0
        · omega
    · intro err herr
      rw [hp] at herr
      cases needVersion with
      | true => exact (Except.error.inj herr).symm
      | false => exact Except.noConfusion herr
    · intro _ hn
      rw [hp, if_pos hn]
    · intro a b hab
      exact absurd (by rw [hab]; simp) h0
  · have hp := ParseBuilderID_one_at x y needVersion hx hy
    have hc : id.count '@' = 1 := by rw [e]; exact strings.count_pair x y '@' hx hy
    have hmem : '@' ∈ id := by rw [e]; simp
    rw [e] at *
    refine ⟨?_, ?_, ?_, ?_⟩
    · by_cases hy0 : y = []
      · rw [hp, if_pos hy0]
        refine ⟨fun _ => Or.inr (Or.inl ⟨x, hx, by rw [hy0]⟩), fun _ => rfl⟩
      · rw [hp, if_neg hy0]
        refine ⟨fun h => Except.noConfusion h, ?_⟩
        rintro (⟨h, -⟩ | ⟨a, ha, h⟩ | h)
        · exact absurd hmem h
        · have := strings.append_sep_inj x y a [] '@' h hx ha
          exact absurd this.2 hy0
        · omega
    · intro err herr
      rw [hp] at herr
      by_cases hy0 : y = []
      · rw [if_pos hy0] at herr
        exact (Except.error.inj herr).symm
      · rw [if_neg hy0] at herr
        exact Except.noConfusion herr
    · intro h
      exact absurd hmem h
    · intro a b hab ha hb hb0
      obtain ⟨e1, e2⟩ := strings.append_sep_inj x y a b '@' hab hx ha
      rw [hp, e1, e2, if_neg hb0]
  · have hp := ParseBuilderID_many_at id needVersion h2
    have hmem : '@' ∈ id := List.count_pos_iff.mp (by omega)
    refine ⟨?_, ?_, ?_, ?_⟩
    · rw [hp]
      exact ⟨fun _ => Or.inr (Or.inr h2), fun _ => rfl⟩
    · intro err herr
      rw [hp] at herr
      exact (Except.error.inj herr).symm
    · intro h
      exact absurd hmem h
    · intro a b hab ha hb
      rw [hab, strings.count_pair a b '@' ha hb] at h2
      omega

/-- C13 amended, at the input `a@`, which has nothing after its `@`. -/
theorem ParseBuilderID_spec_witness :
    ParseBuilderID "a@".toList false = .error Err.ErrorInvalidFormat :=
  (ParseBuilderID_spec "a@".toList false).1.mpr
    (Or.inr (Or.inl ⟨"a".toList, by decide, by decide⟩))

/-- C14, as stated, fails: `TrustedBuilderIDNew` accepts `@v1` and returns an
ID whose name is empty. -/
theorem TrustedBuilderIDNew_empty_name :
    TrustedBuilderIDNew "@v1".toList = .ok ⟨[], "v1".toList⟩ ∧
    (⟨[], "v1".toList⟩ : TrustedBuilderID).Name = [] := by
  decide

/-- C14, amended: every `TrustedBuilderID` returned without error by
`TrustedBuilderIDNew` has a non-empty version; its name and its version hold
no `@`. -/
theorem TrustedBuilderIDNew_version_nonempty (s : Str) (b : TrustedBuilderID)
    (h : TrustedBuilderIDNew s = .ok b) :
    b.Version ≠ [] ∧ '@' ∉ b.Name ∧ '@' ∉ b.Version := by
  obtain ⟨-, h1, h2, h3⟩ := TrustedBuilderIDNew_ok s b h
  exact ⟨h3, h1, h2⟩

/-- C14 amended, at the input `https://github.com/org/repo@refs/tags/v1.2.3`. -/
theorem TrustedBuilderIDNew_version_nonempty_witness :
    TrustedBuilderIDNew "https://github.com/org/repo@refs/tags/v1.2.3".toList =
        .ok ⟨"https://github.com/org/repo".toList, "refs/tags/v1.2.3".toList⟩ ∧
    "refs/tags/v1.2.3".toList ≠ [] :=
  ⟨by decide,
    (TrustedBuilderIDNew_version_nonempty
      "https://github.com/org/repo@refs/tags/v1.2.3".toList
      ⟨"https://github.com/org/repo".toList, "refs/tags/v1.2.3".toList⟩ (by decide)).1⟩

/-- C15: for every string `s` accepted by `TrustedBuilderIDNew`, the resulting
ID `b` has `b.String() = s`, the name followed by `@` and the version, and
`b.Matches(b.String(), false)` succeeds. -/
theorem TrustedBuilderIDNew_String (s : Str) (b : TrustedBuilderID)
    (h : TrustedBuilderIDNew s = .ok b) :
    b.String = s ∧ b.String = b.Name ++ '@' :: b.Version ∧
      b.Matches b.String false = .ok () := by
  obtain ⟨e, h1, h2, h3⟩ := TrustedBuilderIDNew_ok s b h
  refine ⟨e.symm, rfl, ?_⟩
  unfold TrustedBuilderID.String TrustedBuilderID.Matches
  rw [ParseBuilderID_one_at b.name b.version false h1 h2, if_neg h3]
  simp

/-- C15, at the input `https://github.com/org/repo@refs/tags/v1.2.3`. -/
theorem TrustedBuilderIDNew_String_witness :
    (⟨"https://github.com/org/repo".toList, "refs/tags/v1.2.3".toList⟩ :
        TrustedBuilderID).String = "https://github.com/org/repo@refs/tags/v1.2.3".toList :=
  (TrustedBuilderIDNew_String "https://github.com/org/repo@refs/tags/v1.2.3".toList
    ⟨"https://github.com/org/repo".toList, "refs/tags/v1.2.3".toList⟩ (by decide)).1

end utils

/-! ## The certificate extensions -/

namespace gha

open utils

theorem validateClaimsEqual_ok_iff (a b : Str) :
    validateClaimsEqual a b = .ok () ↔ (a = [] ∨ b = [] ∨ a = b) := by
  unfold validateClaimsEqual
  by_cases h : a ≠ [] ∧ b ≠ [] ∧ a ≠ b
  · rw [if_pos h]
    refine ⟨fun hc => Except.noConfusion hc, ?_⟩
    rintro (h1 | h1 | h1)
    · exact absurd h1 h.1
    · exact absurd h1 h.2.1
    · exact absurd h1 h.2.2
  · rw [if_neg h]
    refine ⟨fun _ => ?_, fun _ => rfl⟩
    by_cases ha : a = []
    · exact Or.inl ha
    · by_cases hb : b = []
      · exact Or.inr (Or.inl hb)
      · by_cases hab : a = b
        · exact Or.inr (Or.inr hab)
        · exact absurd ⟨ha, hb, hab⟩ h

theorem validateClaimsEqual_cases (a b : Str) :
    validateClaimsEqual a b = .ok () ∨ validateClaimsEqual a b = .error Err.ErrorInvalidFormat := by
  unfold validateClaimsEqual
  split
  · exact Or.inr rfl
  · exact Or.inl rfl

/-- On a certificate whose extensions all decode, with the values `r`, the
function `GetWorkflowInfoFromCertificate` returns the identity built from `r`
when every check passes, and `ErrorInvalidFormat` as soon as one fails. -/
theorem GetWorkflowInfoFromCertificate_of_reads (um : Asn1Unmarshal) (cert : Certificate)
    (r : ExtensionValues) (h : readsAs um cert r) :
    ((subjectPathOk cert.URIs ∧ buildTriggerOk r ∧ sourceRepositoryOk r ∧ issuerOk r ∧
        sourceShaOk r ∧ buildConfigShaOk r ∧ buildConfigURIOk r) →
      GetWorkflowInfoFromCertificate um cert =
        .ok (identityOf r (cert.URIs.headD ⟨[]⟩).Path)) ∧
    (¬ (subjectPathOk cert.URIs ∧ buildTriggerOk r ∧ sourceRepositoryOk r ∧ issuerOk r ∧
        sourceShaOk r ∧ buildConfigShaOk r ∧ buildConfigURIOk r) →
      GetWorkflowInfoFromCertificate um cert = .error Err.ErrorInvalidFormat) := by
  obtain ⟨h1, h2, h3, h4, h5, h6, h7, h8, h9, h10, h11, h12, h13, h14, h15, h16⟩ := h
  unfold GetWorkflowInfoFromCertificate getHosted
  simp only [h1, h2, h3, h4, h5, h6, h7, h8, h9, h10, h11, h12, h13, h14, h15, h16]
  unfold subjectPathOk buildTriggerOk sourceRepositoryOk issuerOk sourceShaOk buildConfigShaOk
    buildConfigURIOk
  rw [← validateClaimsEqual_ok_iff, ← validateClaimsEqual_ok_iff]
  by_cases c1 : cert.URIs.length = 0
  · rw [if_pos c1]
    exact ⟨fun hc => absurd c1 hc.1.1, fun _ => rfl⟩
  rw [if_neg c1]
  rcases validateClaimsEqual_cases r.deprecatedBuildTrigger r.buildTrigger with c2 | c2
  swap
  · rw [c2]
    exact ⟨fun hc => Except.noConfusion hc.2.1, fun _ => rfl⟩
  rw [c2]
  simp only
  by_cases c3 : r.deprecatedSourceRepository ≠ [] ∧
      "https://github.com/".toList ++ r.deprecatedSourceRepository ≠ r.sourceURI
  · rw [if_pos c3]
    refine ⟨fun hc => ?_, fun _ => rfl⟩
    rcases hc.2.2.1 with e | e
    · exact absurd e c3.1
    · exact absurd e c3.2
  rw [if_neg c3]
  by_cases c4 : r.issuerV1 ≠ r.issuerV2
  · rw [if_pos c4]
    exact ⟨fun hc => absurd hc.2.2.2.1 c4, fun _ => rfl⟩
  rw [if_neg c4]
  have hosted : (if r.runnerEnv = "github-hosted".toList then
      (Except.ok Hosted.HostedGitHub : Except Err Hosted) else Except.ok Hosted.HostedSelf) =
      Except.ok (if r.runnerEnv = "github-hosted".toList then Hosted.HostedGitHub
        else Hosted.HostedSelf) := by
    split <;> rfl
  rw [hosted]
  simp only
  rcases validateClaimsEqual_cases r.deprecatedSourceSha1 r.sourceSha1 with c5 | c5
  swap
  · rw [c5]
    exact ⟨fun hc => Except.noConfusion hc.2.2.2.2.1, fun _ => rfl⟩
  rw [c5]
  simp only
  by_cases c6 : r.buildConfigSha1 ≠ r.sourceSha1
  · rw [if_pos c6]
    exact ⟨fun hc => absurd hc.2.2.2.2.2.1 c6, fun _ => rfl⟩
  rw [if_neg c6]
  by_cases c7 : (strings.Split r.buildConfigURI '@').length ≠ 2
  · rw [if_pos c7]
    exact ⟨fun hc => absurd hc.2.2.2.2.2.2.1 c7, fun _ => rfl⟩
  rw [if_neg c7]
  have hsr : (if strings.TrimPrefix r.sourceURI "https://github.com/".toList = [] then
      r.deprecatedSourceRepository
      else strings.TrimPrefix r.sourceURI "https://github.com/".toList) =
      sourceRepositoryOf r := rfl
  simp only [hsr]
  by_cases c8 : strings.HasPrefix ((strings.Split r.buildConfigURI '@').headD [])
      ("https://github.com/".toList ++ sourceRepositoryOf r ++ "/".toList) = false
  · rw [if_pos c8]
    refine ⟨fun hc => ?_, fun _ => rfl⟩
    rw [hc.2.2.2.2.2.2.2] at c8
    exact Bool.noConfusion c8
  rw [if_neg c8]
  by_cases c9 : strings.HasPrefix (cert.URIs.headD ⟨[]⟩).Path "/".toList = false
  · rw [if_pos c9]
    refine ⟨fun hc => ?_, fun _ => rfl⟩
    rw [hc.1.2] at c9
    exact Bool.noConfusion c9
  rw [if_neg c9]
  refine ⟨fun _ => rfl, fun hn => ?_⟩
  exfalso
  apply hn
  refine ⟨⟨c1, by simpa using c9⟩, trivial, ?_, not_not.mp c4, trivial, not_not.mp c6,
    not_not.mp c7,
    by simpa using c8⟩
  by_cases e : r.deprecatedSourceRepository = []
  · exact Or.inl e
  · right
    by_contra e2
    exact c3 ⟨e, e2⟩

end gha

namespace gha

open utils

theorem getHosted_ok (um : Asn1Unmarshal) (cert : Certificate) (x : Hosted)
    (h : getHosted um cert = .ok x) :
    ∃ v, getExtension um cert "1.3.6.1.4.1.57264.1.11".toList true = .ok v := by
  unfold getHosted at h
  cases hv : getExtension um cert "1.3.6.1.4.1.57264.1.11".toList true with
  | error e =>
    rw [hv] at h
    exact Except.noConfusion h
  | ok v => exact ⟨v, rfl⟩

/-- A success of `GetWorkflowInfoFromCertificate` means that every extension it
reads has decoded. -/
theorem GetWorkflowInfoFromCertificate_ok_reads (um : Asn1Unmarshal) (cert : Certificate)
    (id : WorkflowIdentity) (h : GetWorkflowInfoFromCertificate um cert = .ok id) :
    ∃ r, readsAs um cert r := by
  unfold GetWorkflowInfoFromCertificate at h
  split at h
  · exact Except.noConfusion h
  split at h
  · exact Except.noConfusion h
  rename_i v1 e1
  split at h
  · exact Except.noConfusion h
  rename_i v2 e2
  split at h
  · exact Except.noConfusion h
  simp only at h
  split at h
  · exact Except.noConfusion h
  rename_i v3 e3
  split at h
  · exact Except.noConfusion h
  rename_i v4 e4
  split at h
  · exact Except.noConfusion h
  rename_i v5 e5
  split at h
  · exact Except.noConfusion h
  split at h
  · exact Except.noConfusion h
  rename_i v6 e6
  split at h
  · exact Except.noConfusion h
  rename_i v7 e7
  split at h
  · exact Except.noConfusion h
  split at h
  · exact Except.noConfusion h
  rename_i v8 e8
  split at h
  · exact Except.noConfusion h
  rename_i vh eh
  obtain ⟨v9, e9⟩ := getHosted_ok um cert vh eh
  split at h
  · exact Except.noConfusion h
  rename_i v10 e10
  split at h
  · exact Except.noConfusion h
  split at h
  · exact Except.noConfusion h
  rename_i v11 e11
  split at h
  · exact Except.noConfusion h
  rename_i v12 e12
  split at h
  · exact Except.noConfusion h
  rename_i v13 e13
  split at h
  · exact Except.noConfusion h
  rename_i v14 e14
  split at h
  · exact Except.noConfusion h
  split at h
  · exact Except.noConfusion h
  rename_i v15 e15
  split at h
  · exact Except.noConfusion h
  rename_i v16 e16
  exact ⟨⟨v1, v2, v3, v4, v5, v6, v7, v8, v9, v10, v11, v12, v13, v14, v15, v16⟩,
    e1, e2, e3, e4, e5, e6, e7, e8, e9, e10, e11, e12, e13, e14, e15, e16⟩

end gha

/-! ## The claims on `GetWorkflowInfoFromCertificate` -/

namespace gha

open utils

theorem sampleCertificate_reads : readsAs sampleUnmarshal sampleCertificate sampleValues := by
  unfold readsAs
  decide

/-- On the values that `getExtension` reads: for a certificate whose
extensions all decode, with a non-empty legacy source repository `L` and the
current source URI `U`: when `U` is
`https://github.com/` followed by `L` and the other checks pass (subject path,
build trigger, issuer, source commit, build-config digest and URI),
`GetWorkflowInfoFromCertificate` succeeds with `SourceRepository = L`; when `U`
is anything else it fails with `ErrorInvalidFormat`. -/
theorem GetWorkflowInfoFromCertificate_source_repository (um : Asn1Unmarshal)
    (cert : Certificate) (r : ExtensionValues) (h : readsAs um cert r)
    (hL : r.deprecatedSourceRepository ≠ []) :
    (r.sourceURI = "https://github.com/".toList ++ r.deprecatedSourceRepository →
      subjectPathOk cert.URIs → buildTriggerOk r → issuerOk r → sourceShaOk r →
      buildConfigShaOk r → buildConfigURIOk r →
      ∃ id, GetWorkflowInfoFromCertificate um cert = .ok id ∧
        id.SourceRepository = r.deprecatedSourceRepository) ∧
    (r.sourceURI ≠ "https://github.com/".toList ++ r.deprecatedSourceRepository →
      GetWorkflowInfoFromCertificate um cert = .error Err.ErrorInvalidFormat) := by
  have hA := GetWorkflowInfoFromCertificate_of_reads um cert r h
  constructor
  · intro hU c1 c2 c4 c5 c6 c7
    refine ⟨_, hA.1 ⟨c1, c2, Or.inr hU.symm, c4, c5, c6, c7⟩, ?_⟩
    show sourceRepositoryOf r = _
    unfold sourceRepositoryOf
    rw [hU, strings.TrimPrefix_append, if_neg hL]
  · intro hU
    apply hA.2
    rintro ⟨-, -, c3, -⟩
    rcases c3 with e | e
    · exact hL e
    · exact hU e.symm

/-- At the example certificate: with the legacy repository `octo/repo`
and the source URI `https://github.com/octo/repo` it is accepted with
`SourceRepository = octo/repo`; with the source URI
`https://github.com/other/repo` it is rejected with `ErrorInvalidFormat`. -/
theorem GetWorkflowInfoFromCertificate_source_repository_witness :
    (∃ id, GetWorkflowInfoFromCertificate sampleUnmarshal sampleCertificate = .ok id ∧
      id.SourceRepository = "octo/repo".toList) ∧
    GetWorkflowInfoFromCertificate sampleUnmarshal
      (sampleCertificateWith "1.3.6.1.4.1.57264.1.12".toList
        (derUTF8String "https://github.com/other/repo".toList)) =
      .error Err.ErrorInvalidFormat :=
  ⟨(GetWorkflowInfoFromCertificate_source_repository sampleUnmarshal sampleCertificate
      sampleValues sampleCertificate_reads (by decide)).1 (by decide)
      (by unfold subjectPathOk; decide) (by unfold buildTriggerOk; decide)
      (by unfold issuerOk; decide) (by unfold sourceShaOk; decide)
      (by unfold buildConfigShaOk; decide) (by unfold buildConfigURIOk; decide),
    (GetWorkflowInfoFromCertificate_source_repository sampleUnmarshal
      (sampleCertificateWith "1.3.6.1.4.1.57264.1.12".toList
        (derUTF8String "https://github.com/other/repo".toList))
      { sampleValues with sourceURI := "https://github.com/other/repo".toList }
      (by unfold readsAs; decide) (by decide)).2 (by decide)⟩

/-- C16 fails on the code: the example certificate without the legacy build
trigger `1.3.6.1.4.1.57264.1.2` carries the legacy repository `octo/repo`, the
source URI `https://github.com/octo/repo` and extensions that agree with each
other, and is rejected with `ErrorInvalidFormat`.  The read of the absent
`1.3.6.1.4.1.57264.1.2` returns the raw value of `1.3.6.1.4.1.57264.1.20`,
whose identifier holds it as a substring, and that value differs from the
decoded build trigger.  With the legacy build trigger present the same
certificate is accepted, with `SourceRepository = octo/repo`. -/
theorem GetWorkflowInfoFromCertificate_without_legacy_trigger :
    getExtension sampleUnmarshal
      (sampleCertificateWithout ["1.3.6.1.4.1.57264.1.2".toList])
      "1.3.6.1.4.1.57264.1.5".toList false = .ok "octo/repo".toList ∧
    getExtension sampleUnmarshal
      (sampleCertificateWithout ["1.3.6.1.4.1.57264.1.2".toList])
      "1.3.6.1.4.1.57264.1.12".toList true =
        .ok ("https://github.com/".toList ++ "octo/repo".toList) ∧
    (∀ ext ∈ (sampleCertificateWithout ["1.3.6.1.4.1.57264.1.2".toList]).Extensions,
      ext.Id ≠ "1.3.6.1.4.1.57264.1.2".toList) ∧
    getExtension sampleUnmarshal
      (sampleCertificateWithout ["1.3.6.1.4.1.57264.1.2".toList])
      "1.3.6.1.4.1.57264.1.2".toList false = .ok (derUTF8String "push".toList) ∧
    getExtension sampleUnmarshal
      (sampleCertificateWithout ["1.3.6.1.4.1.57264.1.2".toList])
      "1.3.6.1.4.1.57264.1.20".toList true = .ok "push".toList ∧
    GetWorkflowInfoFromCertificate sampleUnmarshal
      (sampleCertificateWithout ["1.3.6.1.4.1.57264.1.2".toList]) =
        .error Err.ErrorInvalidFormat ∧
    (∃ id, GetWorkflowInfoFromCertificate sampleUnmarshal sampleCertificate = .ok id ∧
      id.SourceRepository = "octo/repo".toList) :=
  ⟨by decide, by decide, by decide, by decide, by decide, by decide,
    ⟨identityOf sampleValues "/org/builder/.github/workflows/b.yml@refs/tags/v1.2.3".toList,
      by decide, by decide⟩⟩

end gha

namespace gha

open utils

/-- C17 fails on the code: the example certificate is accepted, but without
its current issuer extension `1.3.6.1.4.1.57264.1.8` (legacy issuer only) it
is rejected with `ErrorInvalidFormat`, and so it is without its legacy issuer
extension `1.3.6.1.4.1.57264.1.1` (current issuer only). -/
theorem GetWorkflowInfoFromCertificate_single_issuer_rejected :
    GetWorkflowInfoFromCertificate sampleUnmarshal sampleCertificate =
      .ok (identityOf sampleValues "/org/builder/.github/workflows/b.yml@refs/tags/v1.2.3".toList) ∧
    getExtension sampleUnmarshal (sampleCertificateWithout ["1.3.6.1.4.1.57264.1.8".toList])
      "1.3.6.1.4.1.57264.1.1".toList false =
        .ok "https://token.actions.githubusercontent.com".toList ∧
    getExtension sampleUnmarshal (sampleCertificateWithout ["1.3.6.1.4.1.57264.1.8".toList])
      "1.3.6.1.4.1.57264.1.8".toList true = .ok [] ∧
    GetWorkflowInfoFromCertificate sampleUnmarshal
      (sampleCertificateWithout ["1.3.6.1.4.1.57264.1.8".toList]) =
        .error Err.ErrorInvalidFormat ∧
    GetWorkflowInfoFromCertificate sampleUnmarshal
      (sampleCertificateWithout ["1.3.6.1.4.1.57264.1.1".toList]) =
        .error Err.ErrorInvalidFormat := by
  decide

/-- C18 fails on the code: the example certificate without its current
source-URI extension `1.3.6.1.4.1.57264.1.12`, which leaves the legacy source
repository `octo/repo` alone, is rejected with `ErrorInvalidFormat`. -/
theorem GetWorkflowInfoFromCertificate_legacy_repository_rejected :
    getExtension sampleUnmarshal (sampleCertificateWithout ["1.3.6.1.4.1.57264.1.12".toList])
      "1.3.6.1.4.1.57264.1.5".toList false = .ok "octo/repo".toList ∧
    getExtension sampleUnmarshal (sampleCertificateWithout ["1.3.6.1.4.1.57264.1.12".toList])
      "1.3.6.1.4.1.57264.1.12".toList true = .ok [] ∧
    GetWorkflowInfoFromCertificate sampleUnmarshal
      (sampleCertificateWithout ["1.3.6.1.4.1.57264.1.12".toList]) =
        .error Err.ErrorInvalidFormat := by
  decide

/-- C19 fails on the code: the example certificate without its current
source-digest extension `1.3.6.1.4.1.57264.1.13` and without the build-config
digest is accepted, and the identity has an empty `SourceSha1` although the
legacy source commit is `0dfcd248`. -/
theorem GetWorkflowInfoFromCertificate_legacy_sha_dropped :
    getExtension sampleUnmarshal
      (sampleCertificateWithout
        ["1.3.6.1.4.1.57264.1.13".toList, "1.3.6.1.4.1.57264.1.19".toList])
      "1.3.6.1.4.1.57264.1.3".toList false = .ok "0dfcd248".toList ∧
    getExtension sampleUnmarshal
      (sampleCertificateWithout
        ["1.3.6.1.4.1.57264.1.13".toList, "1.3.6.1.4.1.57264.1.19".toList])
      "1.3.6.1.4.1.57264.1.13".toList true = .ok [] ∧
    ∃ id, GetWorkflowInfoFromCertificate sampleUnmarshal
        (sampleCertificateWithout
          ["1.3.6.1.4.1.57264.1.13".toList, "1.3.6.1.4.1.57264.1.19".toList]) = .ok id ∧
      id.SourceSha1 = [] ∧ id.SourceSha1 ≠ "0dfcd248".toList := by
  refine ⟨by decide, by decide,
    identityOf { sampleValues with sourceSha1 := [], buildConfigSha1 := [] }
      "/org/builder/.github/workflows/b.yml@refs/tags/v1.2.3".toList, by decide, by decide,
    by decide⟩

/-- C20, as stated, fails: the certificate whose build trigger does not decode
has no build-config URI, and `GetWorkflowInfoFromCertificate` returns the
decoding error, not `ErrorInvalidFormat`. -/
theorem GetWorkflowInfoFromCertificate_decoding_error_first :
    getExtension sampleUnmarshal undecodableTriggerCertificate
      "1.3.6.1.4.1.57264.1.18".toList true = .ok [] ∧
    (strings.Split [] '@').length ≠ 2 ∧
    GetWorkflowInfoFromCertificate sampleUnmarshal undecodableTriggerCertificate =
      .error Err.other ∧
    GetWorkflowInfoFromCertificate sampleUnmarshal undecodableTriggerCertificate ≠
      .error Err.ErrorInvalidFormat := by
  decide

/-- C20, amended: `GetWorkflowInfoFromCertificate` succeeds only if the
build-config URI it reads splits on `@` into exactly two parts and the first
part starts with `https://github.com/`, the source repository and `/`; on
success `BuildConfigPath` is the first part without that prefix; and on a
certificate whose extensions all decode, it returns `ErrorInvalidFormat` when
either condition fails, in particular when the extension is absent. -/
theorem GetWorkflowInfoFromCertificate_build_config (um : Asn1Unmarshal) (cert : Certificate) :
    (∀ id, GetWorkflowInfoFromCertificate um cert = .ok id →
      ∃ v, getExtension um cert "1.3.6.1.4.1.57264.1.18".toList true = .ok v ∧
        (strings.Split v '@').length = 2 ∧
        strings.HasPrefix ((strings.Split v '@').headD [])
          ("https://github.com/".toList ++ id.SourceRepository ++ "/".toList) = true ∧
        id.BuildConfigPath = some (strings.TrimPrefix ((strings.Split v '@').headD [])
          ("https://github.com/".toList ++ id.SourceRepository ++ "/".toList))) ∧
    (∀ r, readsAs um cert r → ¬ buildConfigURIOk r →
      GetWorkflowInfoFromCertificate um cert = .error Err.ErrorInvalidFormat) ∧
    (∀ r, readsAs um cert r → r.buildConfigURI = [] →
      GetWorkflowInfoFromCertificate um cert = .error Err.ErrorInvalidFormat) := by
  refine ⟨?_, ?_, ?_⟩
  · intro id hok
    obtain ⟨r, hr⟩ := GetWorkflowInfoFromCertificate_ok_reads um cert id hok
    have hA := GetWorkflowInfoFromCertificate_of_reads um cert r hr
    by_cases hc : subjectPathOk cert.URIs ∧ buildTriggerOk r ∧ sourceRepositoryOk r ∧
        issuerOk r ∧ sourceShaOk r ∧ buildConfigShaOk r ∧ buildConfigURIOk r
    · rw [hA.1 hc] at hok
      have hid := Except.ok.inj hok
      obtain ⟨-, -, -, -, -, -, h7, h8⟩ := hc
      refine ⟨r.buildConfigURI, hr.2.2.2.2.2.2.2.2.2.2.2.2.2.2.2, h7, ?_, ?_⟩
      · rw [← hid]
        exact h8
      · rw [← hid]
        rfl
    · rw [hA.2 hc] at hok
      exact Except.noConfusion hok
  · intro r hr hn
    apply (GetWorkflowInfoFromCertificate_of_reads um cert r hr).2
    exact fun hc => hn hc.2.2.2.2.2.2
  · intro r hr he
    apply (GetWorkflowInfoFromCertificate_of_reads um cert r hr).2
    rintro ⟨-, -, -, -, -, -, h7, -⟩
    rw [he] at h7
    exact absurd h7 (by decide)

/-- C20 amended, at the example certificate: it is accepted, its build-config
URI has the two parts and the prefix, and `BuildConfigPath` is
`.github/workflows/w.yml`. -/
theorem GetWorkflowInfoFromCertificate_build_config_witness :
    GetWorkflowInfoFromCertificate sampleUnmarshal sampleCertificate =
      .ok (identityOf sampleValues "/org/builder/.github/workflows/b.yml@refs/tags/v1.2.3".toList) ∧
    (identityOf sampleValues
      "/org/builder/.github/workflows/b.yml@refs/tags/v1.2.3".toList).BuildConfigPath =
      some ".github/workflows/w.yml".toList ∧
    ∃ v, getExtension sampleUnmarshal sampleCertificate "1.3.6.1.4.1.57264.1.18".toList true =
        .ok v ∧
      (strings.Split v '@').length = 2 ∧
      strings.HasPrefix ((strings.Split v '@').headD [])
        ("https://github.com/".toList ++
          (identityOf sampleValues
            "/org/builder/.github/workflows/b.yml@refs/tags/v1.2.3".toList).SourceRepository ++
          "/".toList) = true ∧
      (identityOf sampleValues
        "/org/builder/.github/workflows/b.yml@refs/tags/v1.2.3".toList).BuildConfigPath =
        some (strings.TrimPrefix ((strings.Split v '@').headD [])
          ("https://github.com/".toList ++
            (identityOf sampleValues
              "/org/builder/.github/workflows/b.yml@refs/tags/v1.2.3".toList).SourceRepository ++
            "/".toList)) :=
  ⟨by decide, by decide,
    (GetWorkflowInfoFromCertificate_build_config sampleUnmarshal sampleCertificate).1 _
      (by decide)⟩

end gha

/-! ## The claims on the bundle -/

namespace gha

/-- Among recorded items that all carry their signature, `containsSignature`
is the membership test. -/
theorem containsSignature_map_some (x : Str) (C : List Str) :
    containsSignature x (C.map some) = .returned (decide (x ∈ C)) := by
  induction C with
  | nil => rfl
  | cons a C ih =>
    show containsSignature x (some a :: C.map some) = _
    rw [containsSignature]
    by_cases h : a = x
    · rw [if_pos h]
      simp [h]
    · rw [if_neg h, ih]
      have h2 : ¬ x = a := fun e => h e.symm
      simp [h2]

/-- When `containsSignature` finds the signature, it is recorded. -/
theorem containsSignature_true (x : Str) (C : List (Option Str))
    (h : containsSignature x C = .returned true) : some x ∈ C := by
  induction C with
  | nil =>
    rw [containsSignature] at h
    exact Bool.noConfusion (Run.returned.inj h)
  | cons a C ih =>
    cases a with
    | none =>
      rw [containsSignature] at h
      exact Run.noConfusion h
    | some a =>
      rw [containsSignature] at h
      by_cases e : a = x
      · rw [e]
        exact List.mem_cons_self _ _
      · rw [if_neg e] at h
        exact List.mem_cons_of_mem _ (ih h)

/-- Against recorded items that all carry their signature, the loop over the
envelope signatures succeeds exactly when every encoded envelope signature is
recorded; it fails with `ErrorMismatchSignature` otherwise. -/
theorem matchSignatures_spec (encode : Str → Str) (canonical : List Str) (sigs : List Signature) :
    ((∀ s ∈ sigs, encode s.Sig ∈ canonical) →
      matchSignatures encode (canonical.map some) sigs = .returned (.ok ())) ∧
    ((∃ s ∈ sigs, encode s.Sig ∉ canonical) →
      matchSignatures encode (canonical.map some) sigs =
        .returned (.error Err.ErrorMismatchSignature)) := by
  induction sigs with
  | nil =>
    refine ⟨fun _ => rfl, ?_⟩
    rintro ⟨s, hs, -⟩
    simp at hs
  | cons a sigs ih =>
    by_cases ha : encode a.Sig ∈ canonical
    · have h1 : containsSignature (encode a.Sig) (canonical.map some) = .returned true := by
        rw [containsSignature_map_some, decide_eq_true ha]
      constructor
      · intro hall
        rw [matchSignatures, h1]
        exact ih.1 (fun s hs => hall s (List.mem_cons_of_mem a hs))
      · rintro ⟨s, hs, hn⟩
        rw [matchSignatures, h1]
        rcases List.mem_cons.mp hs with e | e
        · rw [e] at hn
          exact absurd ha hn
        · exact ih.2 ⟨s, e, hn⟩
    · have h1 : containsSignature (encode a.Sig) (canonical.map some) = .returned false := by
        rw [containsSignature_map_some, decide_eq_false ha]
      constructor
      · intro hall
        exact absurd (hall a (List.mem_cons_self a sigs)) ha
      · intro _
        rw [matchSignatures, h1]

theorem matchSignatures_cases (encode : Str → Str) (canonical : List Str)
    (sigs : List Signature) :
    ((∀ s ∈ sigs, encode s.Sig ∈ canonical) ∧
      matchSignatures encode (canonical.map some) sigs = .returned (.ok ())) ∨
    ((∃ s ∈ sigs, encode s.Sig ∉ canonical) ∧
      matchSignatures encode (canonical.map some) sigs =
        .returned (.error Err.ErrorMismatchSignature)) := by
  by_cases h : ∀ s ∈ sigs, encode s.Sig ∈ canonical
  · exact Or.inl ⟨h, (matchSignatures_spec encode canonical sigs).1 h⟩
  · right
    have h2 : ∃ s ∈ sigs, encode s.Sig ∉ canonical := by
      by_contra hc
      apply h
      intro s hs
      by_contra hn
      exact hc ⟨s, hs, hn⟩
    exact ⟨h2, (matchSignatures_spec encode canonical sigs).2 h2⟩

/-- When the loop over the envelope signatures succeeds, every encoded
envelope signature is recorded, whatever the recorded items are. -/
theorem matchSignatures_ok (encode : Str → Str) (canonical : List (Option Str))
    (sigs : List Signature) (h : matchSignatures encode canonical sigs = .returned (.ok ())) :
    ∀ s ∈ sigs, some (encode s.Sig) ∈ canonical := by
  induction sigs with
  | nil =>
    intro s hs
    exact absurd hs (List.not_mem_nil s)
  | cons a sigs ih =>
    rw [matchSignatures] at h
    cases hc : containsSignature (encode a.Sig) canonical with
    | nilDereference =>
      rw [hc] at h
      exact Run.noConfusion h
    | returned b =>
      rw [hc] at h
      cases b with
      | false => exact Except.noConfusion (Run.returned.inj h)
      | true =>
        intro s hs
        rcases List.mem_cons.mp hs with e | e
        · rw [e]
          exact containsSignature_true _ _ hc
        · exact ih h s e

theorem length_ne_zero_of_ne_nil {α : Type} (l : List α) (h : l ≠ []) : ¬ (l.length = 0) := by
  intro hl
  exact h (List.length_eq_zero.mp hl)

/-- The dispatch of `matchRekorEntryWithEnvelope` on a `dsse` 0.0.1 entry. -/
theorem matchRekorEntryWithEnvelope_dsse (c : Codecs) (entry : TransparencyLogEntry)
    (env : Envelope) (hE : env.Signatures ≠ [])
    (hk : entry.KindVersion = some ⟨"dsse".toList, "0.0.1".toList⟩) :
    matchRekorEntryWithEnvelope c entry env = matchRekorEntryWithEnvelopeDSSEv001 c entry env := by
  unfold matchRekorEntryWithEnvelope
  rw [if_neg (length_ne_zero_of_ne_nil _ hE), hk]
  simp only
  rw [if_neg (by decide), if_pos ⟨trivial, trivial⟩]

/-- The dispatch of `matchRekorEntryWithEnvelope` on an `intoto` 0.0.2 entry. -/
theorem matchRekorEntryWithEnvelope_intoto (c : Codecs) (entry : TransparencyLogEntry)
    (env : Envelope) (hE : env.Signatures ≠ [])
    (hk : entry.KindVersion = some ⟨"intoto".toList, "0.0.2".toList⟩) :
    matchRekorEntryWithEnvelope c entry env =
      matchRekorEntryWithEnvelopeIntotov002 c entry env := by
  unfold matchRekorEntryWithEnvelope
  rw [if_neg (length_ne_zero_of_ne_nil _ hE), hk]
  simp only
  rw [if_pos ⟨trivial, trivial⟩]

/-- C22: for a `dsse` 0.0.1 log entry whose canonical body decodes to the
recorded signatures `C`, and an envelope with a non-empty signature list `E`:
matching fails with `ErrorUnequalSignatures` when the two lengths differ;
otherwise it fails with `ErrorMismatchSignature` when some envelope signature
is no element of `C`; otherwise it succeeds. -/
theorem matchRekorEntryWithEnvelopeDSSEv001_spec (c : Codecs) (entry : TransparencyLogEntry)
    (env : Envelope) (C : List Str)
    (hC : c.dsseV001Signatures entry.CanonicalizedBody = some (C.map some))
    (hE : env.Signatures ≠ [])
    (hk : entry.KindVersion = some ⟨"dsse".toList, "0.0.1".toList⟩) :
    matchRekorEntryWithEnvelope c entry env = matchRekorEntryWithEnvelopeDSSEv001 c entry env ∧
    (env.Signatures.length ≠ C.length →
      matchRekorEntryWithEnvelopeDSSEv001 c entry env =
        .returned (.error Err.ErrorUnequalSignatures)) ∧
    (env.Signatures.length = C.length → (∃ s ∈ env.Signatures, s.Sig ∉ C) →
      matchRekorEntryWithEnvelopeDSSEv001 c entry env =
        .returned (.error Err.ErrorMismatchSignature)) ∧
    (env.Signatures.length = C.length → (∀ s ∈ env.Signatures, s.Sig ∈ C) →
      matchRekorEntryWithEnvelopeDSSEv001 c entry env = .returned (.ok ())) := by
  refine ⟨matchRekorEntryWithEnvelope_dsse c entry env hE hk, ?_, ?_, ?_⟩
  · intro hl
    unfold matchRekorEntryWithEnvelopeDSSEv001
    rw [hC]
    simp only [List.length_map]
    rw [if_pos hl]
  · intro hl hm
    unfold matchRekorEntryWithEnvelopeDSSEv001
    rw [hC]
    simp only [List.length_map]
    rw [if_neg (not_not.mpr hl)]
    exact (matchSignatures_spec (fun s => s) C env.Signatures).2 hm
  · intro hl hm
    unfold matchRekorEntryWithEnvelopeDSSEv001
    rw [hC]
    simp only [List.length_map]
    rw [if_neg (not_not.mpr hl)]
    exact (matchSignatures_spec (fun s => s) C env.Signatures).1 hm

/-- C22, at the examples of the specification: the envelope signature `AAA==`
against the recorded `AAA==` matches, and two envelope signatures against one
recorded signature fail with `ErrorUnequalSignatures`. -/
theorem matchRekorEntryWithEnvelopeDSSEv001_spec_witness :
    matchRekorEntryWithEnvelopeDSSEv001 sampleCodecs
      (mkEntry "dsse".toList "0.0.1".toList "AAA==".toList) (mkEnvelope ["AAA==".toList]) =
        .returned (.ok ()) ∧
    matchRekorEntryWithEnvelopeDSSEv001 sampleCodecs
      (mkEntry "dsse".toList "0.0.1".toList "AAA==".toList)
      (mkEnvelope ["AAA==".toList, "BBB==".toList]) =
        .returned (.error Err.ErrorUnequalSignatures) :=
  ⟨(matchRekorEntryWithEnvelopeDSSEv001_spec sampleCodecs
      (mkEntry "dsse".toList "0.0.1".toList "AAA==".toList) (mkEnvelope ["AAA==".toList])
      ["AAA==".toList] (by decide) (by decide) rfl).2.2.2 (by decide) (by decide),
    (matchRekorEntryWithEnvelopeDSSEv001_spec sampleCodecs
      (mkEntry "dsse".toList "0.0.1".toList "AAA==".toList)
      (mkEnvelope ["AAA==".toList, "BBB==".toList])
      ["AAA==".toList] (by decide) (by decide) rfl).2.1 (by decide)⟩

/-- C23: for an `intoto` 0.0.2 log entry whose canonical body decodes to the
recorded signature strings `C`, and an envelope with a non-empty signature
list `E`: matching fails with `ErrorUnequalSignatures` when the two lengths
differ; otherwise it succeeds exactly when, for every envelope signature, the
base64 encoding of its signature string is an element of `C`, and it fails
with `ErrorMismatchSignature` when that is not so. -/
theorem matchRekorEntryWithEnvelopeIntotov002_spec (c : Codecs) (entry : TransparencyLogEntry)
    (env : Envelope) (C : List Str)
    (hC : c.intotoV002Signatures entry.CanonicalizedBody = some (C.map some))
    (hE : env.Signatures ≠ [])
    (hk : entry.KindVersion = some ⟨"intoto".toList, "0.0.2".toList⟩) :
    matchRekorEntryWithEnvelope c entry env =
      matchRekorEntryWithEnvelopeIntotov002 c entry env ∧
    (env.Signatures.length ≠ C.length →
      matchRekorEntryWithEnvelopeIntotov002 c entry env =
        .returned (.error Err.ErrorUnequalSignatures)) ∧
    (env.Signatures.length = C.length →
      ((matchRekorEntryWithEnvelopeIntotov002 c entry env = .returned (.ok ()) ↔
          ∀ s ∈ env.Signatures, c.base64Encode s.Sig ∈ C) ∧
        (¬ (∀ s ∈ env.Signatures, c.base64Encode s.Sig ∈ C) →
          matchRekorEntryWithEnvelopeIntotov002 c entry env =
            .returned (.error Err.ErrorMismatchSignature)))) := by
  refine ⟨matchRekorEntryWithEnvelope_intoto c entry env hE hk, ?_, ?_⟩
  · intro hl
    unfold matchRekorEntryWithEnvelopeIntotov002
    rw [hC]
    simp only [List.length_map]
    rw [if_pos hl]
  · intro hl
    unfold matchRekorEntryWithEnvelopeIntotov002
    rw [hC]
    simp only [List.length_map]
    rw [if_neg (not_not.mpr hl)]
    rcases matchSignatures_cases c.base64Encode C env.Signatures with ⟨h1, h2⟩ | ⟨h1, h2⟩
    · rw [h2]
      exact ⟨⟨fun _ => h1, fun _ => rfl⟩, fun hn => absurd h1 hn⟩
    · rw [h2]
      refine ⟨⟨fun h => Except.noConfusion (Run.returned.inj h), fun hall => ?_⟩, fun _ => rfl⟩
      obtain ⟨s, hs, hn⟩ := h1
      exact absurd (hall s hs) hn

/-- C23, at the envelope signature `AAA==`, whose base64 encoding `QUFBPT0=`
is the recorded signature. -/
theorem matchRekorEntryWithEnvelopeIntotov002_spec_witness :
    matchRekorEntryWithEnvelopeIntotov002 sampleCodecs
      (mkEntry "intoto".toList "0.0.2".toList "QUFBPT0=".toList) (mkEnvelope ["AAA==".toList]) =
        .returned (.ok ()) :=
  ((matchRekorEntryWithEnvelopeIntotov002_spec sampleCodecs
      (mkEntry "intoto".toList "0.0.2".toList "QUFBPT0=".toList) (mkEnvelope ["AAA==".toList])
      ["QUFBPT0=".toList] (by decide) (by decide) rfl).2.2 (by decide)).1.mpr (by decide)

/-- For every envelope with at least one signature and every log entry that
carries a kind and a version other than `intoto` 0.0.2 and `dsse` 0.0.1,
`matchRekorEntryWithEnvelope` fails with `ErrorUnexpectedEntryType`, whatever
the body of the entry and whatever the decoders answer. -/
theorem matchRekorEntryWithEnvelope_unexpected (c : Codecs) (entry : TransparencyLogEntry)
    (env : Envelope) (kv : KindVersion) (hE : env.Signatures ≠ [])
    (hkv : entry.KindVersion = some kv)
    (h1 : ¬ (kv.Kind = "intoto".toList ∧ kv.Version = "0.0.2".toList))
    (h2 : ¬ (kv.Kind = "dsse".toList ∧ kv.Version = "0.0.1".toList)) :
    matchRekorEntryWithEnvelope c entry env =
      .returned (.error Err.ErrorUnexpectedEntryType) := by
  unfold matchRekorEntryWithEnvelope
  rw [if_neg (length_ne_zero_of_ne_nil _ hE), hkv]
  simp only
  rw [if_neg h1, if_neg h2]

/-- C25 fails on the code for a log entry without kind and version.  For an
envelope with at least one signature: a log entry that carries a kind and a
version other than `intoto` 0.0.2 and `dsse` 0.0.1 is answered with
`ErrorUnexpectedEntryType`, the body not being read; for a log entry without
kind and version, `GetKindVersion()` returns nil and the read of
`kindVersion.Kind` is a nil pointer dereference. -/
theorem matchRekorEntryWithEnvelope_entry_type (c : Codecs) (entry : TransparencyLogEntry)
    (env : Envelope) (hE : env.Signatures ≠ []) :
    (∀ kv, entry.KindVersion = some kv →
      ¬ (kv.Kind = "intoto".toList ∧ kv.Version = "0.0.2".toList) →
      ¬ (kv.Kind = "dsse".toList ∧ kv.Version = "0.0.1".toList) →
      matchRekorEntryWithEnvelope c entry env =
        .returned (.error Err.ErrorUnexpectedEntryType)) ∧
    (entry.KindVersion = none →
      matchRekorEntryWithEnvelope c entry env = Run.nilDereference) := by
  constructor
  · intro kv hkv h1 h2
    exact matchRekorEntryWithEnvelope_unexpected c entry env kv hE hkv h1 h2
  · intro hn
    unfold matchRekorEntryWithEnvelope
    rw [if_neg (length_ne_zero_of_ne_nil _ hE), hn]

/-- C25, at the entries `intoto` 0.0.1 and `dsse` 0.0.2, and at an entry
without kind and version. -/
theorem matchRekorEntryWithEnvelope_entry_type_witness :
    matchRekorEntryWithEnvelope sampleCodecs
      (mkEntry "intoto".toList "0.0.1".toList "QUFBPT0=".toList) (mkEnvelope ["AAA==".toList]) =
        .returned (.error Err.ErrorUnexpectedEntryType) ∧
    matchRekorEntryWithEnvelope sampleCodecs
      (mkEntry "dsse".toList "0.0.2".toList "AAA==".toList) (mkEnvelope ["AAA==".toList]) =
        .returned (.error Err.ErrorUnexpectedEntryType) ∧
    matchRekorEntryWithEnvelope sampleCodecs
      (mkEntryWithoutKind "AAA==".toList) (mkEnvelope ["AAA==".toList]) = Run.nilDereference :=
  ⟨(matchRekorEntryWithEnvelope_entry_type sampleCodecs
      (mkEntry "intoto".toList "0.0.1".toList "QUFBPT0=".toList) (mkEnvelope ["AAA==".toList])
      (by decide)).1 _ rfl (by decide) (by decide),
    (matchRekorEntryWithEnvelope_entry_type sampleCodecs
      (mkEntry "dsse".toList "0.0.2".toList "AAA==".toList) (mkEnvelope ["AAA==".toList])
      (by decide)).1 _ rfl (by decide) (by decide),
    (matchRekorEntryWithEnvelope_entry_type sampleCodecs
      (mkEntryWithoutKind "AAA==".toList) (mkEnvelope ["AAA==".toList]) (by decide)).2 rfl⟩

end gha

namespace gha

/-- C21, as stated, fails: a bundle with two log entries, the first of which is
verified and matches the envelope, is accepted. -/
theorem verifyBundleAndEntry_two_entries :
    verifyBundleAndEntry sampleCodecs (fun _ => .ok ())
      (mkBundle [mkEntry "dsse".toList "0.0.1".toList "QUFBPT0=".toList,
        mkEntry "dsse".toList "0.0.1".toList "QkJCPT0=".toList] ["AAA==".toList]) false =
      .returned
        (.ok ⟨none, none, mkEnvelope ["QUFBPT0=".toList], ⟨"QUFBPT0=".toList, 0, 0, [], []⟩⟩) := by
  decide

/-- C21, amended: `verifyBundleAndEntry` returns an error for every bundle
without verification material or without log entry, whatever the check against
the trusted root answers; a bundle with more than one log entry is not
rejected for that: only its first entry is read, and the outcome is the same
whatever follows it. -/
theorem verifyBundleAndEntry_entries (c : Codecs)
    (verifyTlogEntry : LogEntryAnon → Except Err Unit) (requireCert : Bool) :
    (∀ bundle : Bundle,
      (bundle.VerificationMaterial = none ∨
        ∃ vm, bundle.VerificationMaterial = some vm ∧ vm.TlogEntries = []) →
      verifyBundleAndEntry c verifyTlogEntry bundle requireCert =
        .returned (.error Err.other)) ∧
    (∀ (env : Option BundleEnvelope) (certs : List Str) (pk : Option Str)
        (e : TransparencyLogEntry) (rest rest2 : List TransparencyLogEntry),
      verifyBundleAndEntry c verifyTlogEntry ⟨some ⟨e :: rest, certs, pk⟩, env⟩ requireCert =
        verifyBundleAndEntry c verifyTlogEntry ⟨some ⟨e :: rest2, certs, pk⟩, env⟩
          requireCert) := by
  constructor
  · intro bundle h
    unfold verifyBundleAndEntry
    rcases h with h | ⟨vm, h, hv⟩
    · rw [h]
    · rw [h]
      simp only [hv]
  · intro env certs pk e rest rest2
    rfl

/-- C21 amended, at a bundle without log entry and a check against the trusted
root that accepts everything. -/
theorem verifyBundleAndEntry_entries_witness :
    verifyBundleAndEntry sampleCodecs (fun _ => .ok ()) (mkBundle [] ["AAA==".toList]) true =
      .returned (.error Err.other) :=
  (verifyBundleAndEntry_entries sampleCodecs (fun _ => .ok ()) true).1
    (mkBundle [] ["AAA==".toList]) (Or.inr ⟨_, rfl, rfl⟩)

theorem matchRekorEntryWithEnvelopeDSSEv001_ok (c : Codecs) (entry : TransparencyLogEntry)
    (env : Envelope)
    (h : matchRekorEntryWithEnvelopeDSSEv001 c entry env = .returned (.ok ())) :
    ∃ C, c.dsseV001Signatures entry.CanonicalizedBody = some C ∧
      env.Signatures.length = C.length ∧ ∀ s ∈ env.Signatures, some s.Sig ∈ C := by
  unfold matchRekorEntryWithEnvelopeDSSEv001 at h
  cases hC : c.dsseV001Signatures entry.CanonicalizedBody with
  | none =>
    rw [hC] at h
    exact Except.noConfusion (Run.returned.inj h)
  | some C =>
    rw [hC] at h
    simp only at h
    by_cases hl : env.Signatures.length ≠ C.length
    · rw [if_pos hl] at h
      exact Except.noConfusion (Run.returned.inj h)
    · rw [if_neg hl] at h
      exact ⟨C, rfl, not_not.mp hl, matchSignatures_ok (fun s => s) C env.Signatures h⟩

theorem matchRekorEntryWithEnvelopeIntotov002_ok (c : Codecs) (entry : TransparencyLogEntry)
    (env : Envelope)
    (h : matchRekorEntryWithEnvelopeIntotov002 c entry env = .returned (.ok ())) :
    ∃ C, c.intotoV002Signatures entry.CanonicalizedBody = some C ∧
      env.Signatures.length = C.length ∧
      ∀ s ∈ env.Signatures, some (c.base64Encode s.Sig) ∈ C := by
  unfold matchRekorEntryWithEnvelopeIntotov002 at h
  cases hC : c.intotoV002Signatures entry.CanonicalizedBody with
  | none =>
    rw [hC] at h
    exact Except.noConfusion (Run.returned.inj h)
  | some C =>
    rw [hC] at h
    simp only at h
    by_cases hl : env.Signatures.length ≠ C.length
    · rw [if_pos hl] at h
      exact Except.noConfusion (Run.returned.inj h)
    · rw [if_neg hl] at h
      exact ⟨C, rfl, not_not.mp hl, matchSignatures_ok c.base64Encode C env.Signatures h⟩

/-- The kind and version of an entry are the given ones exactly when its two
fields are. -/
theorem kindVersion_eq_iff (kv : KindVersion) (k v : Str) :
    (some kv = some (⟨k, v⟩ : KindVersion)) ↔ (kv.Kind = k ∧ kv.Version = v) := by
  constructor
  · intro h
    have e := Option.some.inj h
    rw [e]
    exact ⟨rfl, rfl⟩
  · rintro ⟨h1, h2⟩
    cases kv
    simp only at h1 h2
    rw [h1, h2]

/-- C24, as stated, fails: the envelope that carries `AAA==` twice matches the
`dsse` 0.0.1 entry that records `AAA==` and `BBB==`, although the envelope
lacks the recorded signature `BBB==`. -/
theorem matchRekorEntryWithEnvelope_repeated_signature :
    matchRekorEntryWithEnvelope sampleCodecs
      (mkEntry "dsse".toList "0.0.1".toList "AAA==,BBB==".toList)
      (mkEnvelope ["AAA==".toList, "AAA==".toList]) = .returned (.ok ()) ∧
    recordedSignatures sampleCodecs (mkEntry "dsse".toList "0.0.1".toList "AAA==,BBB==".toList) =
      some [some "AAA==".toList, some "BBB==".toList] ∧
    carriedSignatures sampleCodecs (mkEntry "dsse".toList "0.0.1".toList "AAA==,BBB==".toList)
      (mkEnvelope ["AAA==".toList, "AAA==".toList]) = ["AAA==".toList, "AAA==".toList] ∧
    "BBB==".toList ∉ ["AAA==".toList, "AAA==".toList] := by
  decide

/-- C24, amended: whenever `matchRekorEntryWithEnvelope` succeeds, the envelope
carries as many signatures as the entry records and every signature of the
envelope, in the encoding of the schema, is recorded in the entry; when the
signatures of the envelope are pairwise distinct, the two lists are equal as
multisets, so that the entry records no signature that the envelope lacks. -/
theorem matchRekorEntryWithEnvelope_ok (c : Codecs) (entry : TransparencyLogEntry)
    (env : Envelope) (h : matchRekorEntryWithEnvelope c entry env = .returned (.ok ())) :
    ∃ C, recordedSignatures c entry = some C ∧
      (carriedSignatures c entry env).length = C.length ∧
      (∀ x ∈ carriedSignatures c entry env, some x ∈ C) ∧
      ((carriedSignatures c entry env).Nodup →
        ((carriedSignatures c entry env).map some).Perm C ∧
          ∀ x ∈ C, ∃ y ∈ carriedSignatures c entry env, x = some y) := by
  have key : ∃ C, recordedSignatures c entry = some C ∧
      (carriedSignatures c entry env).length = C.length ∧
      (∀ x ∈ carriedSignatures c entry env, some x ∈ C) := by
    unfold matchRekorEntryWithEnvelope at h
    by_cases h0 : env.Signatures.length = 0
    · rw [if_pos h0] at h
      exact Except.noConfusion (Run.returned.inj h)
    rw [if_neg h0] at h
    cases hkv : entry.KindVersion with
    | none =>
      rw [hkv] at h
      exact Run.noConfusion h
    | some kv =>
      rw [hkv] at h
      simp only at h
      unfold recordedSignatures carriedSignatures
      rw [hkv]
      by_cases h1 : kv.Kind = "intoto".toList ∧ kv.Version = "0.0.2".toList
      · rw [if_pos h1] at h
        have e1 := (kindVersion_eq_iff kv _ _).mpr h1
        rw [if_pos e1, if_pos e1]
        obtain ⟨C, hC, hl, hm⟩ := matchRekorEntryWithEnvelopeIntotov002_ok c entry env h
        refine ⟨C, hC, by rw [List.length_map]; exact hl, ?_⟩
        intro x hx
        obtain ⟨s, hs, e⟩ := List.mem_map.mp hx
        rw [← e]
        exact hm s hs
      · rw [if_neg h1] at h
        have e1 : ¬ (some kv = some (⟨"intoto".toList, "0.0.2".toList⟩ : KindVersion)) :=
          fun e => h1 ((kindVersion_eq_iff kv _ _).mp e)
        rw [if_neg e1, if_neg e1]
        by_cases h2 : kv.Kind = "dsse".toList ∧ kv.Version = "0.0.1".toList
        · rw [if_pos h2] at h
          rw [if_pos ((kindVersion_eq_iff kv _ _).mpr h2)]
          obtain ⟨C, hC, hl, hm⟩ := matchRekorEntryWithEnvelopeDSSEv001_ok c entry env h
          refine ⟨C, hC, by rw [List.length_map]; exact hl, ?_⟩
          intro x hx
          obtain ⟨s, hs, e⟩ := List.mem_map.mp hx
          rw [← e]
          exact hm s hs
        · rw [if_neg h2] at h
          exact Except.noConfusion (Run.returned.inj h)
  obtain ⟨C, hC, hl, hsub⟩ := key
  refine ⟨C, hC, hl, hsub, fun hnd => ?_⟩
  have hnd2 : ((carriedSignatures c entry env).map some).Nodup :=
    hnd.map (Option.some_injective Str)
  have hsub2 : (carriedSignatures c entry env).map some ⊆ C := by
    intro x hx
    obtain ⟨y, hy, e⟩ := List.mem_map.mp hx
    rw [← e]
    exact hsub y hy
  have hperm : ((carriedSignatures c entry env).map some).Perm C :=
    (List.subperm_of_subset hnd2 hsub2).perm_of_length_le
      (le_of_eq (by rw [List.length_map]; exact hl.symm))
  refine ⟨hperm, fun x hx => ?_⟩
  obtain ⟨y, hy, e⟩ := List.mem_map.mp (hperm.symm.subset hx)
  exact ⟨y, hy, e.symm⟩

/-- C24 amended, at the envelope that carries `AAA==` and `BBB==` and the entry
that records `BBB==` and `AAA==`. -/
theorem matchRekorEntryWithEnvelope_ok_witness :
    ∃ C, recordedSignatures sampleCodecs
        (mkEntry "dsse".toList "0.0.1".toList "BBB==,AAA==".toList) = some C ∧
      (carriedSignatures sampleCodecs (mkEntry "dsse".toList "0.0.1".toList "BBB==,AAA==".toList)
        (mkEnvelope ["AAA==".toList, "BBB==".toList])).length = C.length ∧
      (∀ x ∈ carriedSignatures sampleCodecs
          (mkEntry "dsse".toList "0.0.1".toList "BBB==,AAA==".toList)
          (mkEnvelope ["AAA==".toList, "BBB==".toList]), some x ∈ C) ∧
      ((carriedSignatures sampleCodecs
          (mkEntry "dsse".toList "0.0.1".toList "BBB==,AAA==".toList)
          (mkEnvelope ["AAA==".toList, "BBB==".toList])).Nodup →
        ((carriedSignatures sampleCodecs
          (mkEntry "dsse".toList "0.0.1".toList "BBB==,AAA==".toList)
          (mkEnvelope ["AAA==".toList, "BBB==".toList])).map some).Perm C ∧
        ∀ x ∈ C, ∃ y ∈ carriedSignatures sampleCodecs
          (mkEntry "dsse".toList "0.0.1".toList "BBB==,AAA==".toList)
          (mkEnvelope ["AAA==".toList, "BBB==".toList]), x = some y) :=
  matchRekorEntryWithEnvelope_ok sampleCodecs
    (mkEntry "dsse".toList "0.0.1".toList "BBB==,AAA==".toList)
    (mkEnvelope ["AAA==".toList, "BBB==".toList]) (by decide)

end gha

/-! ## The claims on `VerifyImage` -/

namespace gha

open utils

theorem VerifyImageLoop_cons {α : Type} (payload : α → Option Str)
    (EnvelopeFromBytes : Str → Option Envelope) (certOf : α → Option Certificate)
    (verifyEnvAndCert : Envelope → Certificate → Except Err (Str × TrustedBuilderID))
    (att : α) (atts : List α) (errs : List Err) :
    VerifyImageLoop payload EnvelopeFromBytes certOf verifyEnvAndCert (att :: atts) errs =
      match attestationCheck payload EnvelopeFromBytes certOf verifyEnvAndCert att with
      | none => VerifyImageLoop payload EnvelopeFromBytes certOf verifyEnvAndCert atts errs
      | some (.ok r) => .ok r
      | some (.error e) =>
        VerifyImageLoop payload EnvelopeFromBytes certOf verifyEnvAndCert atts (errs ++ [e]) := by
  rw [VerifyImageLoop]
  unfold attestationCheck
  cases payload att with
  | none => rfl
  | some pyld =>
    simp only
    cases EnvelopeFromBytes pyld with
    | none => rfl
    | some env =>
      simp only
      cases certOf att with
      | none => rfl
      | some cert =>
        simp only
        cases verifyEnvAndCert env cert with
        | ok r => rfl
        | error e => rfl

/-- When no check succeeds, the loop ends with the first error collected, or
with `ErrorNoValidSignature` when there is none. -/
theorem VerifyImageLoop_no_success {α : Type} (payload : α → Option Str)
    (EnvelopeFromBytes : Str → Option Envelope) (certOf : α → Option Certificate)
    (verifyEnvAndCert : Envelope → Certificate → Except Err (Str × TrustedBuilderID))
    (atts : List α) (errs : List Err)
    (h : ∀ x ∈ atts, ∀ r,
      attestationCheck payload EnvelopeFromBytes certOf verifyEnvAndCert x ≠ some (.ok r)) :
    VerifyImageLoop payload EnvelopeFromBytes certOf verifyEnvAndCert atts errs =
      match errs ++ failedChecks
          (attestationCheck payload EnvelopeFromBytes certOf verifyEnvAndCert) atts with
      | first :: _ => .error first
      | [] => .error Err.ErrorNoValidSignature := by
  induction atts generalizing errs with
  | nil =>
    cases errs <;> rfl
  | cons a atts ih =>
    have ih2 := fun errs => ih errs (fun x hx => h x (List.mem_cons_of_mem a hx))
    rw [VerifyImageLoop_cons]
    cases hc : attestationCheck payload EnvelopeFromBytes certOf verifyEnvAndCert a with
    | none =>
      simp only [failedChecks, hc]
      exact ih2 errs
    | some v =>
      cases v with
      | ok r => exact absurd hc (h a (List.mem_cons_self a atts) r)
      | error e =>
        simp only [failedChecks, hc]
        rw [ih2 (errs ++ [e])]
        simp

/-- The loop returns the result of the first check that succeeds. -/
theorem VerifyImageLoop_first_success {α : Type} (payload : α → Option Str)
    (EnvelopeFromBytes : Str → Option Envelope) (certOf : α → Option Certificate)
    (verifyEnvAndCert : Envelope → Certificate → Except Err (Str × TrustedBuilderID))
    (pre : List α) (a : α) (post : List α) (errs : List Err) (r : Str × TrustedBuilderID)
    (ha : attestationCheck payload EnvelopeFromBytes certOf verifyEnvAndCert a = some (.ok r))
    (h : ∀ x ∈ pre, ∀ r2,
      attestationCheck payload EnvelopeFromBytes certOf verifyEnvAndCert x ≠ some (.ok r2)) :
    VerifyImageLoop payload EnvelopeFromBytes certOf verifyEnvAndCert (pre ++ a :: post) errs =
      .ok r := by
  induction pre generalizing errs with
  | nil =>
    rw [List.nil_append, VerifyImageLoop_cons, ha]
  | cons b pre ih =>
    have ih2 := fun errs => ih errs (fun x hx => h x (List.mem_cons_of_mem b hx))
    rw [List.cons_append, VerifyImageLoop_cons]
    cases hc : attestationCheck payload EnvelopeFromBytes certOf verifyEnvAndCert b with
    | none => exact ih2 errs
    | some v =>
      cases v with
      | ok r2 => exact absurd hc (h b (List.mem_cons_self b pre) r2)
      | error e => exact ih2 (errs ++ [e])

theorem failedChecks_append_of_none {α : Type}
    (check : α → Option (Except Err (Str × TrustedBuilderID))) (pre rest : List α)
    (h : ∀ x ∈ pre, check x = none) :
    failedChecks check (pre ++ rest) = failedChecks check rest := by
  induction pre with
  | nil => rfl
  | cons b pre ih =>
    have hb := h b (List.mem_cons_self b pre)
    rw [List.cons_append]
    simp only [failedChecks, hb]
    exact ih (fun x hx => h x (List.mem_cons_of_mem b hx))

/-- C26: in `VerifyImage`, with the attestations in the order the registry
returned them and `verifyEnvAndCert` as the check of one attestation: when the
check succeeds for some attestation, the result is the provenance and builder
ID of the first such attestation, whatever attestations follow it; when it
succeeds for none and some check failed, the error is that of the first failed
check; when no check was run, the error is `ErrorNoValidSignature`. -/
theorem VerifyImage_spec {α ρ : Type} (root : ρ) (payload : α → Option Str)
    (EnvelopeFromBytes : Str → Option Envelope) (certOf : α → Option Certificate)
    (verifyEnvAndCert : Envelope → Certificate → Except Err (Str × TrustedBuilderID)) :
    (∀ (pre : List α) (a : α) (post : List α) (r : Str × TrustedBuilderID),
      attestationCheck payload EnvelopeFromBytes certOf verifyEnvAndCert a = some (.ok r) →
      (∀ x ∈ pre, ∀ r2,
        attestationCheck payload EnvelopeFromBytes certOf verifyEnvAndCert x ≠ some (.ok r2)) →
      VerifyImage (.ok root) (fun _ => .ok (pre ++ a :: post)) payload EnvelopeFromBytes certOf
        verifyEnvAndCert = .ok r) ∧
    (∀ (pre : List α) (a : α) (post : List α) (e : Err),
      (∀ x ∈ pre ++ a :: post, ∀ r,
        attestationCheck payload EnvelopeFromBytes certOf verifyEnvAndCert x ≠ some (.ok r)) →
      attestationCheck payload EnvelopeFromBytes certOf verifyEnvAndCert a = some (.error e) →
      (∀ x ∈ pre, attestationCheck payload EnvelopeFromBytes certOf verifyEnvAndCert x = none) →
      VerifyImage (.ok root) (fun _ => .ok (pre ++ a :: post)) payload EnvelopeFromBytes certOf
        verifyEnvAndCert = .error e) ∧
    (∀ atts : List α,
      (∀ x ∈ atts, attestationCheck payload EnvelopeFromBytes certOf verifyEnvAndCert x = none) →
      VerifyImage (.ok root) (fun _ => .ok atts) payload EnvelopeFromBytes certOf
        verifyEnvAndCert = .error Err.ErrorNoValidSignature) := by
  refine ⟨?_, ?_, ?_⟩
  · intro pre a post r ha hpre
    exact VerifyImageLoop_first_success payload EnvelopeFromBytes certOf verifyEnvAndCert
      pre a post [] r ha hpre
  · intro pre a post e hall ha hpre
    show VerifyImageLoop payload EnvelopeFromBytes certOf verifyEnvAndCert (pre ++ a :: post) [] =
      _
    rw [VerifyImageLoop_no_success payload EnvelopeFromBytes certOf verifyEnvAndCert _ [] hall,
      List.nil_append, failedChecks_append_of_none _ pre (a :: post) hpre]
    simp only [failedChecks, ha]
  · intro atts hall
    show VerifyImageLoop payload EnvelopeFromBytes certOf verifyEnvAndCert atts [] = _
    rw [VerifyImageLoop_no_success payload EnvelopeFromBytes certOf verifyEnvAndCert atts []
      (fun x hx r hc => by rw [hall x hx] at hc; exact Option.noConfusion hc)]
    have := failedChecks_append_of_none
      (attestationCheck payload EnvelopeFromBytes certOf verifyEnvAndCert) atts [] hall
    rw [List.append_nil] at this
    rw [List.nil_append, this]
    rfl

/-- C26, at four attestations numbered 0 to 3: the payload of 0 cannot be
read, the check of 1 fails with `ErrorMismatchSource`, the checks of 2 and 3
succeed; the result is that of 2. -/
theorem VerifyImage_spec_witness :
    VerifyImage (ρ := Unit) (.ok ()) (fun _ => .ok ([0, 1] ++ 2 :: [3]))
      (fun n : Nat => if n = 0 then none else some [Char.ofNat (48 + n)])
      (fun p => some ⟨[], p, []⟩) (fun _ => some sampleCertificate)
      (fun env _ =>
        if env.Payload = "1".toList then .error Err.ErrorMismatchSource
        else .ok (env.Payload, ⟨"https://github.com/org/builder".toList, env.Payload⟩)) =
      .ok ("2".toList, ⟨"https://github.com/org/builder".toList, "2".toList⟩) :=
  (VerifyImage_spec (ρ := Unit) () (fun n : Nat => if n = 0 then none else some [Char.ofNat (48 + n)])
    (fun p => some ⟨[], p, []⟩) (fun _ => some sampleCertificate)
    (fun env _ =>
      if env.Payload = "1".toList then .error Err.ErrorMismatchSource
      else .ok (env.Payload, ⟨"https://github.com/org/builder".toList, env.Payload⟩))).1
    [0, 1] 2 [3] _ (by decide) (by
      intro x hx r2 hc
      have h0 : x = 0 ∨ x = 1 := by
        rcases List.mem_cons.1 hx with h | h
        · exact Or.inl h
        · exact Or.inr (List.mem_singleton.1 h)
      rcases h0 with h | h
      · subst h
        exact Option.noConfusion hc
      · subst h
        exact Except.noConfusion (Option.some.inj hc))

end gha

/-! ## The claims on `verifyNpmEnvAndCert` -/

namespace gha

open utils

/-- The outcome of `verifyNpmEnvAndCert` when the trust resolution fails with
an error other than `ErrorUntrustedReusableWorkflow`. -/
theorem verifyNpmEnvAndCert_of_error (unmarshal : Asn1Unmarshal) (testingEnabled : Bool)
    (builderGitHubRunnerID : Str)
    (VerifyNpmPackageProvenance : Envelope → ProvenanceOpts → Except Err Unit)
    (env : Envelope) (cert : Certificate) (provenanceOpts : ProvenanceOpts)
    (builderOpts : Option BuilderOpts) (defaultBuilders : StrSet)
    (info : WorkflowIdentity) (e : Err)
    (hinfo : GetWorkflowInfoFromCertificate unmarshal cert = .ok info)
    (hv : VerifyBuilderIdentity testingEnabled info
      ⟨some (httpsGithubCom ++ delegatorLowPermsGenericReusableWorkflow)⟩ defaultBuilders =
        .error e)
    (he : e ≠ Err.ErrorUntrustedReusableWorkflow) :
    verifyNpmEnvAndCert unmarshal testingEnabled builderGitHubRunnerID
      VerifyNpmPackageProvenance env cert provenanceOpts builderOpts defaultBuilders =
        .error e := by
  unfold verifyNpmEnvAndCert
  rw [hinfo]
  simp only
  rw [hv]
  simp only
  rw [if_pos he]

/-- The outcome of `verifyNpmEnvAndCert` when the trust resolution returns a
builder ID: the branch of the trusted builder. -/
theorem verifyNpmEnvAndCert_of_ok (unmarshal : Asn1Unmarshal) (testingEnabled : Bool)
    (builderGitHubRunnerID : Str)
    (VerifyNpmPackageProvenance : Envelope → ProvenanceOpts → Except Err Unit)
    (env : Envelope) (cert : Certificate) (provenanceOpts : ProvenanceOpts)
    (builderOpts : Option BuilderOpts) (defaultBuilders : StrSet)
    (info : WorkflowIdentity) (b : TrustedBuilderID)
    (hinfo : GetWorkflowInfoFromCertificate unmarshal cert = .ok info)
    (hv : VerifyBuilderIdentity testingEnabled info
      ⟨some (httpsGithubCom ++ delegatorLowPermsGenericReusableWorkflow)⟩ defaultBuilders =
        .ok b) :
    verifyNpmEnvAndCert unmarshal testingEnabled builderGitHubRunnerID
      VerifyNpmPackageProvenance env cert provenanceOpts builderOpts defaultBuilders =
      match VerifyCertficateSourceRepository info provenanceOpts.ExpectedSourceURI with
      | .error e => .error e
      | .ok _ =>
        match builderOpts.bind (fun o => o.ExpectedID) with
        | none => .error Err.other
        | some expectedID =>
          match VerifyNpmPackageProvenance env
              { provenanceOpts with ExpectedBuilderID := expectedID } with
          | .error e => .error e
          | .ok _ => .ok b := by
  unfold verifyNpmEnvAndCert
  rw [hinfo]
  simp only
  rw [hv]

/-- `VerifyBuilderIdentity` fails with `ErrorInvalidOIDCIssuer` on every other
issuer than `certOidcIssuer`. -/
theorem VerifyBuilderIdentity_of_issuer (testingEnabled : Bool) (id : WorkflowIdentity)
    (opts : BuilderOpts) (d : StrSet) (h : id.Issuer ≠ certOidcIssuer) :
    VerifyBuilderIdentity testingEnabled id opts d = .error Err.ErrorInvalidOIDCIssuer := by
  unfold VerifyBuilderIdentity
  rw [if_pos h]

/-- A builder ID resolved against an expected ID without `@` has the expected
ID as its name. -/
theorem MatchesLoose_no_at (b : TrustedBuilderID) (e : Str) (allowRef : Bool)
    (he : '@' ∉ e) (h : b.MatchesLoose e allowRef = .ok ()) : b.name = e := by
  unfold TrustedBuilderID.MatchesLoose TrustedBuilderID.Matches at h
  rw [ParseBuilderID_no_at e false he, if_pos rfl] at h
  simp only at h
  by_cases hn : e = b.name
  · exact hn.symm
  · rw [if_pos hn] at h
    exact Except.noConfusion h

/-- The workflow path of an identity that `VerifyBuilderIdentity` accepts
against an expected ID `https://github.com/` followed by `w`, where `w` holds
no `@`, is `w`. -/
theorem VerifyBuilderIdentity_expected_path (testingEnabled : Bool) (id : WorkflowIdentity)
    (w : Str) (d : StrSet) (b : TrustedBuilderID) (hw : '@' ∉ w)
    (h : VerifyBuilderIdentity testingEnabled id ⟨some (httpsGithubCom ++ w)⟩ d = .ok b) :
    strings.Trim ((strings.SplitN id.SubjectWorkflowRef '@' 2).headD []) '/' = w := by
  by_cases hi : id.Issuer = certOidcIssuer
  · rcases strings.SplitN_two_cases id.SubjectWorkflowRef '@' with ⟨-, hs⟩ | ⟨p, r, hs, hp, hs2⟩
    · unfold VerifyBuilderIdentity at h
      rw [if_neg (not_not.mpr hi), hs] at h
      exact Except.noConfusion h
    · rw [VerifyBuilderIdentity_split testingEnabled id _ d p r hi hs hp] at h
      rw [hs2]
      show strings.Trim p '/' = w
      have hne : httpsGithubCom ++ w ≠ [] := by
        intro h0
        have := congrArg List.length h0
        simp [httpsGithubCom, githubCom] at this
      rcases verifyTrustedBuilderID_expected (strings.Trim p '/') (strings.Trim r '/')
        (httpsGithubCom ++ w) d hne (not_mem_Trim p hp) with ⟨-, -, hm, -⟩ | ⟨-, -, -, hx⟩ |
          ⟨-, hx⟩
      · have := MatchesLoose_no_at _ _ true (not_mem_candidate_name w hw) hm
        exact List.append_cancel_left this
      · simp only at h
        rw [hx] at h
        exact Except.noConfusion h
      · simp only at h
        rw [hx] at h
        exact Except.noConfusion h
  · rw [VerifyBuilderIdentity_of_issuer testingEnabled id _ d hi] at h
    exact Except.noConfusion h

/-- C27: in `verifyNpmEnvAndCert`, for the identity read from the certificate:
when `VerifyBuilderIdentity` against the delegator workflow fails with an error
other than `ErrorUntrustedReusableWorkflow` (`ErrorInvalidOIDCIssuer`,
`ErrorMalformedURI` and `ErrorInvalidRef` among them), `verifyNpmEnvAndCert`
returns that error; and when the issuer of the identity is not the trusted OIDC
issuer, it fails with `ErrorInvalidOIDCIssuer`, so it never succeeds. -/
theorem verifyNpmEnvAndCert_trust_errors (unmarshal : Asn1Unmarshal) (testingEnabled : Bool)
    (builderGitHubRunnerID : Str)
    (VerifyNpmPackageProvenance : Envelope → ProvenanceOpts → Except Err Unit)
    (env : Envelope) (cert : Certificate) (provenanceOpts : ProvenanceOpts)
    (builderOpts : Option BuilderOpts) (defaultBuilders : StrSet)
    (info : WorkflowIdentity)
    (hinfo : GetWorkflowInfoFromCertificate unmarshal cert = .ok info) :
    (∀ e, VerifyBuilderIdentity testingEnabled info
        ⟨some (httpsGithubCom ++ delegatorLowPermsGenericReusableWorkflow)⟩ defaultBuilders =
          .error e →
      e ≠ Err.ErrorUntrustedReusableWorkflow →
      verifyNpmEnvAndCert unmarshal testingEnabled builderGitHubRunnerID
        VerifyNpmPackageProvenance env cert provenanceOpts builderOpts defaultBuilders =
          .error e) ∧
    (∀ e, e ∈ [Err.ErrorInvalidOIDCIssuer, Err.ErrorMalformedURI, Err.ErrorInvalidRef] →
      VerifyBuilderIdentity testingEnabled info
        ⟨some (httpsGithubCom ++ delegatorLowPermsGenericReusableWorkflow)⟩ defaultBuilders =
          .error e →
      verifyNpmEnvAndCert unmarshal testingEnabled builderGitHubRunnerID
        VerifyNpmPackageProvenance env cert provenanceOpts builderOpts defaultBuilders =
          .error e) ∧
    (info.Issuer ≠ "https://token.actions.githubusercontent.com".toList →
      verifyNpmEnvAndCert unmarshal testingEnabled builderGitHubRunnerID
        VerifyNpmPackageProvenance env cert provenanceOpts builderOpts defaultBuilders =
          .error Err.ErrorInvalidOIDCIssuer ∧
      ∀ b, verifyNpmEnvAndCert unmarshal testingEnabled builderGitHubRunnerID
        VerifyNpmPackageProvenance env cert provenanceOpts builderOpts defaultBuilders ≠
          .ok b) := by
  have key := verifyNpmEnvAndCert_of_error unmarshal testingEnabled builderGitHubRunnerID
    VerifyNpmPackageProvenance env cert provenanceOpts builderOpts defaultBuilders info
  refine ⟨fun e hv he => key e hinfo hv he, ?_, ?_⟩
  · intro e hmem hv
    refine key e hinfo hv ?_
    intro h0
    rw [h0] at hmem
    revert hmem
    decide
  · intro hi
    have hi2 : info.Issuer ≠ certOidcIssuer := hi
    have hr := key Err.ErrorInvalidOIDCIssuer hinfo
      (VerifyBuilderIdentity_of_issuer testingEnabled info _ defaultBuilders hi2) (by decide)
    refine ⟨hr, ?_⟩
    intro b hb
    rw [hr] at hb
    exact Except.noConfusion hb

/-- C27, at the example certificate with the issuer `https://bad.issuer.com`:
npm verification fails with `ErrorInvalidOIDCIssuer`, although the source
repository and the expected builder ID are those of the fallback. -/
theorem verifyNpmEnvAndCert_trust_errors_witness :
    verifyNpmEnvAndCert sampleUnmarshal false sampleRunnerID (fun _ _ => .ok ())
      (mkEnvelope []) badIssuerCertificate sampleProvenanceOpts
      (some ⟨some sampleRunnerID⟩) defaultBYOBReusableWorkflows =
        .error Err.ErrorInvalidOIDCIssuer :=
  ((verifyNpmEnvAndCert_trust_errors sampleUnmarshal false sampleRunnerID (fun _ _ => .ok ())
    (mkEnvelope []) badIssuerCertificate sampleProvenanceOpts
    (some ⟨some sampleRunnerID⟩) defaultBYOBReusableWorkflows
    (identityOf { sampleValues with
        issuerV1 := "https://bad.issuer.com".toList,
        issuerV2 := "https://bad.issuer.com".toList }
      "/org/builder/.github/workflows/b.yml@refs/tags/v1.2.3".toList)
    (by decide)).2.2 (by decide)).1

/-- C28 fails on the code: for the example certificate signed by the
workflow `delegator_lowperms-generic_slsa3.yml` at `refs/tags/v1.2.3`, the
trust resolution of `verifyNpmEnvAndCert` returns a trusted builder ID, which
`verifyNpmEnvAndCert` returns, and the workflow path of the certificate is not
`delegatorGenericReusableWorkflow`, the workflow that the claim and the
comment on the branch of the trusted builder name. -/
theorem verifyNpmEnvAndCert_lowperms_delegator :
    ∃ info b,
      GetWorkflowInfoFromCertificate sampleUnmarshal
        (sampleCertificateAt ("/".toList ++ delegatorLowPermsGenericReusableWorkflow ++
          "@refs/tags/v1.2.3".toList)) = .ok info ∧
      VerifyBuilderIdentity false info
        ⟨some (httpsGithubCom ++ delegatorLowPermsGenericReusableWorkflow)⟩
        defaultBYOBReusableWorkflows = .ok b ∧
      verifyNpmEnvAndCert sampleUnmarshal false sampleRunnerID (fun _ _ => .ok ())
        (mkEnvelope [])
        (sampleCertificateAt ("/".toList ++ delegatorLowPermsGenericReusableWorkflow ++
          "@refs/tags/v1.2.3".toList))
        sampleProvenanceOpts (some ⟨some sampleRunnerID⟩) defaultBYOBReusableWorkflows =
          .ok b ∧
      strings.Trim ((strings.SplitN info.SubjectWorkflowRef '@' 2).headD []) '/' ≠
        delegatorGenericReusableWorkflow ∧
      delegatorGenericReusableWorkflow =
        "slsa-framework/slsa-github-generator/.github/workflows/delegator_generic_slsa3.yml".toList :=
  ⟨identityOf sampleValues ("/".toList ++ delegatorLowPermsGenericReusableWorkflow ++
      "@refs/tags/v1.2.3".toList),
    ⟨httpsGithubCom ++ delegatorLowPermsGenericReusableWorkflow, "refs/tags/v1.2.3".toList⟩,
    by decide, by decide, by decide, by decide, by decide⟩

/-- As the code has it: in `verifyNpmEnvAndCert`, whenever the trust resolution
returns a trusted builder ID, the function continues on the branch of the
trusted builder, and the signing workflow path taken from the certificate (the
text before the first `@` of the subject workflow ref, trimmed of `/`) is
`delegatorLowPermsGenericReusableWorkflow`, that is
`slsa-framework/slsa-github-generator/.github/workflows/delegator_lowperms-generic_slsa3.yml`,
the workflow the identity was compared against. -/
theorem verifyNpmEnvAndCert_trusted_delegator (unmarshal : Asn1Unmarshal)
    (testingEnabled : Bool) (builderGitHubRunnerID : Str)
    (VerifyNpmPackageProvenance : Envelope → ProvenanceOpts → Except Err Unit)
    (env : Envelope) (cert : Certificate) (provenanceOpts : ProvenanceOpts)
    (builderOpts : Option BuilderOpts) (defaultBuilders : StrSet)
    (info : WorkflowIdentity) (b : TrustedBuilderID)
    (hinfo : GetWorkflowInfoFromCertificate unmarshal cert = .ok info)
    (hb : VerifyBuilderIdentity testingEnabled info
      ⟨some (httpsGithubCom ++ delegatorLowPermsGenericReusableWorkflow)⟩ defaultBuilders =
        .ok b) :
    strings.Trim ((strings.SplitN info.SubjectWorkflowRef '@' 2).headD []) '/' =
      "slsa-framework/slsa-github-generator/.github/workflows/delegator_lowperms-generic_slsa3.yml".toList ∧
    verifyNpmEnvAndCert unmarshal testingEnabled builderGitHubRunnerID
      VerifyNpmPackageProvenance env cert provenanceOpts builderOpts defaultBuilders =
      match VerifyCertficateSourceRepository info provenanceOpts.ExpectedSourceURI with
      | .error e => .error e
      | .ok _ =>
        match builderOpts.bind (fun o => o.ExpectedID) with
        | none => .error Err.other
        | some expectedID =>
          match VerifyNpmPackageProvenance env
              { provenanceOpts with ExpectedBuilderID := expectedID } with
          | .error e => .error e
          | .ok _ => .ok b :=
  ⟨VerifyBuilderIdentity_expected_path testingEnabled info
      delegatorLowPermsGenericReusableWorkflow defaultBuilders b (by decide) hb,
    verifyNpmEnvAndCert_of_ok unmarshal testingEnabled builderGitHubRunnerID
      VerifyNpmPackageProvenance env cert provenanceOpts builderOpts defaultBuilders info b
      hinfo hb⟩

/-- At the example certificate signed by the workflow
`delegator_lowperms-generic_slsa3.yml` at `refs/tags/v1.2.3`. -/
theorem verifyNpmEnvAndCert_trusted_delegator_witness :
    strings.Trim ((strings.SplitN
        (identityOf sampleValues ("/".toList ++ delegatorLowPermsGenericReusableWorkflow ++
          "@refs/tags/v1.2.3".toList)).SubjectWorkflowRef '@' 2).headD []) '/' =
      "slsa-framework/slsa-github-generator/.github/workflows/delegator_lowperms-generic_slsa3.yml".toList :=
  (verifyNpmEnvAndCert_trusted_delegator sampleUnmarshal false sampleRunnerID
    (fun _ _ => .ok ()) (mkEnvelope [])
    (sampleCertificateAt ("/".toList ++ delegatorLowPermsGenericReusableWorkflow ++
      "@refs/tags/v1.2.3".toList))
    sampleProvenanceOpts (some ⟨some sampleRunnerID⟩) defaultBYOBReusableWorkflows
    (identityOf sampleValues ("/".toList ++ delegatorLowPermsGenericReusableWorkflow ++
      "@refs/tags/v1.2.3".toList))
    ⟨httpsGithubCom ++ delegatorLowPermsGenericReusableWorkflow, "refs/tags/v1.2.3".toList⟩
    (by decide) (by decide)).1

end gha

/-! ## The claim on `verifyPublishAttestationSubjectDigest` -/

namespace gha

/-- The loop over the subjects finds a match exactly when some subject holds
the expected hash under the expected algorithm. -/
theorem digestLoop_iff (expectedAlgo expectedHash : Str) (subjects : List Subject) :
    digestLoop expectedAlgo expectedHash subjects = true ↔
      ∃ s ∈ subjects, s.Digest.lookup expectedAlgo = some expectedHash := by
  induction subjects with
  | nil =>
    constructor
    · intro h
      exact Bool.noConfusion h
    · rintro ⟨s, hs, -⟩
      exact absurd hs (List.not_mem_nil s)
  | cons a rest ih =>
    rw [digestLoop]
    cases hl : a.Digest.lookup expectedAlgo with
    | none =>
      simp only
      rw [ih]
      constructor
      · rintro ⟨s, hs, h⟩
        exact ⟨s, List.mem_cons_of_mem a hs, h⟩
      · rintro ⟨s, hs, h⟩
        rcases List.mem_cons.1 hs with e | e
        · rw [e, hl] at h
          exact Option.noConfusion h
        · exact ⟨s, e, h⟩
    | some hash =>
      simp only
      by_cases hh : hash = expectedHash
      · rw [if_pos hh]
        constructor
        · intro _
          exact ⟨a, List.mem_cons_self a rest, by rw [hl, hh]⟩
        · intro _
          rfl
      · rw [if_neg hh, ih]
        constructor
        · rintro ⟨s, hs, h⟩
          exact ⟨s, List.mem_cons_of_mem a hs, h⟩
        · rintro ⟨s, hs, h⟩
          rcases List.mem_cons.1 hs with e | e
          · rw [e, hl] at h
            exact absurd (Option.some.inj h) hh
          · exact ⟨s, e, h⟩

/-- The bytes of a string of one-byte characters are its characters. -/
theorem len_eq_length (s : Str) (h : ∀ c ∈ s, c.toNat < 128) : len s = s.length := by
  induction s with
  | nil => rfl
  | cons a s ih =>
    have ha : a.toNat < 128 := h a (List.mem_cons_self a s)
    have h1 : Char.utf8Size a = 1 := by
      unfold Char.utf8Size
      have h2 : a.val ≤ UInt32.ofNatCore 127 (by decide) := by
        show a.val.toNat ≤ 127
        have : a.val.toNat = a.toNat := rfl
        omega
      rw [if_pos h2]
    have h3 := ih (fun c hc => h c (List.mem_cons_of_mem a hc))
    unfold len at h3 ⊢
    rw [List.map_cons, List.sum_cons, h1, h3, List.length_cons]
    omega

/-- C29: for a publish attestation whose payload decodes to at least one
subject, `verifyPublishAttestationSubjectDigest` on `expectedHash` fails with
`ErrorInvalidHash` when `expectedHash` has fewer than 64 characters (its length
`len expectedHash`, which counts bytes; for a string of one-byte characters,
as a hexadecimal digest is, the number of its characters); otherwise it
succeeds if and only if the digest set of some subject holds, under the key
`sha` followed by the decimal value of 4 times the length of `expectedHash`, a
value equal to `expectedHash`; and otherwise it fails with
`ErrorMismatchHash`. -/
theorem verifyPublishAttestationSubjectDigest_spec
    (decodeSubjects : Str → Option (List Subject)) (att : SignedAttestation)
    (subjects : List Subject) (expectedHash : Str)
    (hd : decodeSubjects att.Envelope.Payload = some subjects) (hne : subjects ≠ []) :
    (len expectedHash < 64 →
      verifyPublishAttestationSubjectDigest decodeSubjects att expectedHash =
        .error Err.ErrorInvalidHash) ∧
    (64 ≤ len expectedHash →
      (verifyPublishAttestationSubjectDigest decodeSubjects att expectedHash = .ok () ↔
        ∃ s ∈ subjects,
          s.Digest.lookup ("sha".toList ++ (Nat.repr (4 * len expectedHash)).toList) =
            some expectedHash) ∧
      ((¬ ∃ s ∈ subjects,
          s.Digest.lookup ("sha".toList ++ (Nat.repr (4 * len expectedHash)).toList) =
            some expectedHash) →
        verifyPublishAttestationSubjectDigest decodeSubjects att expectedHash =
          .error Err.ErrorMismatchHash)) ∧
    ((∀ c ∈ expectedHash, c.toNat < 128) → len expectedHash = expectedHash.length) := by
  have hsub : subjectsFromAttestation decodeSubjects att = .ok subjects := by
    unfold subjectsFromAttestation
    rw [hd]
    simp only
    rw [if_neg (length_ne_zero_of_ne_nil subjects hne)]
  have hmul : len expectedHash * 4 = 4 * len expectedHash := Nat.mul_comm _ _
  refine ⟨?_, ?_, len_eq_length expectedHash⟩
  · intro hlt
    unfold verifyPublishAttestationSubjectDigest
    rw [hsub]
    simp only
    rw [hmul]
    have h2 : 4 * len expectedHash < 256 := by omega
    rw [if_pos h2]
  · intro hge
    unfold verifyPublishAttestationSubjectDigest
    rw [hsub]
    simp only
    rw [hmul]
    have h2 : ¬ 4 * len expectedHash < 256 := by omega
    rw [if_neg h2]
    generalize "sha".toList ++ (Nat.repr (4 * len expectedHash)).toList = algo
    have hiff := digestLoop_iff algo expectedHash subjects
    constructor
    · constructor
      · intro h
        by_cases hl : digestLoop algo expectedHash subjects = true
        · exact hiff.1 hl
        · rw [if_neg hl] at h
          exact Except.noConfusion h
      · intro h
        rw [if_pos (hiff.2 h)]
    · intro h
      rw [if_neg (fun hl => h (hiff.1 hl))]

/-- C29, at an attestation with the two subjects `pkg`, whose digest set holds
`sampleHash` under `sha512` in upper case and under `sha256`: the hash of 64
characters is accepted. -/
theorem verifyPublishAttestationSubjectDigest_spec_witness :
    verifyPublishAttestationSubjectDigest
      (fun _ => some [⟨"pkg".toList, [("sha512".toList, sampleHash.map Char.toUpper)]⟩,
        ⟨"pkg".toList, [("sha256".toList, sampleHash)]⟩])
      (mkAttestation "e30=".toList) sampleHash = .ok () :=
  ((verifyPublishAttestationSubjectDigest_spec
    (fun _ => some [⟨"pkg".toList, [("sha512".toList, sampleHash.map Char.toUpper)]⟩,
      ⟨"pkg".toList, [("sha256".toList, sampleHash)]⟩])
    (mkAttestation "e30=".toList)
    [⟨"pkg".toList, [("sha512".toList, sampleHash.map Char.toUpper)]⟩,
      ⟨"pkg".toList, [("sha256".toList, sampleHash)]⟩]
    sampleHash rfl (by decide)).2.1 (by decide)).1.2
    ⟨⟨"pkg".toList, [("sha256".toList, sampleHash)]⟩, by decide, by decide⟩

/-- The length of a hash counts bytes: a hash of 32 characters of two bytes
each passes the length test and is looked up under `sha256`. -/
theorem verifyPublishAttestationSubjectDigest_two_byte_characters :
    (List.replicate 32 'é').length = 32 ∧ len (List.replicate 32 'é') = 64 ∧
    verifyPublishAttestationSubjectDigest
      (fun _ => some [⟨"pkg".toList, [("sha256".toList, List.replicate 32 'é')]⟩])
      (mkAttestation "e30=".toList) (List.replicate 32 'é') = .ok () := by
  decide

end gha

/-! ## The claim on `getDefaultCosignCheckOpts` -/

namespace gha

/-- C30 fails on the code: a first call of `getDefaultCosignCheckOpts` in which
one of the four fetches fails does not return.  The function literal resets
`defaultCosignCheckOptsOnce` while its own `Do` is running, so the deferred
`done.Store(1)` of that `Do` marks the fresh guard as done and the deferred
`Unlock` meets a mutex that is not locked, which is a fatal error.  With the
guard left done and the cache unchanged, a later call, whatever its fetches
would give, would run no initialization and return the unchanged cache with a
nil error. -/
theorem getDefaultCosignCheckOpts_failed_init (f g : Fetches) (cache : Option CheckOpts)
    (h : f.rootCerts = none ∨ f.intermediateCerts = none ∨ f.rekorPubKeys = none ∨
      f.ctPubKeys = none) :
    getDefaultCosignCheckOpts f ⟨cache, ⟨false, false⟩⟩ =
      (CallEnd.fatal, ⟨cache, ⟨true, false⟩⟩) ∧
    getDefaultCosignCheckOpts g ⟨cache, ⟨true, false⟩⟩ =
      (CallEnd.returned cache none, ⟨cache, ⟨true, false⟩⟩) := by
  refine ⟨?_, rfl⟩
  obtain ⟨a, b, c, d⟩ := f
  cases a with
  | none => rfl
  | some a =>
    cases b with
    | none => rfl
    | some b =>
      cases c with
      | none => rfl
      | some c =>
        cases d with
        | none => rfl
        | some d =>
          rcases h with h | h | h | h <;> exact Option.noConfusion h

/-- C30, at a fresh process whose first fetch, `fulcioroots.Get`, fails, and a
second call whose four fetches would succeed. -/
theorem getDefaultCosignCheckOpts_failed_init_witness :
    getDefaultCosignCheckOpts ⟨none, some "i".toList, some "r".toList, some "c".toList⟩
        ⟨none, ⟨false, false⟩⟩ = (CallEnd.fatal, ⟨none, ⟨true, false⟩⟩) ∧
    getDefaultCosignCheckOpts
        ⟨some "f".toList, some "i".toList, some "r".toList, some "c".toList⟩
        ⟨none, ⟨true, false⟩⟩ = (CallEnd.returned none none, ⟨none, ⟨true, false⟩⟩) :=
  getDefaultCosignCheckOpts_failed_init
    ⟨none, some "i".toList, some "r".toList, some "c".toList⟩
    ⟨some "f".toList, some "i".toList, some "r".toList, some "c".toList⟩ none (Or.inl rfl)

end gha

namespace gha

/-- A first call whose four fetches succeed returns the populated options and
leaves the guard done and unlocked. -/
theorem getDefaultCosignCheckOpts_success (a b c d : Str) :
    getDefaultCosignCheckOpts ⟨some a, some b, some c, some d⟩ ⟨none, ⟨false, false⟩⟩ =
      (CallEnd.returned (some ⟨a, b, c, d⟩) none, ⟨some ⟨a, b, c, d⟩, ⟨true, false⟩⟩) :=
  rfl

end gha

/-! ## The claim on `VerifyCertficateSourceRepository` -/

namespace strings

/-- The result of `TrimPrefix` is the string with a leading `pre` removed, if
there is one. -/
theorem TrimPrefix_of_removesLeading (pre s t : Str) (h : removesLeading pre s t) :
    TrimPrefix s pre = t := by
  rcases h with ⟨rest, hs, ht⟩ | ⟨hn, ht⟩
  · rw [hs, ht]
    exact TrimPrefix_append pre rest
  · have hp : HasPrefix s pre = false := by
      cases hh : HasPrefix s pre with
      | false => rfl
      | true =>
        obtain ⟨r, hr⟩ := (HasPrefix_iff s pre).mp hh
        exact absurd hr (hn r)
    rw [ht]
    unfold TrimPrefix
    rw [hp]
    rfl

theorem removesLeading_TrimPrefix (pre s : Str) : removesLeading pre s (TrimPrefix s pre) := by
  cases hh : HasPrefix s pre with
  | false =>
    right
    refine ⟨?_, ?_⟩
    · intro rest e
      have := (HasPrefix_iff s pre).mpr ⟨rest, e⟩
      rw [hh] at this
      exact Bool.noConfusion this
    · unfold TrimPrefix
      rw [hh]
      rfl
  | true =>
    left
    obtain ⟨r, hr⟩ := (HasPrefix_iff s pre).mp hh
    exact ⟨r, hr, by rw [hr]; exact TrimPrefix_append pre r⟩

end strings

namespace gha

open utils

/-- The name of an owner holds letters, digits and hyphens only. -/
theorem not_mem_of_isOwnerName (o : Str) (c : Char) (h : isOwnerName o = true)
    (hc : (c.isAlphanum || c == '-') = false) : c ∉ o := by
  intro hm
  unfold isOwnerName at h
  have h2 : o.all (fun c => c.isAlphanum || c == '-') = true := by
    cases h3 : o.all (fun c => c.isAlphanum || c == '-') with
    | true => rfl
    | false =>
      rw [h3, Bool.and_false] at h
      exact Bool.noConfusion h
  have h4 := List.all_eq_true.mp h2 c hm
  rw [hc] at h4
  exact Bool.noConfusion h4

/-- Outside the repositories that a certificate carries, which are
unqualified: for the repository `github.com/r`, the expected source
`github.com/r` is rejected with `ErrorMismatchSource`, because its leading
`github.com/` is removed before the comparison. -/
theorem VerifyCertficateSourceRepository_owner_github_com :
    VerifyCertficateSourceRepository (mkIdentity "github.com/r".toList [] [])
      "github.com/r".toList = .error Err.ErrorMismatchSource := by
  decide

/-- C31: `VerifyCertficateSourceRepository id source` succeeds if and only if
`id.SourceRepository` equals `source` after removing from it a leading
`git+https://` (if present) and then a leading `github.com/` (if present), and
fails with `ErrorMismatchSource` otherwise.  In particular, for a certificate
repository `o/r`, unqualified as a certificate carries it (`o` the name of a
GitHub owner; more generally a repository that does not itself begin with
`git+https://` or `github.com/`), the expected sources `o/r`,
`github.com/o/r` and `git+https://github.com/o/r` are all accepted. -/
theorem VerifyCertficateSourceRepository_spec (id : WorkflowIdentity) (source s1 s2 : Str)
    (h1 : removesLeading "git+https://".toList source s1)
    (h2 : removesLeading "github.com/".toList s1 s2) :
    (VerifyCertficateSourceRepository id source = .ok () ↔ id.SourceRepository = s2) ∧
    (id.SourceRepository ≠ s2 →
      VerifyCertficateSourceRepository id source = .error Err.ErrorMismatchSource) ∧
    (((∀ rest, id.SourceRepository ≠ "git+https://".toList ++ rest) ∧
        (∀ rest, id.SourceRepository ≠ "github.com/".toList ++ rest)) →
      VerifyCertficateSourceRepository id id.SourceRepository = .ok ()) ∧
    VerifyCertficateSourceRepository id ("github.com/".toList ++ id.SourceRepository) =
      .ok () ∧
    VerifyCertficateSourceRepository id
      ("git+https://github.com/".toList ++ id.SourceRepository) = .ok () ∧
    (∀ o r : Str, isOwnerName o = true → id.SourceRepository = o ++ '/' :: r →
      VerifyCertficateSourceRepository id (o ++ '/' :: r) = .ok () ∧
      VerifyCertficateSourceRepository id ("github.com/".toList ++ (o ++ '/' :: r)) = .ok () ∧
      VerifyCertficateSourceRepository id
        ("git+https://github.com/".toList ++ (o ++ '/' :: r)) = .ok ()) := by
  have key : ∀ src t1 t2, removesLeading "git+https://".toList src t1 →
      removesLeading "github.com/".toList t1 t2 →
      VerifyCertficateSourceRepository id src =
        if id.SourceRepository ≠ t2 then .error Err.ErrorMismatchSource else .ok () := by
    intro src t1 t2 k1 k2
    unfold VerifyCertficateSourceRepository
    simp only
    rw [strings.TrimPrefix_of_removesLeading _ _ _ k1]
    have k3 : strings.TrimPrefix t1 githubCom = t2 :=
      strings.TrimPrefix_of_removesLeading _ _ _ k2
    rw [k3]
  have hno : ∀ rest : Str, "github.com/".toList ++ id.SourceRepository ≠
      "git+https://".toList ++ rest := by
    intro rest e
    have e2 := congrArg (fun l => l.get? 3) e
    simp at e2
  have bare : ((∀ rest, id.SourceRepository ≠ "git+https://".toList ++ rest) ∧
      (∀ rest, id.SourceRepository ≠ "github.com/".toList ++ rest)) →
      VerifyCertficateSourceRepository id id.SourceRepository = .ok () := by
    rintro ⟨n1, n2⟩
    rw [key id.SourceRepository id.SourceRepository id.SourceRepository
      (Or.inr ⟨n1, rfl⟩) (Or.inr ⟨n2, rfl⟩), if_neg (not_not.mpr rfl)]
  have qualified1 : VerifyCertficateSourceRepository id
      ("github.com/".toList ++ id.SourceRepository) = .ok () := by
    rw [key ("github.com/".toList ++ id.SourceRepository)
      ("github.com/".toList ++ id.SourceRepository) id.SourceRepository
      (Or.inr ⟨hno, rfl⟩) (Or.inl ⟨_, rfl, rfl⟩), if_neg (not_not.mpr rfl)]
  have qualified2 : VerifyCertficateSourceRepository id
      ("git+https://github.com/".toList ++ id.SourceRepository) = .ok () := by
    rw [key ("git+https://github.com/".toList ++ id.SourceRepository)
      ("github.com/".toList ++ id.SourceRepository) id.SourceRepository
      (Or.inl ⟨_, rfl, rfl⟩) (Or.inl ⟨_, rfl, rfl⟩), if_neg (not_not.mpr rfl)]
  refine ⟨?_, ?_, bare, qualified1, qualified2, ?_⟩
  · rw [key source s1 s2 h1 h2]
    by_cases hs : id.SourceRepository = s2
    · rw [if_neg (not_not.mpr hs)]
      exact ⟨fun _ => hs, fun _ => rfl⟩
    · rw [if_pos hs]
      exact ⟨fun h => Except.noConfusion h, fun h => absurd h hs⟩
  · intro hs
    rw [key source s1 s2 h1 h2, if_pos hs]
  · intro o r ho hr
    have hslash : '/' ∉ o := not_mem_of_isOwnerName o '/' ho (by decide)
    have n1 : ∀ rest, id.SourceRepository ≠ "git+https://".toList ++ rest := by
      intro rest e
      rw [hr] at e
      have e2 : o ++ '/' :: r = "git+https:".toList ++ '/' :: ('/' :: rest) := e
      have e3 := (strings.append_sep_inj o r _ _ '/' e2 hslash (by decide)).1
      rw [e3] at ho
      exact absurd ho (by decide)
    have n2 : ∀ rest, id.SourceRepository ≠ "github.com/".toList ++ rest := by
      intro rest e
      rw [hr] at e
      have e2 : o ++ '/' :: r = "github.com".toList ++ '/' :: rest := e
      have e3 := (strings.append_sep_inj o r _ _ '/' e2 hslash (by decide)).1
      rw [e3] at ho
      exact absurd ho (by decide)
    rw [← hr]
    exact ⟨bare ⟨n1, n2⟩, qualified1, qualified2⟩

/-- C31, at the certificate repository `octo/repo` and its three expected
sources. -/
theorem VerifyCertficateSourceRepository_spec_witness :
    VerifyCertficateSourceRepository (mkIdentity "octo/repo".toList [] [])
      ("octo".toList ++ '/' :: "repo".toList) = .ok () ∧
    VerifyCertficateSourceRepository (mkIdentity "octo/repo".toList [] [])
      ("github.com/".toList ++ ("octo".toList ++ '/' :: "repo".toList)) = .ok () ∧
    VerifyCertficateSourceRepository (mkIdentity "octo/repo".toList [] [])
      ("git+https://github.com/".toList ++ ("octo".toList ++ '/' :: "repo".toList)) = .ok () :=
  (VerifyCertficateSourceRepository_spec (mkIdentity "octo/repo".toList [] [])
    "git+https://github.com/octo/repo".toList "github.com/octo/repo".toList
    "octo/repo".toList (Or.inl ⟨_, rfl, rfl⟩) (Or.inl ⟨_, rfl, rfl⟩)).2.2.2.2.2
    "octo".toList "repo".toList (by decide) rfl

end gha

/-! ## The claims on the envelope matching, continued -/

namespace gha

/-- C34: `matchRekorEntryWithEnvelope` fails with `ErrorNoSignatures` for every
envelope with an empty signature list, whatever the log entry is: its kind,
its version and its body are not looked at. -/
theorem matchRekorEntryWithEnvelope_no_signatures (c : Codecs) (tlogEntry : TransparencyLogEntry)
    (env : Envelope) (h : env.Signatures = []) :
    matchRekorEntryWithEnvelope c tlogEntry env = .returned (.error Err.ErrorNoSignatures) ∧
    matchRekorEntryWithEnvelope c tlogEntry env ≠ .returned (.ok ()) := by
  have h1 : matchRekorEntryWithEnvelope c tlogEntry env =
      .returned (.error Err.ErrorNoSignatures) := by
    unfold matchRekorEntryWithEnvelope
    rw [h]
    rfl
  refine ⟨h1, ?_⟩
  rw [h1]
  exact fun e => Except.noConfusion (Run.returned.inj e)

/-- C34, at a `dsse` 0.0.1 entry whose body records zero signatures, at an
entry without kind and version, and an envelope without signatures. -/
theorem matchRekorEntryWithEnvelope_no_signatures_witness :
    recordedSignatures sampleCodecs (mkEntry "dsse".toList "0.0.1".toList []) = some [] ∧
    matchRekorEntryWithEnvelope sampleCodecs (mkEntry "dsse".toList "0.0.1".toList [])
      (mkEnvelope []) = .returned (.error Err.ErrorNoSignatures) ∧
    matchRekorEntryWithEnvelope sampleCodecs (mkEntryWithoutKind []) (mkEnvelope []) =
      .returned (.error Err.ErrorNoSignatures) :=
  ⟨by decide,
    (matchRekorEntryWithEnvelope_no_signatures sampleCodecs
      (mkEntry "dsse".toList "0.0.1".toList []) (mkEnvelope []) rfl).1,
    (matchRekorEntryWithEnvelope_no_signatures sampleCodecs
      (mkEntryWithoutKind []) (mkEnvelope []) rfl).1⟩

/-- Against recorded items that all carry their signature, the outcome of the
loop over the envelope signatures depends on the recorded signatures and on
the signature values of the envelope as sets. -/
theorem matchSignatures_congr (encode : Str → Str) (C1 C2 : List Str)
    (sigs1 sigs2 : List Signature) (hC : ∀ x, x ∈ C1 ↔ x ∈ C2)
    (hS : ∀ x, x ∈ sigs1.map (fun s => s.Sig) ↔ x ∈ sigs2.map (fun s => s.Sig)) :
    matchSignatures encode (C1.map some) sigs1 = matchSignatures encode (C2.map some) sigs2 := by
  have tr : ∀ (A B : List Str) (l1 l2 : List Signature), (∀ x, x ∈ A ↔ x ∈ B) →
      (∀ x, x ∈ l1.map (fun s => s.Sig) ↔ x ∈ l2.map (fun s => s.Sig)) →
      (∀ s ∈ l1, encode s.Sig ∈ A) → ∀ s ∈ l2, encode s.Sig ∈ B := by
    intro A B l1 l2 hAB hl hall s hs
    have h1 : s.Sig ∈ l2.map (fun s => s.Sig) := List.mem_map.2 ⟨s, hs, rfl⟩
    obtain ⟨s0, hs0, e0⟩ := List.mem_map.1 ((hl s.Sig).2 h1)
    have h2 := hall s0 hs0
    have e1 : s0.Sig = s.Sig := e0
    rw [e1] at h2
    exact (hAB _).1 h2
  rcases matchSignatures_cases encode C1 sigs1 with ⟨a1, r1⟩ | ⟨a1, r1⟩ <;>
    rcases matchSignatures_cases encode C2 sigs2 with ⟨a2, r2⟩ | ⟨a2, r2⟩
  · rw [r1, r2]
  · exfalso
    obtain ⟨s, hs, hn⟩ := a2
    exact hn (tr C1 C2 sigs1 sigs2 hC hS a1 s hs)
  · exfalso
    obtain ⟨s, hs, hn⟩ := a1
    exact hn (tr C2 C1 sigs2 sigs1 (fun x => (hC x).symm) (fun x => (hS x).symm) a2 s hs)
  · rw [r1, r2]

/-- The two matching functions on entries and envelopes whose recorded
signatures, all present, and whose signature values are permutations of each
other. -/
theorem matchRekorEntry_perm (encode : Str → Str) (r1 r2 : Option (List (Option Str)))
    (sigs1 sigs2 : List Signature)
    (hsig : (sigs1.map (fun s => s.Sig)).Perm (sigs2.map (fun s => s.Sig))) :
    ((r1 = none ∧ r2 = none) ∨
      ∃ l1 l2 : List Str, r1 = some (l1.map some) ∧ r2 = some (l2.map some) ∧ l1.Perm l2) →
    (match r1 with
      | none => (.returned (.error Err.ErrorParsingEntryBody) : Run (Except Err Unit))
      | some signatures =>
        if sigs1.length ≠ signatures.length then .returned (.error Err.ErrorUnequalSignatures)
        else matchSignatures encode signatures sigs1) =
    (match r2 with
      | none => (.returned (.error Err.ErrorParsingEntryBody) : Run (Except Err Unit))
      | some signatures =>
        if sigs2.length ≠ signatures.length then .returned (.error Err.ErrorUnequalSignatures)
        else matchSignatures encode signatures sigs2) := by
  have hlen : sigs1.length = sigs2.length := by
    have := hsig.length_eq
    simpa using this
  rintro (⟨e1, e2⟩ | ⟨l1, l2, e1, e2, hp⟩)
  · rw [e1, e2]
  · rw [e1, e2]
    simp only [List.length_map]
    rw [hlen, hp.length_eq,
      matchSignatures_congr encode l1 l2 sigs1 sigs2 (fun x => hp.mem_iff)
        (fun x => hsig.mem_iff)]

/-- When every recorded item carries its signature, the outcome of
`matchRekorEntryWithEnvelope` is the same for two log entries of the same kind
and version whose recorded signatures are permutations of each other (or whose
bodies both fail to decode), and two envelopes whose signature values are
permutations of each other, whatever the key IDs of the envelope signatures
are. -/
theorem matchRekorEntryWithEnvelope_perm (c : Codecs) (e1 e2 : TransparencyLogEntry)
    (env1 env2 : Envelope) (hk : e1.KindVersion = e2.KindVersion)
    (hrec : (recordedSignatures c e1 = none ∧ recordedSignatures c e2 = none) ∨
      ∃ l1 l2 : List Str, recordedSignatures c e1 = some (l1.map some) ∧
        recordedSignatures c e2 = some (l2.map some) ∧ l1.Perm l2)
    (hsig : (env1.Signatures.map (fun s => s.Sig)).Perm
      (env2.Signatures.map (fun s => s.Sig))) :
    matchRekorEntryWithEnvelope c e1 env1 = matchRekorEntryWithEnvelope c e2 env2 := by
  have hlen : env1.Signatures.length = env2.Signatures.length := by
    have := hsig.length_eq
    simpa using this
  unfold matchRekorEntryWithEnvelope
  rw [hlen]
  by_cases h0 : env2.Signatures.length = 0
  · rw [if_pos h0, if_pos h0]
  · rw [if_neg h0, if_neg h0]
    unfold recordedSignatures at hrec
    rw [hk] at hrec ⊢
    cases hkv : e2.KindVersion with
    | none => rfl
    | some kv =>
      rw [hkv] at hrec
      simp only
      by_cases hi : kv.Kind = "intoto".toList ∧ kv.Version = "0.0.2".toList
      · rw [if_pos hi, if_pos hi]
        have ei := (kindVersion_eq_iff kv _ _).mpr hi
        rw [if_pos ei, if_pos ei] at hrec
        unfold matchRekorEntryWithEnvelopeIntotov002
        exact matchRekorEntry_perm c.base64Encode _ _ _ _ hsig hrec
      · rw [if_neg hi, if_neg hi]
        have ei : ¬ (some kv = some (⟨"intoto".toList, "0.0.2".toList⟩ : KindVersion)) :=
          fun e => hi ((kindVersion_eq_iff kv _ _).mp e)
        rw [if_neg ei, if_neg ei] at hrec
        by_cases hd : kv.Kind = "dsse".toList ∧ kv.Version = "0.0.1".toList
        · rw [if_pos hd, if_pos hd]
          have ed := (kindVersion_eq_iff kv _ _).mpr hd
          rw [if_pos ed, if_pos ed] at hrec
          unfold matchRekorEntryWithEnvelopeDSSEv001
          exact matchRekorEntry_perm (fun s => s) _ _ _ _ hsig hrec
        · rw [if_neg hd, if_neg hd]

/-- At two `dsse` 0.0.1 entries that record `QQ==` and `Qg==` in the two
orders, and two envelopes that carry the two signatures in the two orders, one
with key IDs and one without. -/
theorem matchRekorEntryWithEnvelope_perm_witness :
    matchRekorEntryWithEnvelope sampleCodecs
        (mkEntry "dsse".toList "0.0.1".toList "QQ==,Qg==".toList)
        ⟨[], [], [⟨"key1".toList, "QQ==".toList⟩, ⟨"key2".toList, "Qg==".toList⟩]⟩ =
      matchRekorEntryWithEnvelope sampleCodecs
        (mkEntry "dsse".toList "0.0.1".toList "Qg==,QQ==".toList)
        (mkEnvelope ["Qg==".toList, "QQ==".toList]) ∧
    matchRekorEntryWithEnvelope sampleCodecs
        (mkEntry "dsse".toList "0.0.1".toList "Qg==,QQ==".toList)
        (mkEnvelope ["Qg==".toList, "QQ==".toList]) = .returned (.ok ()) :=
  ⟨matchRekorEntryWithEnvelope_perm sampleCodecs
      (mkEntry "dsse".toList "0.0.1".toList "QQ==,Qg==".toList)
      (mkEntry "dsse".toList "0.0.1".toList "Qg==,QQ==".toList)
      ⟨[], [], [⟨"key1".toList, "QQ==".toList⟩, ⟨"key2".toList, "Qg==".toList⟩]⟩
      (mkEnvelope ["Qg==".toList, "QQ==".toList]) rfl
      (Or.inr ⟨["QQ==".toList, "Qg==".toList], ["Qg==".toList, "QQ==".toList],
        by decide, by decide, List.Perm.swap _ _ _⟩)
      (List.Perm.swap _ _ _),
    by decide⟩

/-- C35 fails on the code when a recorded item carries no signature: the
function literal given to `slices.ContainsFunc` dereferences the signature of
each recorded item it is given, up to the first item that matches.  For the
envelope that carries `QQ==` twice, the `dsse` 0.0.1 entry that records `QQ==`
and then an item without signature matches, and the entry that records the
same two items in the other order ends in a nil pointer dereference. -/
theorem matchRekorEntryWithEnvelope_recorded_order :
    recordedSignatures sampleCodecs
        (mkEntry "dsse".toList "0.0.1".toList "QQ==,null".toList) =
      some [some "QQ==".toList, none] ∧
    recordedSignatures sampleCodecs
        (mkEntry "dsse".toList "0.0.1".toList "null,QQ==".toList) =
      some [none, some "QQ==".toList] ∧
    [some "QQ==".toList, none].Perm [none, some "QQ==".toList] ∧
    matchRekorEntryWithEnvelope sampleCodecs
        (mkEntry "dsse".toList "0.0.1".toList "QQ==,null".toList)
        (mkEnvelope ["QQ==".toList, "QQ==".toList]) = .returned (.ok ()) ∧
    matchRekorEntryWithEnvelope sampleCodecs
        (mkEntry "dsse".toList "0.0.1".toList "null,QQ==".toList)
        (mkEnvelope ["QQ==".toList, "QQ==".toList]) = Run.nilDereference :=
  ⟨by decide, by decide, List.Perm.swap _ _ _, by decide, by decide⟩

end gha

/-! ## The ref policy and the privilege of the source repository -/

namespace gha

open utils

/-- The privileged branch of the ref policy accepts every ref
`refs/tags/vX.Y.Z`. -/
theorem verifyTrustedBuilderRef_privileged_full (id : WorkflowIdentity)
    (h : id.SourceRepository = trustedBuilderRepository ∨
      id.SourceRepository = e2eTestRepository) (ref : Str) (hf : isFullVersionRef ref) :
    verifyTrustedBuilderRef true id ref = .ok () := by
  obtain ⟨x, y, z, nx, ny, nz, e⟩ := hf
  have hfull := (semver.fullTag_iff (versionTag x y z)).mpr ⟨x, y, z, nx, ny, nz, rfl⟩
  obtain ⟨hv, hl, -, hb⟩ := hfull
  have hdash : '-' ∉ versionTag x y z := by
    have h1 := semver.not_mem_of_isNumber x '-' nx (by decide)
    have h2 := semver.not_mem_of_isNumber y '-' ny (by decide)
    have h3 := semver.not_mem_of_isNumber z '-' nz (by decide)
    simp [versionTag, h1, h2, h3]
  have hcore : (strings.Split (versionTag x y z) '-').headD [] = versionTag x y z := by
    rw [strings.Split_of_not_mem _ _ hdash]
    rfl
  unfold verifyTrustedBuilderRef
  rw [if_pos ⟨h, rfl⟩]
  by_cases hm : ref = "refs/heads/main".toList
  · rw [if_pos hm]
  · rw [if_neg hm, e, TagFromGitHubRef_append]
    simp only
    rw [hcore, hv, hl, hb]
    simp

/-- C36: every ref that `verifyTrustedBuilderRef` accepts for a source
repository that is neither of the two privileged repositories is also accepted
for each of the two privileged repositories, with test mode on and with test
mode off. -/
theorem verifyTrustedBuilderRef_monotone (t1 t2 : Bool) (id1 id2 : WorkflowIdentity)
    (ref : Str)
    (h1 : id1.SourceRepository ≠ "slsa-framework/slsa-github-generator".toList)
    (h2 : id1.SourceRepository ≠ "slsa-framework/example-package".toList)
    (hp : id2.SourceRepository = "slsa-framework/slsa-github-generator".toList ∨
      id2.SourceRepository = "slsa-framework/example-package".toList)
    (h : verifyTrustedBuilderRef t1 id1 ref = .ok ()) :
    verifyTrustedBuilderRef t2 id2 ref = .ok () := by
  have hg : ¬ ((id1.SourceRepository = trustedBuilderRepository ∨
      id1.SourceRepository = e2eTestRepository) ∧ t1 = true) := by
    rintro ⟨k | k, -⟩
    · exact h1 k
    · exact h2 k
  have hf : isFullVersionRef ref := (verifyTrustedBuilderRef_general t1 id1 hg ref).1.mp h
  cases t2 with
  | true => exact verifyTrustedBuilderRef_privileged_full id2 hp ref hf
  | false =>
    exact (verifyTrustedBuilderRef_general false id2 (fun k => Bool.noConfusion k.2) ref).1.mpr hf

/-- C36, at the ref `refs/tags/v1.2.3`, accepted for `octo/repo` and so for
the builder repository in test mode. -/
theorem verifyTrustedBuilderRef_monotone_witness :
    verifyTrustedBuilderRef true (mkIdentity trustedBuilderRepository [] [])
      "refs/tags/v1.2.3".toList = .ok () :=
  verifyTrustedBuilderRef_monotone false true (mkIdentity "octo/repo".toList [] [])
    (mkIdentity trustedBuilderRepository [] []) "refs/tags/v1.2.3".toList
    (by decide) (by decide) (Or.inl rfl) (by decide)

end gha

/-! ## The claim on `getPackageNameAndVersion` -/

namespace gha

/-- C38, as stated, fails: the empty package name holds no `@`, and for it and
the version `1.0.0` the function reads `@1.0.0` as a scoped name without
version. -/
theorem getPackageNameAndVersion_empty_name :
    getPackageNameAndVersion ([] ++ "@".toList ++ "1.0.0".toList) =
      .ok ("@1.0.0".toList, []) ∧
    getPackageNameAndVersion ([] ++ "@".toList ++ "1.0.0".toList) ≠
      .ok ([], "1.0.0".toList) := by
  decide

/-- C38, amended: for every non-empty package name `p` that holds no `@` other
than an optional leading one, and every version `v` that holds no `@`:
`getPackageNameAndVersion (p ++ "@" ++ v)` is `(p, v)` and
`getPackageNameAndVersion p` is `(p, "")`; and for every string that, after
the removal of an optional leading `@`, holds two or more `@`, the function
fails with `ErrorInvalidPackageName`. -/
theorem getPackageNameAndVersion_spec :
    (∀ p v : Str, p ≠ [] → '@' ∉ p.tail → '@' ∉ v →
      getPackageNameAndVersion (p ++ "@".toList ++ v) = .ok (p, v) ∧
      getPackageNameAndVersion p = .ok (p, [])) ∧
    (∀ s : Str, 2 ≤ (if s.head? = some '@' then s.tail else s).count '@' →
      getPackageNameAndVersion s = .error Err.ErrorInvalidPackageName) := by
  have hpos : ∀ t : Str, strings.HasPrefix ('@' :: t) "@".toList = true :=
    fun t => (strings.HasPrefix_iff _ _).mpr ⟨t, rfl⟩
  have hneg : ∀ s : Str, s.head? ≠ some '@' → strings.HasPrefix s "@".toList = false := by
    intro s hs
    cases hh : strings.HasPrefix s "@".toList with
    | false => rfl
    | true =>
      obtain ⟨t, ht⟩ := (strings.HasPrefix_iff _ _).mp hh
      exact absurd (by rw [ht]; rfl) hs
  constructor
  · intro p v hp ht hv
    cases p with
    | nil => exact absurd rfl hp
    | cons a q =>
      have hq : '@' ∉ q := ht
      by_cases ha : a = '@'
      · subst ha
        constructor
        · unfold getPackageNameAndVersion
          have h1 : strings.HasPrefix ('@' :: q ++ "@".toList ++ v) "@".toList = true :=
            hpos _
          simp only [h1, if_true]
          have h2 : List.drop 1 ('@' :: q ++ "@".toList ++ v) = q ++ '@' :: v := by
            simp
          rw [h2, strings.Split_pair q v '@' hq hv]
          rfl
        · unfold getPackageNameAndVersion
          have h1 : strings.HasPrefix ('@' :: q) "@".toList = true := hpos _
          simp only [h1, if_true]
          have h2 : List.drop 1 ('@' :: q) = q := rfl
          rw [h2, strings.Split_of_not_mem q '@' hq]
          rfl
      · have hn : '@' ∉ a :: q := by
          intro hm
          rcases List.mem_cons.1 hm with e | e
          · exact ha e.symm
          · exact hq e
        constructor
        · unfold getPackageNameAndVersion
          have h1 : strings.HasPrefix (a :: q ++ "@".toList ++ v) "@".toList = false :=
            hneg _ (fun e => ha (Option.some.inj e))
          simp only [h1]
          have h2 : a :: q ++ "@".toList ++ v = (a :: q) ++ '@' :: v := by simp
          rw [h2]
          simp only [Bool.false_eq_true, if_false]
          rw [strings.Split_pair (a :: q) v '@' hn hv]
          rfl
        · unfold getPackageNameAndVersion
          have h1 : strings.HasPrefix (a :: q) "@".toList = false :=
            hneg _ (fun e => ha (Option.some.inj e))
          simp only [h1, Bool.false_eq_true, if_false]
          rw [strings.Split_of_not_mem (a :: q) '@' hn]
          rfl
  · intro s hc
    unfold getPackageNameAndVersion
    by_cases hh : s.head? = some '@'
    · rw [if_pos hh] at hc
      have h1 : strings.HasPrefix s "@".toList = true := by
        cases s with
        | nil => exact Option.noConfusion hh
        | cons a t =>
          have ha : a = '@' := Option.some.inj hh
          rw [ha]
          exact hpos t
      simp only [h1, if_true]
      have e : List.drop 1 s = s.tail := by cases s <;> rfl
      rw [e]
      have hl := strings.Split_length s.tail '@'
      rw [if_pos (by omega)]
    · rw [if_neg hh] at hc
      simp only [hneg s hh, Bool.false_eq_true, if_false]
      have hl := strings.Split_length s '@'
      rw [if_pos (by omega)]

/-- C38, amended, at the scoped package name `@scope/pkg` and the version
`1.0.0`. -/
theorem getPackageNameAndVersion_spec_witness :
    getPackageNameAndVersion ("@scope/pkg".toList ++ "@".toList ++ "1.0.0".toList) =
      .ok ("@scope/pkg".toList, "1.0.0".toList) ∧
    getPackageNameAndVersion "@scope/pkg".toList = .ok ("@scope/pkg".toList, []) :=
  getPackageNameAndVersion_spec.1 "@scope/pkg".toList "1.0.0".toList (by decide) (by decide)
    (by decide)

end gha

/-! ## The claims on the reading of the extensions and on the cached options -/

namespace gha

open utils

/-- C33 fails on the code: `getExtension` returns the value of the first
extension whose identifier holds the requested OID as a substring.  The
example certificate with the extension `1.3.6.1.4.1.57264.1.10` listed last is
accepted, with the trusted issuer.  With the same extensions and
`1.3.6.1.4.1.57264.1.10` listed first, the read of `1.3.6.1.4.1.57264.1.1`
returns the value of `1.3.6.1.4.1.57264.1.10`, and the certificate is rejected
with `ErrorInvalidFormat`. -/
theorem GetWorkflowInfoFromCertificate_reordered_extensions :
    (subjectShaExtension :: sampleExtensions).Perm (sampleExtensions ++ [subjectShaExtension]) ∧
    (∃ id, GetWorkflowInfoFromCertificate sampleUnmarshal
        ⟨sampleExtensions ++ [subjectShaExtension], sampleURIs⟩ = .ok id ∧
      id.Issuer = "https://token.actions.githubusercontent.com".toList) ∧
    getExtension sampleUnmarshal ⟨subjectShaExtension :: sampleExtensions, sampleURIs⟩
      "1.3.6.1.4.1.57264.1.1".toList false = .ok subjectShaExtension.Value ∧
    subjectShaExtension.Id ≠ "1.3.6.1.4.1.57264.1.1".toList ∧
    GetWorkflowInfoFromCertificate sampleUnmarshal
      ⟨subjectShaExtension :: sampleExtensions, sampleURIs⟩ = .error Err.ErrorInvalidFormat :=
  ⟨(List.perm_append_singleton subjectShaExtension sampleExtensions).symm,
    ⟨identityOf { sampleValues with subjectSha1 := "0dfcd248".toList }
      "/org/builder/.github/workflows/b.yml@refs/tags/v1.2.3".toList, by decide, by decide⟩,
    by decide, by decide, by decide⟩

/-- C32 fails on the code: no call of `getDefaultCosignCheckOpts` returns an
error.  The `err` that the function tests after `Do` is never assigned, the
function literal assigning an `err` of its own; so a call returns the cached
options with a nil error, or does not return. -/
theorem getDefaultCosignCheckOpts_no_error (f : Fetches) (s : CosignState)
    (opts : Option CheckOpts) (e : Err) :
    (getDefaultCosignCheckOpts f s).1 ≠ CallEnd.returned opts (some e) := by
  unfold getDefaultCosignCheckOpts
  by_cases h1 : s.defaultCosignCheckOptsOnce.done = true
  · rw [if_pos h1]
    intro h
    exact Option.noConfusion (CallEnd.returned.inj h).2
  · rw [if_neg h1]
    by_cases h2 : s.defaultCosignCheckOptsOnce.locked = true
    · rw [if_pos h2]
      intro h
      exact CallEnd.noConfusion h
    · rw [if_neg h2]
      simp only
      split
      · intro h
        exact Option.noConfusion (CallEnd.returned.inj h).2
      · intro h
        exact CallEnd.noConfusion h

end gha

/-! ## The claim on `VerifyNpmPackage` -/

namespace gha

open utils

/-- The steps of `VerifyNpmPackage` up to the check of the headers, when the
two bundle verifications succeed: the state then holds the two verified
attestations and no verified builder ID. -/
theorem VerifyNpmPackage_of_verified {ρ : Type} (lib : NpmLib ρ) (unmarshal : Asn1Unmarshal)
    (testingEnabled : Bool) (builderGitHubRunnerID : Str)
    (VerifyNpmPackageProvenance : Envelope → ProvenanceOpts → Except Err Unit)
    (prov pub : SignedAttestation) (provenanceOpts : ProvenanceOpts)
    (builderOpts : Option BuilderOpts)
    (hpub : lib.verifyPublishEnvelope pub.Envelope = .ok ())
    (hh : Npm.verifyIntotoHeaders lib ⟨none, some prov, some pub⟩ = .returned (.ok ())) :
    VerifyNpmPackage lib unmarshal testingEnabled builderGitHubRunnerID
      VerifyNpmPackageProvenance (.ok ()) (.ok ()) (.ok prov) (.ok pub) provenanceOpts
      builderOpts =
    match Npm.verifyPackageName lib ⟨none, some prov, some pub⟩
        provenanceOpts.ExpectedPackageName with
    | .nilDereference => .nilDereference
    | .returned (.error e) => .returned (.error e)
    | .returned (.ok _) =>
      match Npm.verifyPackageVersion lib ⟨none, some prov, some pub⟩
          provenanceOpts.ExpectedPackageVersion with
      | .nilDereference => .nilDereference
      | .returned (.error e) => .returned (.error e)
      | .returned (.ok _) =>
        match prov.SigningCert with
        | none => .nilDereference
        | some cert =>
          match verifyNpmEnvAndCert unmarshal testingEnabled builderGitHubRunnerID
              VerifyNpmPackageProvenance prov.Envelope cert provenanceOpts builderOpts
              defaultBYOBReusableWorkflows with
          | .error e => .returned (.error e)
          | .ok builder => .returned (.ok ([], builder)) := by
  unfold VerifyNpmPackage
  simp only [Npm.verifyProvenanceAttestationSignature, Npm.verifyPublishAttesttationSignature,
    hpub, hh, Npm.ProvenanceEnvelope, Npm.ProvenanceLeafCertificate]
  cases hn : Npm.verifyPackageName lib ⟨none, some prov, some pub⟩
      provenanceOpts.ExpectedPackageName with
  | nilDereference => rfl
  | returned r =>
    cases r with
    | error e => rfl
    | ok u =>
      simp only
      cases hv : Npm.verifyPackageVersion lib ⟨none, some prov, some pub⟩
          provenanceOpts.ExpectedPackageVersion with
      | nilDereference => rfl
      | returned r2 =>
        cases r2 with
        | error e => rfl
        | ok u2 =>
          simp only
          cases prov.SigningCert with
          | none => rfl
          | some cert => rfl

/-- C37 fails on the code: `VerifyNpmPackage` runs `verifyPackageName` and
`verifyPackageVersion` on the state that `NpmNew` and the two signature checks
have built, in which `verifiedBuilderID` is unset, the method `verifyBuilderID`
that sets it being called nowhere.  So whenever the signatures and the headers
verify and an expected package name or an expected package version is
supplied, the call ends in the dereference of the absent builder ID. -/
theorem VerifyNpmPackage_unset_builder {ρ : Type} (lib : NpmLib ρ) (unmarshal : Asn1Unmarshal)
    (testingEnabled : Bool) (builderGitHubRunnerID : Str)
    (VerifyNpmPackageProvenance : Envelope → ProvenanceOpts → Except Err Unit)
    (prov pub : SignedAttestation) (provenanceOpts : ProvenanceOpts)
    (builderOpts : Option BuilderOpts)
    (hpub : lib.verifyPublishEnvelope pub.Envelope = .ok ())
    (hh : Npm.verifyIntotoHeaders lib ⟨none, some prov, some pub⟩ = .returned (.ok ()))
    (hn : provenanceOpts.ExpectedPackageName ≠ none ∨
      provenanceOpts.ExpectedPackageVersion ≠ none) :
    VerifyNpmPackage lib unmarshal testingEnabled builderGitHubRunnerID
      VerifyNpmPackageProvenance (.ok ()) (.ok ()) (.ok prov) (.ok pub) provenanceOpts
      builderOpts = Run.nilDereference := by
  rw [VerifyNpmPackage_of_verified lib unmarshal testingEnabled builderGitHubRunnerID
    VerifyNpmPackageProvenance prov pub provenanceOpts builderOpts hpub hh]
  cases hname : provenanceOpts.ExpectedPackageName with
  | some name => rfl
  | none =>
    cases hversion : provenanceOpts.ExpectedPackageVersion with
    | some version => rfl
    | none =>
      rcases hn with h | h
      · exact absurd hname h
      · exact absurd hversion h

/-- C37, at the example attestations and the expected package name `pkg`:
the call panics, although the subject of the provenance is `pkg@1.0.0`. -/
theorem VerifyNpmPackage_unset_builder_witness :
    VerifyNpmPackage sampleNpmLib sampleUnmarshal false sampleRunnerID (fun _ _ => .ok ())
      (.ok ()) (.ok ()) (.ok sampleProvenanceAtt) (.ok samplePublishAtt)
      { sampleProvenanceOpts with ExpectedPackageName := some "pkg".toList }
      (some ⟨some sampleRunnerID⟩) = Run.nilDereference :=
  VerifyNpmPackage_unset_builder sampleNpmLib sampleUnmarshal false sampleRunnerID
    (fun _ _ => .ok ()) sampleProvenanceAtt samplePublishAtt
    { sampleProvenanceOpts with ExpectedPackageName := some "pkg".toList }
    (some ⟨some sampleRunnerID⟩) rfl (by decide) (Or.inl (by decide))

/-- Without an expected package name and version, the example call returns
the empty provenance and the builder ID of the delegator workflow. -/
theorem VerifyNpmPackage_without_names :
    VerifyNpmPackage sampleNpmLib sampleUnmarshal false sampleRunnerID (fun _ _ => .ok ())
      (.ok ()) (.ok ()) (.ok sampleProvenanceAtt) (.ok samplePublishAtt)
      sampleProvenanceOpts (some ⟨some sampleRunnerID⟩) =
    Run.returned (.ok ([], ⟨httpsGithubCom ++ delegatorLowPermsGenericReusableWorkflow,
      "refs/tags/v1.2.3".toList⟩)) := by
  decide

/-- The check of the package name passes on the example state once the
verified builder ID is set, as `verifyBuilderID` sets it. -/
theorem verifyPackageName_with_builder :
    Npm.verifyPackageName sampleNpmLib
      ⟨some ⟨httpsGithubCom ++ delegatorLowPermsGenericReusableWorkflow,
          "refs/tags/v1.2.3".toList⟩,
        some sampleProvenanceAtt, some samplePublishAtt⟩ (some "pkg".toList) =
      Run.returned (.ok ()) ∧
    Npm.verifyBuilderID sampleUnmarshal false sampleRunnerID (fun _ _ => .ok ())
      ⟨none, some sampleProvenanceAtt, some samplePublishAtt⟩ sampleProvenanceOpts
      (some ⟨some sampleRunnerID⟩) defaultBYOBReusableWorkflows =
      Run.returned (.ok ⟨httpsGithubCom ++ delegatorLowPermsGenericReusableWorkflow,
          "refs/tags/v1.2.3".toList⟩,
        ⟨some ⟨httpsGithubCom ++ delegatorLowPermsGenericReusableWorkflow,
            "refs/tags/v1.2.3".toList⟩,
          some sampleProvenanceAtt, some samplePublishAtt⟩) := by
  decide

end gha
